import Mathlib

/-!
# chart-releaser: versions, update strategies, the error collector and the pipeline

A shallow embedding of the `Semver` type of `pkg/semver/semver.go` together with
the parts of the `github.com/blang/semver` package it delegates to
(`Parse`, `NewPRVersion`, `PRVersion.String`, `Version.Compare`), of
`pkg/strategies` and of `pkg/errs/collector.go`, and of the parts of `pkg/v1`
that carry a run: the context, the pipeline, the publish stage, the validation of
the configuration and the parsing of the repository string.

Conventions of the embedding:
* a Go `string` is a `List Char` (`Str`); every separator the code searches for
  (`.`, `+`, `-`) is a one-byte rune, so positions in the list and byte offsets
  cut a string at the same places;
* a `uint64` is a `Nat` below `2 ^ 64`; increments are taken modulo `2 ^ 64`;
* a Go `(T, error)` result is an `Except`, or a pair with an optional error where
  the code returns a value beside the error; a panic is `none`;
* a method that writes to its receiver returns the receiver it leaves;
* the records `Semver` and `Version` hold the elements of their slices; the
  records `SemverAt` and `VersionAt` hold slice headers into a heap of arrays,
  for the methods whose effect passes through a shared array;
* the pointer field `versionCtx` of `Semver` is read by none of the modelled
  operations and is left out of the record.
-/

namespace ChartReleaser

/-- A Go string, as the list of its characters. -/
abbrev Str := List Char

deriving instance DecidableEq for Except

/-- The modulus of `uint64` arithmetic. -/
def uint64Size : Nat := 2 ^ 64

/-! ## `github.com/blang/semver` -/

/-- Which part of a version string an error message names. -/
inductive Part
  | major
  | minor
  | patch
  | prerelease
  | buildMeta
  deriving DecidableEq

/-- Modelled from the spec: the error values of `github.com/blang/semver` and
`strconv`, both dependencies; one constructor per message ("Version string empty",
"No Major.Minor.Patch elements found", "Invalid character(s) found in ...", "...
must not contain leading zeroes", the `strconv.ParseUint` syntax and range errors,
"Prerelease is empty", "Build meta data is empty"), each naming the offending
element. -/
inductive ParseError
  | versionEmpty
  | noElements
  | invalidChars (part : Part) (s : Str)
  | leadingZeroes (part : Part) (s : Str)
  | uintSyntax (s : Str)
  | uintRange (s : Str)
  | prereleaseEmpty
  | buildEmpty
  deriving DecidableEq

/-- Modelled from the spec: the character set `numbers` of
`github.com/blang/semver`. -/
def numbers : Str := "0123456789".toList

/-- Modelled from the spec: the character set `alphas` of
`github.com/blang/semver`. -/
def alphas : Str := "abcdefghijklmnopqrstuvwxyzABCDEFGHIJKLMNOPQRSTUVWXYZ-".toList

/-- Modelled from the spec: the character set `alphanum` of
`github.com/blang/semver`. -/
def alphanum : Str := alphas ++ numbers

/-- Modelled from the spec: `containsOnly` of `github.com/blang/semver` (a
dependency): every character of `s` belongs to `set`. -/
def containsOnly (s : Str) (set : Str) : Bool :=
  s.all (fun r => set.contains r)

/-- Modelled from the spec: `hasLeadingZeroes` of `github.com/blang/semver` (a
dependency): `len(s) > 1 && s[0] == '0'`, a numeric string with a leading zero that
is not exactly "0". -/
def hasLeadingZeroes (s : Str) : Bool :=
  match s with
  | c :: _ :: _ => c == '0'
  | _ => false

/-- Modelled from the spec: the value of a decimal digit character in
`strconv.ParseUint`. -/
def digitVal (c : Char) : Nat := c.toNat - 48

/-- Modelled from the spec: the accumulation loop of `strconv.ParseUint`, the value
of a string of decimal digits, most significant first, on top of an accumulator. -/
def digitsVal : Str → Nat → Nat
  | [], acc => acc
  | c :: cs, acc => digitsVal cs (acc * 10 + digitVal c)

/-- Modelled from the spec: `strconv.ParseUint(s, 10, 64)` of the Go standard
library (a dependency): a non-empty string of decimal digits whose value fits in 64
bits; anything else is a syntax or range error. -/
def ParseUint (s : Str) : Except ParseError Nat :=
  if s = [] then .error (.uintSyntax s)
  else if !containsOnly s numbers then .error (.uintSyntax s)
  else if digitsVal s 0 < uint64Size then .ok (digitsVal s 0)
  else .error (.uintRange s)

/-- Modelled from the spec: `strconv.FormatUint(n, 10)` / the `%d` verb of the
Go standard library (a dependency): the decimal digits of `n`, without leading
zeros. -/
def FormatUint (n : Nat) : Str := Nat.toDigits 10 n

/-- Modelled from the spec: `strings.IndexRune` of the Go standard library (a
dependency): the position of the first occurrence of `r`, or none (Go: -1). -/
def IndexRune : Str → Char → Option Nat
  | [], _ => none
  | c :: cs, r => if c = r then some 0 else (IndexRune cs r).map (· + 1)

/-- Modelled from the spec: `strings.Split(s, sep)` of the Go standard library (a
dependency) for a one-character separator: the pieces between the separators; the
empty string gives one empty piece. -/
def Split : Str → Char → List Str
  | [], _ => [[]]
  | c :: cs, sep =>
    if c = sep then [] :: Split cs sep
    else
      match Split cs sep with
      | [] => [[c]]
      | p :: ps => (c :: p) :: ps

/-- Modelled from the spec: `strings.SplitN(s, sep, n)` of the Go standard library
(a dependency) for a one-character separator and `n ≥ 0`: at most `n` pieces, the
last one being the unsplit remainder. -/
def SplitN (s : Str) (sep : Char) : Nat → List Str
  | 0 => []
  | 1 => [s]
  | n + 2 =>
    match IndexRune s sep with
    | none => [s]
    | some i => s.take i :: SplitN (s.drop (i + 1)) sep (n + 1)

/-- Modelled from the spec: `strings.Join(elems, sep)` of the Go standard library (a
dependency) for a one-character separator. -/
def Join : List Str → Char → Str
  | [], _ => []
  | [p], _ => p
  | p :: q :: ps, sep => p ++ sep :: Join (q :: ps) sep

/-- Modelled from the spec: the type `PRVersion` of `github.com/blang/semver`, one
prerelease identifier. -/
structure PRVersion where
  VersionStr : Str
  VersionNum : Nat
  IsNum : Bool
  deriving DecidableEq

/-- Modelled from the spec: the type `Version` of `github.com/blang/semver`. -/
structure Version where
  Major : Nat
  Minor : Nat
  Patch : Nat
  Pre : List PRVersion
  Build : List Str
  deriving DecidableEq

/-- Modelled from the spec: `NewPRVersion` of `github.com/blang/semver` (a
dependency): an identifier is non-empty; if purely numeric it must not have a
leading zero unless it is exactly "0", and is stored as a number; otherwise it must
be alphanumeric/hyphen and is stored as a string. -/
def NewPRVersion (s : Str) : Except ParseError PRVersion :=
  if s.length = 0 then .error .prereleaseEmpty
  else if containsOnly s numbers then
    if hasLeadingZeroes s then .error (.leadingZeroes .prerelease s)
    else
      match ParseUint s with
      | .error e => .error e
      | .ok num => .ok { VersionStr := [], VersionNum := num, IsNum := true }
  else if containsOnly s alphanum then
    .ok { VersionStr := s, VersionNum := 0, IsNum := false }
  else .error (.invalidChars .prerelease s)

/-- Modelled from the spec: `PRVersion.IsNumeric` of `github.com/blang/semver`. -/
def PRVersion.IsNumeric (v : PRVersion) : Bool := v.IsNum

/-- Modelled from the spec: `PRVersion.String` of `github.com/blang/semver` (a
dependency): the number in decimal for a numeric identifier, the stored string
otherwise. -/
def PRVersion.String (v : PRVersion) : Str :=
  if v.IsNum then FormatUint v.VersionNum else v.VersionStr

/-- Modelled from the spec: the prerelease loop of `Parse`: each identifier goes
through `NewPRVersion`, the first error aborts. -/
def parsePrerelease : List Str → Except ParseError (List PRVersion)
  | [] => .ok []
  | prstr :: rest =>
    match NewPRVersion prstr with
    | .error e => .error e
    | .ok parsedPR =>
      match parsePrerelease rest with
      | .error e => .error e
      | .ok pre => .ok (parsedPR :: pre)

/-- Modelled from the spec: the build loop of `Parse`: each identifier is non-empty
and alphanumeric/hyphen, the first error aborts. -/
def parseBuild : List Str → Except ParseError (List Str)
  | [] => .ok []
  | str :: rest =>
    if str.length = 0 then .error .buildEmpty
    else if !containsOnly str alphanum then .error (.invalidChars .buildMeta str)
    else
      match parseBuild rest with
      | .error e => .error e
      | .ok build => .ok (str :: build)

/-- Modelled from the spec: one of the three numeric components in `Parse`: digits
only, no leading zero, fits in 64 bits. -/
def parseNumber (part : Part) (s : Str) : Except ParseError Nat :=
  if !containsOnly s numbers then .error (.invalidChars part s)
  else if hasLeadingZeroes s then .error (.leadingZeroes part s)
  else ParseUint s

/-- Modelled from the spec: the build part of `MAJOR.MINOR.(patch+pr+meta)` in
`Parse`: the identifiers after the first `+` and the text before it. -/
def cutBuild (patchStr : Str) : List Str × Str :=
  match IndexRune patchStr '+' with
  | some buildIndex => (Split (patchStr.drop (buildIndex + 1)) '.', patchStr.take buildIndex)
  | none => ([], patchStr)

/-- Modelled from the spec: the prerelease part in `Parse`: the identifiers after
the first `-` and the text before it. -/
def cutPrerelease (patchStr : Str) : List Str × Str :=
  match IndexRune patchStr '-' with
  | some preIndex => (Split (patchStr.drop (preIndex + 1)) '.', patchStr.take preIndex)
  | none => ([], patchStr)

/-- Modelled from the spec: `Parse` of `github.com/blang/semver` (a dependency):
`MAJOR.MINOR.PATCH`, then optional `-PRERELEASE`, then optional `+BUILD` (same
identifier grammar, but numeric leading zeros are permitted); malformed input at any
stage fails with an error naming the offending element. -/
def Parse (s : Str) : Except ParseError Version :=
  if s.length = 0 then .error .versionEmpty
  else
    match SplitN s '.' 3 with
    | [p0, p1, p2] =>
      match parseNumber .major p0 with
      | .error e => .error e
      | .ok major =>
        match parseNumber .minor p1 with
        | .error e => .error e
        | .ok minor =>
          match parseNumber .patch (cutPrerelease (cutBuild p2).2).2 with
          | .error e => .error e
          | .ok patch =>
            match parsePrerelease (cutPrerelease (cutBuild p2).2).1 with
            | .error e => .error e
            | .ok pre =>
              match parseBuild (cutBuild p2).1 with
              | .error e => .error e
              | .ok build =>
                .ok { Major := major, Minor := minor, Patch := patch, Pre := pre, Build := build }
    | _ => .error .noElements

/-- Go's `<` on strings: lexicographic order of the character codes, a strict
prefix being the lesser. -/
def strLess : Str → Str → Bool
  | [], [] => false
  | [], _ :: _ => true
  | _ :: _, [] => false
  | a :: as, b :: bs =>
    if a.toNat < b.toNat then true
    else if b.toNat < a.toNat then false
    else strLess as bs

/-- Modelled from the spec: `PRVersion.Compare` of `github.com/blang/semver` (a
dependency): two numeric identifiers compare numerically; a numeric identifier
is always less than a non-numeric one; two non-numeric identifiers compare
lexically. -/
def PRVersion.Compare (v o : PRVersion) : Int :=
  if v.IsNum && !o.IsNum then -1
  else if !v.IsNum && o.IsNum then 1
  else if v.IsNum && o.IsNum then
    if v.VersionNum = o.VersionNum then 0
    else if v.VersionNum > o.VersionNum then 1
    else -1
  else
    if v.VersionStr = o.VersionStr then 0
    else if strLess o.VersionStr v.VersionStr then 1
    else -1

/-- Modelled from the spec: the identifier loop of `Version.Compare` with the length
test that follows it: the first pair that differs decides; when one list runs out
first, the shorter one is the lesser. -/
def comparePre : List PRVersion → List PRVersion → Int
  | [], [] => 0
  | [], _ :: _ => -1
  | _ :: _, [] => 1
  | a :: as, b :: bs =>
    if a.Compare b = 0 then comparePre as bs
    else if a.Compare b = 1 then 1
    else -1

/-- Modelled from the spec: `Version.Compare` of `github.com/blang/semver` (a
dependency): order by major, then minor, then patch, numerically; if these are equal
a version with empty prerelease is greater than one with non-empty prerelease;
otherwise the identifier sequences are compared pairwise. Build metadata is never
read. -/
def Version.Compare (v o : Version) : Int :=
  if v.Major ≠ o.Major then (if v.Major > o.Major then 1 else -1)
  else if v.Minor ≠ o.Minor then (if v.Minor > o.Minor then 1 else -1)
  else if v.Patch ≠ o.Patch then (if v.Patch > o.Patch then 1 else -1)
  else if v.Pre.length = 0 ∧ o.Pre.length = 0 then 0
  else if v.Pre.length = 0 ∧ o.Pre.length > 0 then 1
  else if v.Pre.length > 0 ∧ o.Pre.length = 0 then -1
  else comparePre v.Pre o.Pre

/-! ## `pkg/semver/semver.go` -/

/-- The type `Level`, a `uint8`. -/
abbrev Level := Nat

/-- The constant `LevelNone`. -/
def LevelNone : Level := 0

/-- The constant `LevelPrerelease`. -/
def LevelPrerelease : Level := 1

/-- The constant `LevelPatch`. -/
def LevelPatch : Level := 2

/-- The constant `LevelMinor`. -/
def LevelMinor : Level := 3

/-- The constant `LevelMajor`. -/
def LevelMajor : Level := 4

/-- The error values `ErrVersionLessThanBase`, `ErrNoDrift` and
`ErrFailedVersionCompare`. -/
inductive DriftError
  | ErrVersionLessThanBase
  | ErrNoDrift
  | ErrFailedVersionCompare
  deriving DecidableEq

/-- The struct `Semver`. -/
structure Semver where
  Major : Nat
  Minor : Nat
  Patch : Nat
  Prerelease : Str
  Build : Str
  prerelease : List PRVersion
  build : List PRVersion
  v : Version
  deriving DecidableEq

/-- The build loop of `Load`: every build identifier is parsed again with
`NewPRVersion`, the first error aborts. -/
def loadBuild : List Str → Except ParseError (List PRVersion)
  | [] => .ok []
  | s :: rest =>
    match NewPRVersion s with
    | .error e => .error e
    | .ok v =>
      match loadBuild rest with
      | .error e => .error e
      | .ok build => .ok (v :: build)

/-- The function `Load`. -/
def Load (version : Str) : Except ParseError Semver :=
  match Parse version with
  | .error e => .error e
  | .ok v =>
    match loadBuild v.Build with
    | .error e => .error e
    | .ok build =>
      .ok { Major := v.Major, Minor := v.Minor, Patch := v.Patch,
            Prerelease := Join (v.Pre.map PRVersion.String) '.',
            Build := Join v.Build '.',
            prerelease := v.Pre, build := build, v := v }

/-- The method `Semver.String`. -/
def Semver.String (s : Semver) : Str :=
  (FormatUint s.Major ++ '.' :: FormatUint s.Minor ++ '.' :: FormatUint s.Patch)
    ++ (if s.Prerelease ≠ [] then '-' :: s.Prerelease else [])
    ++ (if s.Build ≠ [] then '+' :: s.Build else [])

/-- The method `Semver.Equals`. -/
def Semver.Equals (s other : Semver) : Bool := decide (s.String = other.String)

/-- The method `Semver.Compare`. -/
def Semver.Compare (s other : Semver) : Int := s.v.Compare other.v

/-- The tail shared by `IncrementMajor`, `IncrementMinor` and `IncrementPatch`:
the underlying version is parsed again from the string form and stored in `v`; a
parse error is a panic (no result). -/
def Semver.reparse (s : Semver) : Option Semver :=
  match Parse s.String with
  | .error _ => none
  | .ok v => some { s with v := v }

/-- The method `Semver.IncrementMajor`, as the version it leaves in the receiver;
`Major++` is a `uint64` increment. -/
def Semver.IncrementMajor (s : Semver) : Option Semver :=
  Semver.reparse { s with Major := (s.Major + 1) % uint64Size, Minor := 0, Patch := 0,
                          Prerelease := [], Build := [] }

/-- The method `Semver.IncrementMinor`, as the version it leaves in the receiver. -/
def Semver.IncrementMinor (s : Semver) : Option Semver :=
  Semver.reparse { s with Minor := (s.Minor + 1) % uint64Size, Patch := 0,
                          Prerelease := [], Build := [] }

/-- The method `Semver.IncrementPatch`, as the version it leaves in the receiver. -/
def Semver.IncrementPatch (s : Semver) : Option Semver :=
  Semver.reparse { s with Patch := (s.Patch + 1) % uint64Size,
                          Prerelease := [], Build := [] }

/-- The search loop of `IncrementPrerelease`, run on the identifiers listed from
the last to the first: the first numeric identifier met is incremented and the
search stops; the flag is `incremented`. -/
def bumpNumeric : List PRVersion → List PRVersion × Bool
  | [] => ([], false)
  | p :: ps =>
    if p.IsNumeric then
      ({ p with VersionNum := (p.VersionNum + 1) % uint64Size } :: ps, true)
    else ((p :: (bumpNumeric ps).1), (bumpNumeric ps).2)

/-- The identifier list `IncrementPrerelease` leaves in `s.prerelease`. -/
def nextPrerelease (s : Semver) : List PRVersion :=
  if s.Prerelease = [] then
    [{ VersionStr := "pre".toList, VersionNum := 0, IsNum := false },
     { VersionStr := [], VersionNum := 1, IsNum := true }]
  else if (bumpNumeric s.prerelease.reverse).2 then (bumpNumeric s.prerelease.reverse).1.reverse
  else s.prerelease ++ [{ VersionStr := [], VersionNum := 1, IsNum := true }]

/-- The method `Semver.IncrementPrerelease`, as the fields it leaves in the
receiver: `prerelease` and `Prerelease` are rewritten, `v` is not assigned. In
memory `v.Pre` may lie on the array that `VersionNum++` writes to; the method
with that effect is `SemverAt.IncrementPrerelease`, and `IncrementPrerelease_read`
relates the two. -/
def Semver.IncrementPrerelease (s : Semver) : Semver :=
  { s with prerelease := nextPrerelease s,
           Prerelease := Join ((nextPrerelease s).map PRVersion.String) '.' }

/-- The method `Semver.Increment`, as the version it leaves in the receiver; a
panic is no result. -/
def Semver.Increment (s : Semver) (level : Level) : Option Semver :=
  if level = LevelMajor then s.IncrementMajor
  else if level = LevelMinor then s.IncrementMinor
  else if level = LevelPatch then s.IncrementPatch
  else if level = LevelPrerelease then some s.IncrementPrerelease
  else if level = LevelNone then some s
  else none

/-- The method `Semver.FindDrift`; a nil error is `none`. -/
def Semver.FindDrift (s base : Semver) : Level × Bool × Option DriftError :=
  if s.Compare base = -1 then (LevelNone, false, some .ErrVersionLessThanBase)
  else if s.Compare base = 0 then (LevelNone, false, some .ErrNoDrift)
  else if s.Compare base = 1 then
    ((if s.Major ≠ base.Major then LevelMajor
      else if s.Minor ≠ base.Minor then LevelMinor
      else if s.Patch ≠ base.Patch then LevelPatch
      else if s.Prerelease ≠ base.Prerelease then LevelPrerelease
      else LevelNone),
     decide (s.Prerelease ≠ []), none)
  else (LevelNone, false, some .ErrFailedVersionCompare)

/-! ## The precedence rule in the words of the specification -/

/-- Three-way comparison of two numbers: -1, 0 or 1. -/
def compareNat (a b : Nat) : Int :=
  if a < b then -1 else if a = b then 0 else 1

/-- An identifier is numeric when it is a non-empty string of digits. -/
def isNumericIdent (s : Str) : Bool := s ≠ [] && containsOnly s numbers

/-- The specification's rule for two identifiers: two numeric identifiers
compare numerically; a numeric identifier is always less than a non-numeric one;
two non-numeric identifiers compare lexically. -/
def compareIdentSpec (a b : Str) : Int :=
  if isNumericIdent a && isNumericIdent b then compareNat (digitsVal a 0) (digitsVal b 0)
  else if isNumericIdent a then -1
  else if isNumericIdent b then 1
  else if a = b then 0
  else if strLess a b then -1
  else 1

/-- The specification's rule for two identifier sequences: pairwise, left to
right; if one sequence is a strict prefix of the other, the shorter is lesser. -/
def compareIdentsSpec : List Str → List Str → Int
  | [], [] => 0
  | [], _ :: _ => -1
  | _ :: _, [] => 1
  | a :: as, b :: bs =>
    if compareIdentSpec a b ≠ 0 then compareIdentSpec a b else compareIdentsSpec as bs

/-- The dot-separated identifiers of a prerelease string; none for the empty
string. -/
def identifiers (pre : Str) : List Str :=
  if pre = [] then [] else Split pre '.'

/-- The precedence reference definition, read off the visible fields `Major`,
`Minor`, `Patch` and `Prerelease`: order by major, then minor, then patch,
numerically; if these are equal a version with empty prerelease is greater than
one with non-empty prerelease; if both have a prerelease the identifier
sequences are compared. `Build` is not read. -/
def precedenceSpec (a b : Semver) : Int :=
  if a.Major ≠ b.Major then compareNat a.Major b.Major
  else if a.Minor ≠ b.Minor then compareNat a.Minor b.Minor
  else if a.Patch ≠ b.Patch then compareNat a.Patch b.Patch
  else if a.Prerelease = [] ∧ b.Prerelease = [] then 0
  else if a.Prerelease = [] then 1
  else if b.Prerelease = [] then -1
  else compareIdentsSpec (identifiers a.Prerelease) (identifiers b.Prerelease)

/-! ## Auxiliary definitions -/

/-- The identifier `NewPRVersion` builds from `s`, with a placeholder where it
fails. -/
def prOf (s : Str) : PRVersion :=
  match NewPRVersion s with
  | .ok p => p
  | .error _ => { VersionStr := [], VersionNum := 0, IsNum := false }

/-- The version `Load` returns for `major.minor.patch` with the given prerelease
and build identifiers. -/
def mkSemver (major minor patch : Nat) (pre build : List Str) : Semver :=
  { Major := major, Minor := minor, Patch := patch,
    Prerelease := Join pre '.', Build := Join build '.',
    prerelease := pre.map prOf, build := build.map prOf,
    v := { Major := major, Minor := minor, Patch := patch, Pre := pre.map prOf, Build := build } }

/-! ## Memory: the backing arrays of the `[]PRVersion` slices

`Copy` copies the slice header `prerelease`, not the array behind it, and `Load`
stores one and the same slice in `prerelease` and in `v.Pre`; `IncrementPrerelease`
then writes `VersionNum++` into that array. The definitions below place the
identifier arrays in a heap, so that a write through one slice is seen through
every other slice on the same array. The records `Semver` and `Version` above are
what the records below hold when their slices are read. -/

/-- A slice header of type `[]semver.PRVersion`: the backing array (its index in
the heap), the length and the capacity. Every slice of this program starts at
the first cell of its array. -/
structure Slice where
  addr : Nat
  len : Nat
  cap : Nat
  deriving DecidableEq

/-- The nil slice. -/
def Slice.nil : Slice := { addr := 0, len := 0, cap := 0 }

/-- The heap: the backing arrays, in the order of their allocation. -/
structure Heap where
  arrays : List (List PRVersion)
  deriving DecidableEq

/-- The zero value of `PRVersion`, which fills the unused cells of an array. -/
def zeroPR : PRVersion := { VersionStr := [], VersionNum := 0, IsNum := false }

/-- The array at an address. -/
def Heap.array (h : Heap) (addr : Nat) : List PRVersion := h.arrays.getD addr []

/-- The elements of a slice. -/
def Heap.read (h : Heap) (s : Slice) : List PRVersion := (h.array s.addr).take s.len

/-- A slice is valid in a heap when its length is within its capacity and its
capacity within its array. -/
abbrev Heap.Valid (h : Heap) (s : Slice) : Prop :=
  s.len ≤ s.cap ∧ s.cap ≤ (h.array s.addr).length

/-- A new array holding `xs`, with room for `cap` elements when that is more. -/
def Heap.alloc (h : Heap) (xs : List PRVersion) (cap : Nat) : Slice × Heap :=
  ({ addr := h.arrays.length, len := xs.length, cap := xs.length + (cap - xs.length) },
   { arrays := h.arrays ++ [xs ++ List.replicate (cap - xs.length) zeroPR] })

/-- Writing `xs` over the first cells of the array of `s`. -/
def Heap.store (h : Heap) (s : Slice) (xs : List PRVersion) : Heap :=
  { arrays := h.arrays.set s.addr (xs ++ (h.array s.addr).drop xs.length) }

/-- The built-in `append(s, x)`: the next cell of the same array when the
capacity allows, a new array otherwise. The capacity the Go runtime gives a
grown array is the parameter `grow`, a function of the old capacity. -/
def Heap.append (grow : Nat → Nat) (h : Heap) (s : Slice) (x : PRVersion) : Slice × Heap :=
  if s.len < s.cap then
    ({ addr := s.addr, len := s.len + 1, cap := s.cap },
     { arrays := h.arrays.set s.addr ((h.array s.addr).set s.len x) })
  else h.alloc (h.read s ++ [x]) (grow s.cap)

/-- A loop `for ... { s = append(s, x) }` over the elements `xs`. -/
def Heap.appendAll (grow : Nat → Nat) (h : Heap) (s : Slice) : List PRVersion → Slice × Heap
  | [] => (s, h)
  | x :: xs => Heap.appendAll grow (h.append grow s x).2 (h.append grow s x).1 xs

/-- Modelled from the spec: the type `Version` of `github.com/blang/semver` in
memory, where `Pre` is a slice. -/
structure VersionAt where
  Major : Nat
  Minor : Nat
  Patch : Nat
  Pre : Slice
  Build : List Str
  deriving DecidableEq

/-- Modelled from the spec: the zero value `semver.Version{}`. -/
def VersionAt.zero : VersionAt :=
  { Major := 0, Minor := 0, Patch := 0, Pre := Slice.nil, Build := [] }

/-- The version a `semver.Version` holds when `Pre` is read in the heap `h`. -/
def VersionAt.read (v : VersionAt) (h : Heap) : Version :=
  { Major := v.Major, Minor := v.Minor, Patch := v.Patch, Pre := h.read v.Pre, Build := v.Build }

/-- Modelled from the spec: `Parse` of `github.com/blang/semver` (a dependency) in
memory: the identifiers `Parse` accepts are appended one by one to the nil slice
`v.Pre`. -/
def ParseAt (grow : Nat → Nat) (s : Str) (h : Heap) : Except ParseError (VersionAt × Heap) :=
  match Parse s with
  | .error e => .error e
  | .ok v =>
    .ok ({ Major := v.Major, Minor := v.Minor, Patch := v.Patch,
           Pre := (h.appendAll grow Slice.nil v.Pre).1, Build := v.Build },
         (h.appendAll grow Slice.nil v.Pre).2)

/-- The struct `Semver` in memory: `prerelease` is a slice. The slice `build` is
never read or written after `Load` and is kept as its elements. -/
structure SemverAt where
  Major : Nat
  Minor : Nat
  Patch : Nat
  Prerelease : Str
  Build : Str
  prerelease : Slice
  build : List PRVersion
  v : VersionAt
  deriving DecidableEq

/-- The fields a `Semver` holds in the heap `h`. -/
def SemverAt.read (s : SemverAt) (h : Heap) : Semver :=
  { Major := s.Major, Minor := s.Minor, Patch := s.Patch,
    Prerelease := s.Prerelease, Build := s.Build,
    prerelease := h.read s.prerelease, build := s.build, v := s.v.read h }

/-- The function `Load` in memory: `prerelease` and `v.Pre` are the same slice. -/
def LoadAt (grow : Nat → Nat) (version : Str) (h : Heap) :
    Except ParseError (SemverAt × Heap) :=
  match ParseAt grow version h with
  | .error e => .error e
  | .ok (v, h1) =>
    match loadBuild v.Build with
    | .error e => .error e
    | .ok build =>
      .ok ({ Major := v.Major, Minor := v.Minor, Patch := v.Patch,
             Prerelease := Join ((h1.read v.Pre).map PRVersion.String) '.',
             Build := Join v.Build '.',
             prerelease := v.Pre, build := build, v := v }, h1)

/-- The method `Semver.String`, which reads no slice. -/
def SemverAt.String (s : SemverAt) : Str :=
  (FormatUint s.Major ++ '.' :: FormatUint s.Minor ++ '.' :: FormatUint s.Patch)
    ++ (if s.Prerelease ≠ [] then '-' :: s.Prerelease else [])
    ++ (if s.Build ≠ [] then '+' :: s.Build else [])

/-- The method `Semver.Compare` in memory. -/
def SemverAt.Compare (s other : SemverAt) (h : Heap) : Int :=
  (s.read h).Compare (other.read h)

/-- The method `Semver.FindDrift` in memory. -/
def SemverAt.FindDrift (s base : SemverAt) (h : Heap) : Level × Bool × Option DriftError :=
  (s.read h).FindDrift (base.read h)

/-- The method `Semver.Copy`: every field but `v` is copied, the slice
`prerelease` as a header on the same array. -/
def SemverAt.Copy (s : SemverAt) : SemverAt :=
  { Major := s.Major, Minor := s.Minor, Patch := s.Patch,
    Prerelease := s.Prerelease, Build := s.Build,
    prerelease := s.prerelease, build := s.build, v := VersionAt.zero }

/-- The tail shared by `IncrementMajor`, `IncrementMinor` and `IncrementPatch` in
memory; a parse error is a panic (no result). -/
def SemverAt.reparse (grow : Nat → Nat) (s : SemverAt) (h : Heap) : Option (SemverAt × Heap) :=
  match ParseAt grow s.String h with
  | .error _ => none
  | .ok (v, h1) => some ({ s with v := v }, h1)

/-- The method `Semver.IncrementMajor` in memory. -/
def SemverAt.IncrementMajor (grow : Nat → Nat) (s : SemverAt) (h : Heap) :
    Option (SemverAt × Heap) :=
  SemverAt.reparse grow { s with Major := (s.Major + 1) % uint64Size, Minor := 0, Patch := 0,
                                 Prerelease := [], Build := [] } h

/-- The method `Semver.IncrementMinor` in memory. -/
def SemverAt.IncrementMinor (grow : Nat → Nat) (s : SemverAt) (h : Heap) :
    Option (SemverAt × Heap) :=
  SemverAt.reparse grow { s with Minor := (s.Minor + 1) % uint64Size, Patch := 0,
                                 Prerelease := [], Build := [] } h

/-- The method `Semver.IncrementPatch` in memory. -/
def SemverAt.IncrementPatch (grow : Nat → Nat) (s : SemverAt) (h : Heap) :
    Option (SemverAt × Heap) :=
  SemverAt.reparse grow { s with Patch := (s.Patch + 1) % uint64Size,
                                 Prerelease := [], Build := [] } h

/-- The first half of `IncrementPrerelease` in memory, the slice it leaves in
`s.prerelease` and the heap: a new two-element array `pre`, `1` when `Prerelease`
is empty; otherwise the rightmost numeric identifier is incremented in place
(the identifiers are written back over the same cells, one of them changed), or
`1` is appended when none is numeric. -/
def SemverAt.bumpPrerelease (grow : Nat → Nat) (s : SemverAt) (h : Heap) : Slice × Heap :=
  if s.Prerelease = [] then
    h.alloc [{ VersionStr := "pre".toList, VersionNum := 0, IsNum := false },
             { VersionStr := [], VersionNum := 1, IsNum := true }] 2
  else if (bumpNumeric (h.read s.prerelease).reverse).2 then
    (s.prerelease, h.store s.prerelease (bumpNumeric (h.read s.prerelease).reverse).1.reverse)
  else h.append grow s.prerelease { VersionStr := [], VersionNum := 1, IsNum := true }

/-- The method `Semver.IncrementPrerelease` in memory: `Prerelease` is joined from
the identifiers then found in `s.prerelease`; `v` is not assigned. -/
def SemverAt.IncrementPrerelease (grow : Nat → Nat) (s : SemverAt) (h : Heap) :
    SemverAt × Heap :=
  ({ s with prerelease := (s.bumpPrerelease grow h).1,
            Prerelease := Join (((s.bumpPrerelease grow h).2.read
              (s.bumpPrerelease grow h).1).map PRVersion.String) '.' },
   (s.bumpPrerelease grow h).2)

/-- The method `Semver.Increment` in memory; a panic is no result. -/
def SemverAt.Increment (grow : Nat → Nat) (s : SemverAt) (level : Level) (h : Heap) :
    Option (SemverAt × Heap) :=
  if level = LevelMajor then s.IncrementMajor grow h
  else if level = LevelMinor then s.IncrementMinor grow h
  else if level = LevelPatch then s.IncrementPatch grow h
  else if level = LevelPrerelease then some (s.IncrementPrerelease grow h)
  else if level = LevelNone then some (s, h)
  else none

/-- The method `Semver.IncrementNew`: the copy after the increment, and the heap. -/
def SemverAt.IncrementNew (grow : Nat → Nat) (s : SemverAt) (level : Level) (h : Heap) :
    Option (SemverAt × Heap) :=
  s.Copy.Increment grow level h

/-! ## `pkg/strategies` -/

/-- The type `UpdateStrategy`, a string. -/
abbrev UpdateStrategy := Str

/-- The constant `UpdateMajor`. -/
def UpdateMajor : UpdateStrategy := "major".toList

/-- The constant `UpdateMinor`. -/
def UpdateMinor : UpdateStrategy := "minor".toList

/-- The constant `UpdatePatch`. -/
def UpdatePatch : UpdateStrategy := "patch".toList

/-- The constant `UpdateDefault`. -/
def UpdateDefault : UpdateStrategy := "default".toList

/-- The type `PublishStrategy`, a string. -/
abbrev PublishStrategy := Str

/-- The constant `PublishCommit`. -/
def PublishCommit : PublishStrategy := "commit".toList

/-- The constant `PublishPullRequest`. -/
def PublishPullRequest : PublishStrategy := "pull request".toList

/-- The struct `UpdateCtx`; a nil pointer is `none`. -/
structure UpdateCtx where
  OldAppVersion : Option SemverAt
  NewAppVersion : Option SemverAt
  OldChartVersion : Option SemverAt
  Strategy : UpdateStrategy
  deriving DecidableEq

/-- The errors `UpdateRelease` returns: `ErrIncompleteUpdateCtx`, an error of
`FindDrift`, or the `fmt.Errorf` error for an unsupported strategy with its
message. -/
inductive UpdateError
  | ErrIncompleteUpdateCtx
  | drift (e : DriftError)
  | unsupported (message : Str)
  deriving DecidableEq

/-- The method `UpdateCtx.IsComplete`. -/
def UpdateCtx.IsComplete (ctx : UpdateCtx) : Bool :=
  !(ctx.OldAppVersion.isNone || ctx.NewAppVersion.isNone || ctx.OldChartVersion.isNone)

/-- What `UpdateRelease` and the functions it dispatches to give back: the pair
`(version.Semver, error)` and the heap; a panic is no result. -/
abbrev UpdateResult := Option (Except UpdateError SemverAt × Heap)

/-- The return `ctx.OldChartVersion.IncrementNew(level), nil`. -/
def returnIncrementNew (grow : Nat → Nat) (chart : SemverAt) (level : Level) (h : Heap) :
    UpdateResult :=
  match chart.IncrementNew grow level h with
  | none => none
  | some (r, h1) => some (.ok r, h1)

/-- The common body of `updateMajor`, `updateMinor` and `updatePatch`, which differ
in the level only, on the three versions of a complete context. -/
def updateFixed (grow : Nat → Nat) (level : Level) (oldApp newApp chart : SemverAt)
    (h : Heap) : UpdateResult :=
  match (newApp.FindDrift oldApp h).2.2 with
  | some err => some (.error (.drift err), h)
  | none => returnIncrementNew grow chart level h

/-- The function `updateDefault`, on the three versions of a complete context. -/
def updateDefault (grow : Nat → Nat) (oldApp newApp chart : SemverAt) (h : Heap) :
    UpdateResult :=
  match (newApp.FindDrift oldApp h).2.2 with
  | some err => some (.error (.drift err), h)
  | none =>
    if !(newApp.FindDrift oldApp h).2.1 then
      if chart.Prerelease ≠ [] then some (.ok { chart.Copy with Prerelease := [] }, h)
      else returnIncrementNew grow chart LevelPatch h
    else
      if chart.Prerelease = [] then
        match chart.IncrementNew grow LevelPatch h with
        | none => none
        | some (r, h1) => some (.ok (r.IncrementPrerelease grow h1).1,
                                (r.IncrementPrerelease grow h1).2)
      else some (.ok (chart.Copy.IncrementPrerelease grow h).1,
                 (chart.Copy.IncrementPrerelease grow h).2)

/-- The function `updateMajor`. -/
def updateMajor (grow : Nat → Nat) (oldApp newApp chart : SemverAt) (h : Heap) : UpdateResult :=
  updateFixed grow LevelMajor oldApp newApp chart h

/-- The function `updateMinor`. -/
def updateMinor (grow : Nat → Nat) (oldApp newApp chart : SemverAt) (h : Heap) : UpdateResult :=
  updateFixed grow LevelMinor oldApp newApp chart h

/-- The function `updatePatch`. -/
def updatePatch (grow : Nat → Nat) (oldApp newApp chart : SemverAt) (h : Heap) : UpdateResult :=
  updateFixed grow LevelPatch oldApp newApp chart h

/-- The function `UpdateRelease`. Past the completeness check the three pointers
are dereferenced; a nil pointer there would be a panic. -/
def UpdateRelease (grow : Nat → Nat) (ctx : UpdateCtx) (h : Heap) : UpdateResult :=
  if !ctx.IsComplete then some (.error .ErrIncompleteUpdateCtx, h)
  else
    match ctx.OldAppVersion, ctx.NewAppVersion, ctx.OldChartVersion with
    | some oldApp, some newApp, some chart =>
      if ctx.Strategy = UpdateMajor then updateMajor grow oldApp newApp chart h
      else if ctx.Strategy = UpdateMinor then updateMinor grow oldApp newApp chart h
      else if ctx.Strategy = UpdatePatch then updatePatch grow oldApp newApp chart h
      else if ctx.Strategy = UpdateDefault then updateDefault grow oldApp newApp chart h
      else some (.error (.unsupported
        ("unsupported release update strategy: ".toList ++ ctx.Strategy)), h)
    | _, _, _ => none

/-- Modelled from the spec: `strings.ToLower` of the Go standard library (a
dependency): `unicode.ToLower` applied to every character. The case table
`unicode.ToLower` is the parameter `lower`. -/
def ToLower (lower : Char → Char) (s : Str) : Str := s.map lower

/-- The function `UpdateStrategyFromString`: the strategy and the error, a nil
error being `none` and a `fmt.Errorf` error its message. -/
def UpdateStrategyFromString (lower : Char → Char) (s : Str) : UpdateStrategy × Option Str :=
  if ToLower lower s = "major".toList then (UpdateMajor, none)
  else if ToLower lower s = "minor".toList then (UpdateMinor, none)
  else if ToLower lower s = "patch".toList then (UpdatePatch, none)
  else if ToLower lower s = "default".toList then (UpdateDefault, none)
  else ([], some ("not a valid strategy: ".toList ++ s))

/-- The function `PublishStrategyFromString`: the strategy and the error, a nil
error being `none` and a `fmt.Errorf` error its message. -/
def PublishStrategyFromString (lower : Char → Char) (s : Str) :
    PublishStrategy × Option Str :=
  if ToLower lower s = "commit".toList then (PublishCommit, none)
  else if ToLower lower s = "pull request".toList then (PublishPullRequest, none)
  else ([], some ("unsupported publish strategy: ".toList ++ s))

/-! ## `pkg/errs/collector.go` -/

/-- A non-nil value of the interface `error`: a `*Collector`, given by the errors
it holds, or any other error, given by its message. -/
inductive GoError
  | plain (message : Str)
  | collector (errors : List GoError)

/-- The struct `Collector`. -/
structure Collector where
  errors : List GoError

/-- A collector passed as an `error`. -/
def Collector.asError (c : Collector) : GoError := .collector c.errors

/-- The function `NewCollector`. -/
def NewCollector : Collector := { errors := [] }

/-- The method `Collector.Count`. -/
def Collector.Count (c : Collector) : Nat := c.errors.length

/-- The method `Collector.HasErrors`. -/
def Collector.HasErrors (c : Collector) : Bool := decide (c.errors.length > 0)

/-- The method `Collector.Add`, as the collector it leaves in the receiver. -/
def Collector.Add (c : Collector) (err : GoError) : Collector :=
  match err with
  | .collector errors => { errors := c.errors ++ errors }
  | .plain message => { errors := c.errors ++ [.plain message] }

/-! ## Sample programs -/

/-- The growth of a small slice in the Go runtime: a full array is replaced by
one of twice the capacity. -/
def growDouble (cap : Nat) : Nat := 2 * cap

/-- The empty heap. -/
def Heap.empty : Heap := { arrays := [] }

/-- The program `v, _ := Load(version); a := v.IncrementNew(level);
b := v.IncrementNew(level)`, run on the empty heap: the strings `a.String()` and
`b.String()`, and the identifiers of `v.prerelease` before the first call and
after it. -/
def incrementNewTwice (version : Str) (level : Level) :
    Option (Str × Str × List PRVersion × List PRVersion) :=
  match LoadAt growDouble version Heap.empty with
  | .error _ => none
  | .ok (v, h1) =>
    match v.IncrementNew growDouble level h1 with
    | none => none
    | some (a, h2) =>
      match v.IncrementNew growDouble level h2 with
      | none => none
      | some (b, _) => some (a.String, b.String, h1.read v.prerelease, h2.read v.prerelease)

/-- The program that loads the three versions of an `UpdateCtx` and calls
`UpdateRelease` on it twice, run on the empty heap: the two strings returned and
the identifiers of `OldChartVersion.prerelease` before the first call and after
it. -/
def updateReleaseTwice (oldApp newApp chart : Str) (strategy : UpdateStrategy) :
    Option (Str × Str × List PRVersion × List PRVersion) :=
  match LoadAt growDouble oldApp Heap.empty with
  | .error _ => none
  | .ok (o, h1) =>
    match LoadAt growDouble newApp h1 with
    | .error _ => none
    | .ok (n, h2) =>
      match LoadAt growDouble chart h2 with
      | .error _ => none
      | .ok (c, h3) =>
        match UpdateRelease growDouble
            { OldAppVersion := some o, NewAppVersion := some n, OldChartVersion := some c,
              Strategy := strategy } h3 with
        | some (.ok a, h4) =>
          match UpdateRelease growDouble
              { OldAppVersion := some o, NewAppVersion := some n, OldChartVersion := some c,
                Strategy := strategy } h4 with
          | some (.ok b, _) =>
            some (a.String, b.String, h3.read c.prerelease, h4.read c.prerelease)
          | _ => none
        | _ => none

/-- The version `LoadAt` leaves for `version` on the heap `h`, and the heap; a
placeholder when `Load` fails. -/
def loaded (version : Str) (h : Heap) : SemverAt × Heap :=
  match LoadAt growDouble version h with
  | .ok p => p
  | .error _ =>
    ({ Major := 0, Minor := 0, Patch := 0, Prerelease := [], Build := [],
       prerelease := Slice.nil, build := [], v := VersionAt.zero }, h)

/-- The context of three loaded versions, on the heap that holds them: the old
and the new application version, then the chart version. -/
def loadedCtx (oldApp newApp chart : Str) (strategy : UpdateStrategy) : UpdateCtx × Heap :=
  ({ OldAppVersion := some (loaded oldApp Heap.empty).1,
     NewAppVersion := some (loaded newApp (loaded oldApp Heap.empty).2).1,
     OldChartVersion :=
       some (loaded chart (loaded newApp (loaded oldApp Heap.empty).2).2).1,
     Strategy := strategy },
   (loaded chart (loaded newApp (loaded oldApp Heap.empty).2).2).2)

/-! ## `pkg/errs/collector.go`: the rendering of a collector -/

/-- Modelled from the spec: `strings.Join(elems, sep)` of the Go standard library (a
dependency) for a separator of any length. -/
def JoinStr : List Str → Str → Str
  | [], _ => []
  | [p], _ => p
  | p :: q :: ps, sep => p ++ sep ++ JoinStr (q :: ps) sep

/-- The block `Collector.Error` returns for the messages `errors` of a collector
that has errors. -/
def renderErrors (errors : List Str) : Str :=
  "\nErrors:\n • ".toList ++ JoinStr errors "\n • ".toList ++ "\n\n".toList

mutual
/-- The method `Error` of an error value: the message of an ordinary error, and
for a `*Collector` the method `Collector.Error`. -/
def GoError.Error : GoError → Str
  | .plain message => message
  | .collector errors =>
    if errors.length > 0 then renderErrors (GoError.ErrorAll errors) else []
/-- The loop of `Collector.Error`: the strings `e.Error()` of the collected
errors, in order. -/
def GoError.ErrorAll : List GoError → List Str
  | [] => []
  | e :: es => e.Error :: GoError.ErrorAll es
end

/-- The method `Collector.Error`. -/
def Collector.Error (c : Collector) : Str :=
  if c.HasErrors then renderErrors (GoError.ErrorAll c.errors) else []

/-- The rendering in the words of the specification: nothing for no message,
otherwise the header, every message on a line of its own after a bullet, and an
empty line. -/
def renderSpec (messages : List Str) : Str :=
  match messages with
  | [] => []
  | _ :: _ =>
    "\nErrors:".toList ++ (messages.map (fun m => "\n • ".toList ++ m)).flatten ++ "\n\n".toList

/-! ## `pkg/v1/ctx/context.go` -/

/-- The type `RepoType`. -/
abbrev RepoType := Str

/-- The constant `RepoGithub`. -/
def RepoGithub : RepoType := "github".toList

/-- The function `ListRepoTypes`. -/
def ListRepoTypes : List RepoType := [RepoGithub]

/-- Modelled from the spec: the verb `%v` of `fmt` (a dependency) for a slice of
strings: the elements between brackets, separated by a blank. -/
def formatList (xs : List Str) : Str := "[".toList ++ Join xs ' ' ++ "]".toList

/-- The function `RepoTypeFromString`: the type and the error. -/
def RepoTypeFromString (lower : Char → Char) (s : Str) : RepoType × Option GoError :=
  if ToLower lower s = "github".toList ∨ ToLower lower s = "github.com".toList then
    (RepoGithub, none)
  else
    ([], some (.plain ("unsupported repository type: ".toList ++ s ++
      " (supported: ".toList ++ formatList ListRepoTypes ++ ")".toList)))

/-- The struct `Author`. -/
structure Author where
  Name : Str
  Email : Str

/-- The struct `File`. -/
structure File where
  Path : Str
  PreviousContents : List UInt8
  NewContents : List UInt8

/-- The method `File.HasChanges`. -/
def File.HasChanges (f : File) : Bool := !(f.PreviousContents == f.NewContents)

/-- The struct `Chart`; the two versions it holds are read by no operation below
and are left out. -/
structure Chart where
  Name : Str
  SubPath : Str
  File : File

/-- The struct `Git`. -/
structure Git where
  Tag : Str
  Ref : Str
  Base : Str

/-- The struct `Repository`; its field `Type` is `Typ` here. -/
structure Repository where
  Typ : RepoType
  Owner : Str
  Name : Str
  deriving DecidableEq

/-- The struct `Release`; a compiled regular expression is given by its pattern,
and every entry of `Matches` and `Ignores` is a non-nil pointer. -/
structure Release where
  PRTitle : Str
  PRBody : Str
  UpdateCommitMsg : Str
  Matches : List Str
  Ignores : List Str

/-- The struct `client.Options`. -/
structure Options where
  Ref : Str
  Base : Str
  RepoName : Str
  RepoOwner : Str
  AuthorName : Str
  AuthorEmail : Str
  deriving DecidableEq

/-- The interface `client.Client`, by the answer of each method to its
arguments. -/
structure Client where
  GetFile : Options → Str → Str × Option GoError
  UpdateFile : Options → Str → Str → List UInt8 → Option GoError
  CreateRef : Options → Option GoError
  CreatePullRequest : Options → Str → Str → Option GoError

/-- A call of a method of the client that writes to the repository. -/
inductive ClientCall
  | CreateRef (opts : Options)
  | UpdateFile (opts : Options) (path msg : Str) (contents : List UInt8)
  | CreatePullRequest (opts : Options) (title body : Str)
  deriving DecidableEq

/-- The struct `Context`. The writer `Out` is nil or holds what was written to it,
and `Client` is nil or a client. The embedded `context.Context` and the fields
`Config` and `App`, which no operation below reads, are left out. -/
structure Context where
  Out : Option (List Str)
  Token : Str
  PublishStrategy : PublishStrategy
  UpdateStrategy : UpdateStrategy
  Author : Author
  Chart : Chart
  Client : Option Client
  Files : List File
  Git : Git
  Repository : Repository
  Release : Release
  AllowDirty : Bool
  DryRun : Bool
  ShowDiff : Bool
  errors : Collector

/-- The length of a Go string: the number of bytes of its UTF-8 encoding. -/
def byteLen (s : Str) : Nat := (s.map Char.utf8Size).sum

/-- The method `Context.Dump`: the context it leaves, or `none` when it panics.
The slice `ctx.Token[0:4]` is out of range for a token of fewer than four bytes;
the text written, which `fmt`, `color` and `spew` (dependencies) format, is the
parameter `dump`. -/
def Context.Dump (dump : Context → List Str) (ctx : Context) : Option Context :=
  match ctx.Out with
  | none => some ctx
  | some out =>
    if byteLen ctx.Token < 4 then none
    else some { ctx with Out := some (out ++ dump ctx) }

/-- The method `Context.PrintErrors`: the context it leaves, or `none` when it
panics, which a write to a nil writer does. The function `ansi.Color` (a
dependency) is the parameter `color`. -/
def Context.PrintErrors (color : Str → Str → Str) (ctx : Context) : Option Context :=
  match ctx.Out with
  | none => none
  | some out =>
    if ctx.errors.HasErrors then
      some { ctx with
        Out := some (out ++ [color "\ndry-run completed with errors".toList "red".toList,
                             ctx.errors.Error]) }
    else
      some { ctx with
        Out := some (out ++ [color "dry-run completed without errors\n".toList
                               "green".toList]) }

/-- The method `Context.Errors`: nil, or the collector of the context. -/
def Context.Errors (ctx : Context) : Option GoError :=
  if ctx.errors.HasErrors then some ctx.errors.asError else none

/-- The method `Context.CheckDryRun` for a non-nil error: the error returned and
the context it leaves. -/
def Context.CheckDryRun (ctx : Context) (err : GoError) : Option GoError × Context :=
  if ctx.DryRun then (none, { ctx with errors := ctx.errors.Add err })
  else (some err, ctx)

/-! ## `pkg/v1/update.go` -/

/-- The interface `stages.V1Stage`: a stage returns an error or nil and leaves a
context. -/
structure V1Stage where
  Name : Str
  String : Str
  Run : Context → Option GoError × Context

/-- The type `Pipeline`. -/
abbrev Pipeline := List V1Stage

/-- The loop of `Pipeline.Run` over the stages from position `i` on: the error
that ended it or nil, the context it leaves, and the positions of the stages it
ran, in the order in which it ran them. -/
def runStages : List V1Stage → Nat → Context → Option GoError × Context × List Nat
  | [], _, ctx => (none, ctx, [])
  | stage :: rest, i, ctx =>
    match stage.Run ctx with
    | (some err, ctx1) => (some err, ctx1, [i])
    | (none, ctx1) =>
      ((runStages rest (i + 1) ctx1).1, (runStages rest (i + 1) ctx1).2.1,
        i :: (runStages rest (i + 1) ctx1).2.2)

/-- The method `Pipeline.Run`: the error returned, the context it leaves and the
positions of the stages it ran, or `none` when it panics. -/
def Pipeline.Run (dump : Context → List Str) (color : Str → Str → Str) (p : Pipeline)
    (ctx : Context) : Option (Option GoError × Context × List Nat) :=
  match runStages p 0 ctx with
  | (some err, ctx1, ran) => some (some err, ctx1, ran)
  | (none, ctx1, ran) =>
    if ctx1.DryRun then
      match ctx1.Dump dump with
      | none => none
      | some ctx2 =>
        match ctx2.PrintErrors color with
        | none => none
        | some ctx3 => some (none, ctx3, ran)
    else some (none, ctx1, ran)

/-- The context the stages `p` leave when they are run in order from `ctx` and
all return nil; `none` when one of them returns an error. -/
def afterStages : List V1Stage → Context → Option Context
  | [], ctx => some ctx
  | stage :: rest, ctx =>
    match stage.Run ctx with
    | (some _, _) => none
    | (none, ctx1) => afterStages rest ctx1

/-! ## `pkg/v1/utils` -/

/-- The function `ParseRepository`: the repository and the error. -/
def ParseRepository (lower : Char → Char) (repo : Str) : Repository × Option GoError :=
  match Split repo '/' with
  | [owner, name] => ({ Typ := RepoGithub, Owner := owner, Name := name }, none)
  | [kind, owner, name] =>
    match RepoTypeFromString lower kind with
    | (_, some err) => ({ Typ := [], Owner := [], Name := [] }, some err)
    | (rt, none) => ({ Typ := rt, Owner := owner, Name := name }, none)
  | _ =>
    ({ Typ := [], Owner := [], Name := [] },
      some (.plain
        "unexpected repository string format - should be in the form of REPO/OWNER/NAME".toList))

/-- The template engine `text/template` (a dependency): `parse name text` is the
error of `template.New(name).Parse(text)`, and `execute text ctx` is what
executing the template parsed from `text` on the context writes to its buffer,
with its error. A template is taken to read the context only. -/
structure Templates where
  parse : Str → Str → Option GoError
  execute : Str → Context → Str × Option GoError

/-- The second half of `RenderTemplate`: the execution of the template parsed from
`text`. -/
def executeTemplate (t : Templates) (ctx : Context) (text : Str) :
    (Str × Option GoError) × Context :=
  match t.execute text ctx with
  | (buf, some err) =>
    match ctx.CheckDryRun err with
    | (some err1, ctx1) => (([], some err1), ctx1)
    | (none, ctx1) => ((buf ++ "dry-run".toList, none), ctx1)
  | (buf, none) => ((buf, none), ctx)

/-- The function `RenderTemplate`: the string and the error returned, and the
context it leaves. -/
def RenderTemplate (t : Templates) (ctx : Context) (name tmpl : Str) :
    (Str × Option GoError) × Context :=
  match t.parse name tmpl with
  | some err =>
    match ctx.CheckDryRun err with
    | (some err1, ctx1) => (([], some err1), ctx1)
    | (none, ctx1) => executeTemplate t ctx1 "dry-run".toList
  | none => executeTemplate t ctx tmpl

/-! ## `pkg/v1/stages/publish/publish.go` -/

/-- The error `ErrUnsupportedPublishStrategy`. -/
def ErrUnsupportedPublishStrategy : GoError :=
  .plain "unsupported publish strategy specified".toList

/-- The error `ErrNoChartChanges`. -/
def ErrNoChartChanges : GoError := .plain "chart file has no changes".toList

/-- The options `publishCommit` and `publishPullRequest` build from the context. -/
def publishOptions (ctx : Context) : Options :=
  { Ref := ctx.Git.Ref, Base := ctx.Git.Base, RepoName := ctx.Repository.Name,
    RepoOwner := ctx.Repository.Owner, AuthorName := ctx.Author.Name,
    AuthorEmail := ctx.Author.Email }

/-- The loop of `publishCommit` over `ctx.Files`, after the calls `calls`: the
error returned and the calls made, or `none` when a method is called on a nil
client. -/
def updateFiles (client : Option Client) (opts : Options) (msg : Str) :
    List File → List ClientCall → Option (Option GoError × List ClientCall)
  | [], calls => some (none, calls)
  | f :: fs, calls =>
    if f.HasChanges then
      match client with
      | none => none
      | some c =>
        match c.UpdateFile opts f.Path msg f.NewContents with
        | some err => some (some err, calls ++ [.UpdateFile opts f.Path msg f.NewContents])
        | none =>
          updateFiles client opts msg fs (calls ++ [.UpdateFile opts f.Path msg f.NewContents])
    else updateFiles client opts msg fs calls

/-- The part of `publishCommit` after the reference is created: the update of the
chart file and of the other files. -/
def updateChart (ctx : Context) (calls : List ClientCall) :
    Option (Option GoError × List ClientCall) :=
  if ctx.Chart.File.HasChanges then
    match ctx.Client with
    | none => none
    | some c =>
      match c.UpdateFile (publishOptions ctx) ctx.Chart.File.Path ctx.Release.UpdateCommitMsg
          ctx.Chart.File.NewContents with
      | some err =>
        some (some err, calls ++ [.UpdateFile (publishOptions ctx) ctx.Chart.File.Path
          ctx.Release.UpdateCommitMsg ctx.Chart.File.NewContents])
      | none =>
        updateFiles ctx.Client (publishOptions ctx) ctx.Release.UpdateCommitMsg ctx.Files
          (calls ++ [.UpdateFile (publishOptions ctx) ctx.Chart.File.Path
            ctx.Release.UpdateCommitMsg ctx.Chart.File.NewContents])
  else some (some ErrNoChartChanges, calls)

/-- The function `publishCommit`: the error returned and the calls made on the
client, or `none` when a method is called on a nil client. -/
def publishCommit (ctx : Context) : Option (Option GoError × List ClientCall) :=
  if ctx.Git.Ref ≠ "master".toList then
    match ctx.Client with
    | none => none
    | some c =>
      match c.CreateRef (publishOptions ctx) with
      | some err => some (some err, [.CreateRef (publishOptions ctx)])
      | none => updateChart ctx [.CreateRef (publishOptions ctx)]
  else updateChart ctx []

/-- The rendering of the title or of the body in `publishPullRequest`: the
template `tmpl`, or `default` when it is empty, parsed under the empty name and
executed on the context. -/
def renderOrDefault (t : Templates) (ctx : Context) (tmpl default : Str) :
    Except GoError Str :=
  match t.parse [] (if tmpl = [] then default else tmpl) with
  | some err => .error err
  | none =>
    match t.execute (if tmpl = [] then default else tmpl) ctx with
    | (_, some err) => .error err
    | (buf, none) => .ok buf

/-- The function `publishPullRequest`; the constants `DefaultPullRequestTitle` and
`DefaultPullRequestBody` of the package `templates` are the parameters
`defaultTitle` and `defaultBody`. -/
def publishPullRequest (t : Templates) (defaultTitle defaultBody : Str) (ctx : Context) :
    Option (Option GoError × List ClientCall) :=
  match publishCommit ctx with
  | none => none
  | some (some err, calls) => some (some err, calls)
  | some (none, calls) =>
    match renderOrDefault t ctx ctx.Release.PRTitle defaultTitle with
    | .error err => some (some err, calls)
    | .ok title =>
      match renderOrDefault t ctx ctx.Release.PRBody defaultBody with
      | .error err => some (some err, calls)
      | .ok body =>
        match ctx.Client with
        | none => none
        | some c =>
          some (c.CreatePullRequest (publishOptions ctx) title body,
            calls ++ [.CreatePullRequest (publishOptions ctx) title body])

/-- The loop of `Stage.Run` over `ctx.Release.Matches`: whether it returns from
`Run`. The method `Regexp.MatchString` (a dependency) is the parameter
`matchString`, which takes the pattern and the string. -/
def matchesReturn (matchString : Str → Str → Bool) (dryRun : Bool) (tag : Str) :
    List Str → Bool
  | [] => false
  | m :: ms =>
    if !matchString m tag then
      if dryRun then matchesReturn matchString dryRun tag ms else true
    else matchesReturn matchString dryRun tag ms

/-- The loop of `Stage.Run` over `ctx.Release.Ignores`: whether it returns from
`Run`. -/
def ignoresReturn (matchString : Str → Str → Bool) (dryRun : Bool) (tag : Str) :
    List Str → Bool
  | [] => false
  | i :: is =>
    if matchString i tag then
      if dryRun then ignoresReturn matchString dryRun tag is else true
    else ignoresReturn matchString dryRun tag is

/-- The part of `publish.Stage.Run` after the five templates are rendered. -/
def publish.Stage.afterRender (t : Templates) (matchString : Str → Str → Bool)
    (defaultTitle defaultBody : Str) (ctx : Context) :
    Option (Option GoError × Context × List ClientCall) :=
  if matchesReturn matchString ctx.DryRun ctx.Git.Tag ctx.Release.Matches then
    some (none, ctx, [])
  else if ignoresReturn matchString ctx.DryRun ctx.Git.Tag ctx.Release.Ignores then
    some (none, ctx, [])
  else if ctx.DryRun then some (none, ctx, [])
  else if ctx.PublishStrategy = PublishCommit then
    (publishCommit ctx).map (fun r => (r.1, ctx, r.2))
  else if ctx.PublishStrategy = PublishPullRequest then
    (publishPullRequest t defaultTitle defaultBody ctx).map (fun r => (r.1, ctx, r.2))
  else some (some ErrUnsupportedPublishStrategy, ctx, [])

/-- The method `Run` of the publish stage: the error returned, the context it
leaves and the calls made on the client, or `none` when it panics. -/
def publish.Stage.Run (t : Templates) (matchString : Str → Str → Bool)
    (defaultTitle defaultBody : Str) (ctx : Context) :
    Option (Option GoError × Context × List ClientCall) :=
  match RenderTemplate t ctx "git-ref".toList ctx.Git.Ref with
  | ((s1, some err), c1) => some (some err, { c1 with Git := { c1.Git with Ref := s1 } }, [])
  | ((s1, none), c1) =>
    match RenderTemplate t { c1 with Git := { c1.Git with Ref := s1 } } "git-base".toList
        c1.Git.Base with
    | ((s2, some err), c2) =>
      some (some err, { c2 with Git := { c2.Git with Base := s2 } }, [])
    | ((s2, none), c2) =>
      match RenderTemplate t { c2 with Git := { c2.Git with Base := s2 } }
          "update-commit".toList c2.Release.UpdateCommitMsg with
      | ((s3, some err), c3) =>
        some (some err, { c3 with Release := { c3.Release with UpdateCommitMsg := s3 } }, [])
      | ((s3, none), c3) =>
        match RenderTemplate t { c3 with Release := { c3.Release with UpdateCommitMsg := s3 } }
            "pr-title".toList c3.Release.PRTitle with
        | ((s4, some err), c4) =>
          some (some err, { c4 with Release := { c4.Release with PRTitle := s4 } }, [])
        | ((s4, none), c4) =>
          match RenderTemplate t { c4 with Release := { c4.Release with PRTitle := s4 } }
              "pr-body".toList c4.Release.PRBody with
          | ((s5, some err), c5) =>
            some (some err, { c5 with Release := { c5.Release with PRBody := s5 } }, [])
          | ((s5, none), c5) =>
            publish.Stage.afterRender t matchString defaultTitle defaultBody
              { c5 with Release := { c5.Release with PRBody := s5 } }

/-! ## `pkg/v1/cfg/config.go` -/

/-- The constant `ConfigVersion`. -/
def ConfigVersion : Str := "v1".toList

/-- The error `ErrNoChart`. -/
def ErrNoChart : GoError := .plain "required option 'chart' missing from config".toList

/-- The error `ErrNoChartName`. -/
def ErrNoChartName : GoError :=
  .plain "required option 'chart.name' missing from config".toList

/-- The error `ErrNoChartRepo`. -/
def ErrNoChartRepo : GoError :=
  .plain "required option 'chart.repo' missing from config".toList

/-- The error `ErrUnsupportedRepo`. -/
def ErrUnsupportedRepo : GoError :=
  .plain ("unsupported repo specified in 'chart.repo'. currently supported repos " ++
    "include: github.com").toList

/-- The end of every validator: the collector as an error when it has errors, nil
otherwise. -/
def Collector.result (c : Collector) : Option GoError :=
  if c.HasErrors then some c.asError else none

/-- The statement `if err := ...; err != nil { collector.Add(err) }`. -/
def Collector.AddIf (c : Collector) (err : Option GoError) : Collector :=
  match err with
  | none => c
  | some e => c.Add e

/-- The struct `ChartConfig`. -/
structure ChartConfig where
  Name : Str
  Repo : Str
  Path : Str

/-- The function `ListUpdateStrategies`. -/
def ListUpdateStrategies : List UpdateStrategy :=
  [UpdateMajor, UpdateMinor, UpdatePatch, UpdateDefault]

/-- The method `ChartConfig.validate`. -/
def ChartConfig.validate (c : ChartConfig) : Option GoError :=
  let c1 := if c.Name = [] then NewCollector.Add ErrNoChartName else NewCollector
  let c2 :=
    if c.Repo = [] then c1.Add ErrNoChartRepo
    else if !("github.com".toList.isPrefixOf c.Repo) then c1.Add ErrUnsupportedRepo
    else c1
  c2.result

/-- The struct `PublishCommitConfig`. -/
structure PublishCommitConfig where
  Branch : Str
  Base : Str

/-- The method `PublishCommitConfig.validate`. -/
def PublishCommitConfig.validate (_ : PublishCommitConfig) : Option GoError := none

/-- The struct `PublishPRConfig`. -/
structure PublishPRConfig where
  BranchTemplate : Str
  Base : Str
  TitleTemplate : Str
  BodyTemplate : Str

/-- The method `PublishPRConfig.validate`. -/
def PublishPRConfig.validate (_ : PublishPRConfig) : Option GoError := none

/-- The struct `PublishConfig`. -/
structure PublishConfig where
  Commit : Option PublishCommitConfig
  PR : Option PublishPRConfig

/-- The method `PublishConfig.validate`: the error, and the receiver with the
default it fills in. -/
def PublishConfig.validate (c : PublishConfig) : Option GoError × PublishConfig :=
  let c1 :=
    if c.Commit.isSome ∧ c.PR.isSome then
      NewCollector.Add (.plain
        "invalid publish config: cannot define both 'commit' and 'pr' blocks".toList)
    else NewCollector
  let pr : Option PublishPRConfig :=
    if c.Commit.isSome ∧ c.PR.isSome then c.PR
    else if c.Commit.isNone ∧ c.PR.isNone then
      some { BranchTemplate := [], Base := [], TitleTemplate := [], BodyTemplate := [] }
    else c.PR
  let c2 :=
    match c.Commit with
    | some commit => c1.AddIf commit.validate
    | none => c1
  let c3 :=
    match pr with
    | some p => c2.AddIf p.validate
    | none => c2
  (c3.result, { Commit := c.Commit, PR := pr })

/-- The struct `CommitAuthorConfig`. -/
structure CommitAuthorConfig where
  Name : Str
  Email : Str

/-- The method `CommitAuthorConfig.validate`. -/
def CommitAuthorConfig.validate (c : CommitAuthorConfig) : Option GoError :=
  let c1 :=
    if c.Name ≠ [] ∧ c.Email = [] then
      NewCollector.Add (.plain "commit author specifies name, but no email".toList)
    else NewCollector
  let c2 :=
    if c.Name = [] ∧ c.Email ≠ [] then
      c1.Add (.plain "commit author specified email, but no name".toList)
    else c1
  c2.result

/-- The struct `CommitTemplateConfig`. -/
structure CommitTemplateConfig where
  Update : Str
  Extras : Str

/-- The method `CommitTemplateConfig.validate`. -/
def CommitTemplateConfig.validate (_ : CommitTemplateConfig) : Option GoError := none

/-- The struct `CommitConfig`. -/
structure CommitConfig where
  Author : Option CommitAuthorConfig
  Templates : Option CommitTemplateConfig

/-- The method `CommitConfig.validate`: the error, and the receiver with the
defaults it fills in. -/
def CommitConfig.validate (c : CommitConfig) : Option GoError × CommitConfig :=
  let author : CommitAuthorConfig := c.Author.getD { Name := [], Email := [] }
  let c1 := NewCollector.AddIf author.validate
  let templates : CommitTemplateConfig := c.Templates.getD { Update := [], Extras := [] }
  let c2 := c1.AddIf templates.validate
  (c2.result, { Author := some author, Templates := some templates })

/-- The struct `ReleaseConfig`. -/
structure ReleaseConfig where
  Matches : List Str
  Ignores : List Str
  Strategy : Str

/-- The method `ReleaseConfig.validate`. -/
def ReleaseConfig.validate (lower : Char → Char) (c : ReleaseConfig) : Option GoError :=
  let c1 :=
    if c.Strategy ≠ [] then
      match (UpdateStrategyFromString lower c.Strategy).2 with
      | some _ =>
        NewCollector.Add (.plain ("invalid release strategy '".toList ++ c.Strategy ++
          "', should be one of: ".toList ++ formatList ListUpdateStrategies))
      | none => NewCollector
    else NewCollector
  c1.result

/-- The struct `SearchReplace`. -/
structure SearchReplace where
  Search : Str
  Replace : Str
  Limit : Int

/-- The method `SearchReplace.validate`. -/
def SearchReplace.validate (c : SearchReplace) : Option GoError :=
  let c1 :=
    if c.Search = [] then
      NewCollector.Add (.plain "search and replace config has no search string set".toList)
    else NewCollector
  let c2 :=
    if c.Replace = [] then
      c1.Add (.plain "search and replace config has no replace string set".toList)
    else c1
  let c3 :=
    if c.Limit < 0 then
      c2.Add (.plain "search and replace config must have a non-negative limit".toList)
    else c2
  c3.result

/-- The struct `ExtrasConfig`; every entry of `Updates` is a non-nil pointer. -/
structure ExtrasConfig where
  Path : Str
  Updates : List SearchReplace

/-- The loop of `ExtrasConfig.validate` over the updates. -/
def addUpdates (c : Collector) : List SearchReplace → Collector
  | [] => c
  | u :: us => addUpdates (c.AddIf u.validate) us

/-- The method `ExtrasConfig.validate`. -/
def ExtrasConfig.validate (c : ExtrasConfig) : Option GoError :=
  let c1 :=
    if c.Path ≠ [] ∧ c.Updates.length = 0 then
      NewCollector.Add (.plain
        "extras config specifies path but no options for search/replace updates".toList)
    else if c.Path = [] ∧ c.Updates.length ≠ 0 then
      NewCollector.Add (.plain
        "extras config specifies search/replace options, but no file path".toList)
    else NewCollector
  (addUpdates c1 c.Updates).result

/-- The struct `Config`; every entry of `Extras` is a non-nil pointer, and a nil
slice is the empty one. -/
structure Config where
  Version : Str
  Chart : Option ChartConfig
  Publish : Option PublishConfig
  Commit : Option CommitConfig
  Release : Option ReleaseConfig
  Extras : List ExtrasConfig

/-- The loop of `Config.Validate` over the extras. -/
def addExtras (c : Collector) : List ExtrasConfig → Collector
  | [] => c
  | extra :: extras => addExtras (c.AddIf extra.validate) extras

/-- The method `Config.Validate`: the error, and the receiver with the defaults
it fills in. -/
def Config.Validate (lower : Char → Char) (c : Config) : Option GoError × Config :=
  let c1 :=
    if c.Version ≠ ConfigVersion then
      NewCollector.Add (.plain "error: using v1 config parser for non v1 config".toList)
    else NewCollector
  let c2 :=
    match c.Chart with
    | none => c1.Add ErrNoChart
    | some chart => c1.AddIf chart.validate
  let publish : PublishConfig := c.Publish.getD { Commit := none, PR := none }
  let c3 := c2.AddIf publish.validate.1
  let commit : CommitConfig := c.Commit.getD { Author := none, Templates := none }
  let c4 := c3.AddIf commit.validate.1
  let release : ReleaseConfig := c.Release.getD { Matches := [], Ignores := [], Strategy := [] }
  let c5 := c4.AddIf (release.validate lower)
  let c6 := addExtras c5 c.Extras
  (c6.result,
    { Version := c.Version, Chart := c.Chart, Publish := some publish.validate.2,
      Commit := some commit.validate.2, Release := some release, Extras := c.Extras })

/-- The errors an error value brings to a collector it is added to: the errors of
a collector, the error itself otherwise, and none for nil. -/
def errorsOf : Option GoError → List GoError
  | none => []
  | some (.collector errors) => errors
  | some (.plain message) => [.plain message]

/-- The configuration of the test `TestConfig_Validate_Error`. -/
def testConfig : Config :=
  { Version := "v0".toList,
    Chart := some { Name := [], Repo := [], Path := [] },
    Publish := some
      { Commit := some { Branch := [], Base := [] },
        PR := some { BranchTemplate := [], Base := [], TitleTemplate := [],
                     BodyTemplate := [] } },
    Commit := some
      { Author := some { Name := "test-user".toList, Email := [] },
        Templates := some { Update := [], Extras := [] } },
    Release := some { Matches := [], Ignores := [], Strategy := "invalid".toList },
    Extras := [{ Path := "test path".toList, Updates := [] }] }

/-! ## Sample programs: comparison after an increment -/

/-- The program `v, _ := Load(version); w, _ := Load(other);
r := v.IncrementNew(level); a := r.Compare(&w); l, _ := Load(r.String());
b := l.Compare(&w)`, run on the empty heap: `r.String()`, `a` and `b`. -/
def compareAfterIncrementNew (version : Str) (level : Level) (other : Str) :
    Option (Str × Int × Int) :=
  match LoadAt growDouble version Heap.empty with
  | .error _ => none
  | .ok (v, h1) =>
    match LoadAt growDouble other h1 with
    | .error _ => none
    | .ok (w, h2) =>
      match v.IncrementNew growDouble level h2 with
      | none => none
      | some (r, h3) =>
        match LoadAt growDouble r.String h3 with
        | .error _ => none
        | .ok (l, h4) => some (r.String, r.Compare w h3, l.Compare w h4)

/-- The program `v, _ := Load(version); w, _ := Load(other); v.Increment(level);
a := v.Compare(&w); l, _ := Load(v.String()); b := l.Compare(&w)`, run on the
empty heap: `v.String()` after the increment, `a` and `b`. -/
def compareAfterIncrement (version : Str) (level : Level) (other : Str) :
    Option (Str × Int × Int) :=
  match LoadAt growDouble version Heap.empty with
  | .error _ => none
  | .ok (v, h1) =>
    match LoadAt growDouble other h1 with
    | .error _ => none
    | .ok (w, h2) =>
      match v.Increment growDouble level h2 with
      | none => none
      | some (r, h3) =>
        match LoadAt growDouble r.String h3 with
        | .error _ => none
        | .ok (l, h4) => some (r.String, r.Compare w h3, l.Compare w h4)

/-- The program that loads the three versions of an `UpdateCtx`, calls
`UpdateRelease` on it, loads the string of the version returned and compares
that with `OldChartVersion`, run on the empty heap: the string returned and the
result of the comparison. -/
def updateThenCompare (oldApp newApp chart : Str) (strategy : UpdateStrategy) :
    Option (Str × Int) :=
  match LoadAt growDouble oldApp Heap.empty with
  | .error _ => none
  | .ok (o, h1) =>
    match LoadAt growDouble newApp h1 with
    | .error _ => none
    | .ok (n, h2) =>
      match LoadAt growDouble chart h2 with
      | .error _ => none
      | .ok (c, h3) =>
        match UpdateRelease growDouble
            { OldAppVersion := some o, NewAppVersion := some n, OldChartVersion := some c,
              Strategy := strategy } h3 with
        | some (.ok r, h4) =>
          match LoadAt growDouble r.String h4 with
          | .error _ => none
          | .ok (l, h5) => some (r.String, l.Compare c h5)
        | _ => none

/-! ## Sample pipelines and contexts -/

/-- A context as `Wrap` makes it, with a writer that has nothing written to it, a
token, no client and the given `DryRun` flag. -/
def sampleContext (dryRun : Bool) : Context :=
  { Out := some [], Token := "token".toList, PublishStrategy := PublishPullRequest,
    UpdateStrategy := UpdateDefault, Author := { Name := [], Email := [] },
    Chart := { Name := [], SubPath := [],
               File := { Path := [], PreviousContents := [], NewContents := [] } },
    Client := none, Files := [],
    Git := { Tag := "1.0.0".toList, Ref := "master".toList, Base := "master".toList },
    Repository := { Typ := RepoGithub, Owner := "foo".toList, Name := "bar".toList },
    Release := { PRTitle := [], PRBody := [], UpdateCommitMsg := [],
                 Matches := ["^2".toList], Ignores := ["^1".toList] },
    AllowDirty := false, DryRun := dryRun, ShowDiff := false, errors := NewCollector }

/-- A stage that returns nil and leaves the context as it is. -/
def passStage : V1Stage :=
  { Name := "pass".toList, String := "passing".toList, Run := fun ctx => (none, ctx) }

/-- A stage that meets the error `message` and returns what `CheckDryRun` makes of
it, as the stages of the update pipeline do. -/
def checkStage (message : Str) : V1Stage :=
  { Name := "check".toList, String := "checking".toList,
    Run := fun ctx => ctx.CheckDryRun (.plain message) }

/-- A stage that returns the error `message`. -/
def failStage (message : Str) : V1Stage :=
  { Name := "fail".toList, String := "failing".toList,
    Run := fun ctx => (some (.plain message), ctx) }

/-- A template engine for which no template parses. -/
def brokenTemplates : Templates :=
  { parse := fun _ _ => some (.plain "template: unexpected action".toList),
    execute := fun text _ => (text, none) }

/-- A pattern matcher: the pattern `^c` matches the strings that start with the
character `c`, and no other pattern matches. -/
def sampleMatch (pattern s : Str) : Bool :=
  match pattern, s with
  | ['^', c], d :: _ => c == d
  | _, _ => false

/-- A dump of one line. -/
def sampleDump (_ : Context) : List Str := ["=== Context ===".toList]

/-- A colouring that leaves the text as it is. -/
def sampleColor (s _ : Str) : Str := s

/-- The errors of a configuration in the words of the specification: those of the
version check, of the chart, of the publish, commit and release sections and of
each extras entry, in this order, the errors of a section being those its
validator returns. -/
def sectionErrors (lower : Char → Char) (c : Config) : List GoError :=
  (if c.Version = ConfigVersion then []
    else [GoError.plain "error: using v1 config parser for non v1 config".toList]) ++
  (match c.Chart with
    | none => [ErrNoChart]
    | some chart => errorsOf chart.validate) ++
  errorsOf (c.Publish.getD { Commit := none, PR := none }).validate.1 ++
  errorsOf (c.Commit.getD { Author := none, Templates := none }).validate.1 ++
  errorsOf ((c.Release.getD { Matches := [], Ignores := [], Strategy := [] }).validate lower) ++
  (c.Extras.map (fun extra => errorsOf extra.validate)).flatten

/-! ## Sample programs: a chart written as a struct literal -/

/-- The chart `version.Semver{Major: 1, Minor: 2, Patch: 3, Prerelease: "alpha.1"}`
written as a struct literal: the fields `prerelease`, `build` and `v`, which
`Load` fills in, are zero. -/
def literalChart : SemverAt :=
  { Major := 1, Minor := 2, Patch := 3, Prerelease := "alpha.1".toList, Build := [],
    prerelease := Slice.nil, build := [], v := VersionAt.zero }

/-- The program that loads the two application versions and calls `UpdateRelease`
with `chart` as `OldChartVersion`, run on the empty heap: the strings of the
chart and of the version returned. -/
def updateWithChart (oldApp newApp : Str) (chart : SemverAt) (strategy : UpdateStrategy) :
    Option (Str × Str) :=
  match LoadAt growDouble oldApp Heap.empty with
  | .error _ => none
  | .ok (o, h1) =>
    match LoadAt growDouble newApp h1 with
    | .error _ => none
    | .ok (n, h2) =>
      match UpdateRelease growDouble
          { OldAppVersion := some o, NewAppVersion := some n, OldChartVersion := some chart,
            Strategy := strategy } h2 with
      | some (.ok r, _) => some (chart.String, r.String)
      | _ => none


/-! ## Decimal numbers -/

theorem containsOnly_iff (s set : Str) : containsOnly s set = true ↔ ∀ c ∈ s, c ∈ set := by
  simp [containsOnly, List.all_eq_true]

theorem mem_numbers_cases {c : Char} (h : c ∈ numbers) :
    c = '0' ∨ c = '1' ∨ c = '2' ∨ c = '3' ∨ c = '4' ∨ c = '5' ∨ c = '6' ∨ c = '7' ∨ c = '8'
      ∨ c = '9' := by
  simpa [numbers] using h

theorem digitVal_lt {c : Char} (h : c ∈ numbers) : digitVal c < 10 := by
  rcases mem_numbers_cases h with h | h | h | h | h | h | h | h | h | h <;> subst h <;> decide

theorem digitChar_digitVal {c : Char} (h : c ∈ numbers) : Nat.digitChar (digitVal c) = c := by
  rcases mem_numbers_cases h with h | h | h | h | h | h | h | h | h | h <;> subst h <;> rfl

theorem digitVal_eq_zero {c : Char} (h : c ∈ numbers) (h0 : digitVal c = 0) : c = '0' := by
  rcases mem_numbers_cases h with h | h | h | h | h | h | h | h | h | h <;> subst h <;>
    first | rfl | (exfalso; revert h0; decide)

theorem toDigitsCore_append (fuel : Nat) : ∀ (n : Nat) (ds : List Char),
    Nat.toDigitsCore 10 fuel n ds = Nat.toDigitsCore 10 fuel n [] ++ ds := by
  induction fuel with
  | zero => intro n ds; simp [Nat.toDigitsCore]
  | succ f ih =>
    intro n ds
    simp only [Nat.toDigitsCore]
    split
    · simp
    · rw [ih (n / 10) (_ :: ds), ih (n / 10) [_]]; simp

theorem toDigitsCore_fuel (fuel : Nat) : ∀ (n fuel2 : Nat) (ds : List Char),
    n < fuel → n < fuel2 →
    Nat.toDigitsCore 10 fuel n ds = Nat.toDigitsCore 10 fuel2 n ds := by
  induction fuel with
  | zero => intro n fuel2 ds h; omega
  | succ f ih =>
    intro n fuel2 ds h1 h2
    cases fuel2 with
    | zero => omega
    | succ f2 =>
      simp only [Nat.toDigitsCore]
      split
      · rfl
      · rename_i hne
        apply ih <;> omega

theorem FormatUint_digit {d : Nat} (h : d < 10) : FormatUint d = [Nat.digitChar d] := by
  have : d / 10 = 0 := by omega
  simp [FormatUint, Nat.toDigits, Nat.toDigitsCore, this, Nat.mod_eq_of_lt h]

theorem FormatUint_step {v d : Nat} (hv : 0 < v) (hd : d < 10) :
    FormatUint (v * 10 + d) = FormatUint v ++ [Nat.digitChar d] := by
  have h1 : (v * 10 + d) / 10 = v := by omega
  have h2 : (v * 10 + d) % 10 = d := by omega
  have h3 : v ≠ 0 := by omega
  have key : Nat.toDigitsCore 10 (v * 10 + d + 1) (v * 10 + d) [] =
      Nat.toDigitsCore 10 (v * 10 + d) v [Nat.digitChar d] := by
    simp [Nat.toDigitsCore, h1, h2, h3]
  unfold FormatUint Nat.toDigits
  rw [key, toDigitsCore_append]
  congr 1
  apply toDigitsCore_fuel <;> omega

theorem digitsVal_append (s : Str) (c : Char) : ∀ acc : Nat,
    digitsVal (s ++ [c]) acc = digitsVal s acc * 10 + digitVal c := by
  induction s with
  | nil => intro acc; simp [digitsVal]
  | cons a s ih => intro acc; simp [digitsVal, ih]

theorem digitsVal_ge (s : Str) : ∀ acc : Nat, acc ≤ digitsVal s acc := by
  induction s with
  | nil => intro acc; simp [digitsVal]
  | cons a s ih =>
    intro acc
    have := ih (acc * 10 + digitVal a)
    simp only [digitsVal]
    omega

theorem digitsVal_pos {s : Str} (hd : ∀ c ∈ s, c ∈ numbers) (hs : s ≠ [])
    (hz : s.head? ≠ some '0') : 0 < digitsVal s 0 := by
  cases s with
  | nil => exact absurd rfl hs
  | cons a s =>
    simp only [digitsVal]
    have ha : a ∈ numbers := hd a (by simp)
    have : digitVal a ≠ 0 := fun h0 => hz (by simp [digitVal_eq_zero ha h0])
    have := digitsVal_ge s (0 * 10 + digitVal a)
    omega

/-- Formatting the value of a canonical digit string gives the string back. -/
theorem FormatUint_digitsVal (s : Str) : (∀ c ∈ s, c ∈ numbers) → s ≠ [] →
    (s.head? ≠ some '0' ∨ s = ['0']) → FormatUint (digitsVal s 0) = s := by
  induction s using List.reverseRecOn with
  | nil => intro _ h; exact absurd rfl h
  | append_singleton s c ih =>
    intro hd _ hz
    have hc : c ∈ numbers := hd c (by simp)
    rw [digitsVal_append]
    by_cases hs : s = []
    · subst hs
      simp [digitsVal, FormatUint_digit (digitVal_lt hc), digitChar_digitVal hc]
    · have hd2 : ∀ x ∈ s, x ∈ numbers := fun x hx => hd x (by simp [hx])
      have hz2 : s.head? ≠ some '0' := by
        rcases hz with hz | hz
        · cases s with
          | nil => exact absurd rfl hs
          | cons a s => simpa using hz
        · cases s with
          | nil => exact absurd rfl hs
          | cons a s => simp at hz
      rw [FormatUint_step (digitsVal_pos hd2 hs hz2) (digitVal_lt hc), ih hd2 hs (Or.inl hz2),
        digitChar_digitVal hc]

theorem canonical_of_not_leading {s : Str} (hs : s ≠ []) (hd : ∀ c ∈ s, c ∈ numbers)
    (h : hasLeadingZeroes s = false) : s.head? ≠ some '0' ∨ s = ['0'] := by
  match s, hs, h with
  | [a], _, _ =>
    by_cases ha : a = '0'
    · right; simp [ha]
    · left; simpa using ha
  | a :: b :: t, _, h =>
    left
    simp [hasLeadingZeroes] at h
    simpa using h

/-- What a successful `ParseUint` on a string without leading zero returns. -/
theorem ParseUint_format {s : Str} {n : Nat} (h : ParseUint s = .ok n)
    (hz : hasLeadingZeroes s = false) : FormatUint n = s ∧ n < uint64Size := by
  unfold ParseUint at h
  split at h
  · cases h
  · split at h
    · cases h
    · rename_i hs hc
      split at h
      · rename_i hlt
        injection h with h
        subst h
        have hd : ∀ c ∈ s, c ∈ numbers := by
          apply (containsOnly_iff s numbers).1
          simpa using hc
        exact ⟨FormatUint_digitsVal s hd hs (canonical_of_not_leading hs hd hz), hlt⟩
      · cases h



/-! ## Cutting and joining strings -/

theorem IndexRune_none {s : Str} {r : Char} (h : IndexRune s r = none) : r ∉ s := by
  induction s with
  | nil => simp
  | cons c cs ih =>
    simp only [IndexRune] at h
    split at h
    · cases h
    · rename_i hne
      simp only [Option.map_eq_none'] at h
      simp only [List.mem_cons, not_or]
      exact ⟨fun e => hne e.symm, ih h⟩

theorem IndexRune_some {s : Str} {r : Char} : ∀ {i : Nat}, IndexRune s r = some i →
    s = s.take i ++ r :: s.drop (i + 1) ∧ r ∉ s.take i := by
  induction s with
  | nil => intro i h; simp [IndexRune] at h
  | cons c cs ih =>
    intro i h
    simp only [IndexRune] at h
    split at h
    · rename_i he
      injection h with h
      subst h
      simp [he]
    · rename_i hne
      simp only [Option.map_eq_some'] at h
      obtain ⟨j, hj, rfl⟩ := h
      obtain ⟨h1, h2⟩ := ih hj
      refine ⟨?_, ?_⟩
      · simp only [List.take_succ_cons, List.drop_succ_cons, List.cons_append]
        rw [← h1]
      · simp only [List.take_succ_cons, List.mem_cons, not_or]
        exact ⟨fun e => hne e.symm, h2⟩

theorem IndexRune_of_not_mem {s : Str} {r : Char} (h : r ∉ s) : IndexRune s r = none := by
  induction s with
  | nil => rfl
  | cons c cs ih =>
    simp only [List.mem_cons, not_or] at h
    have hne : ¬ c = r := fun e => h.1 e.symm
    simp [IndexRune, hne, ih h.2]

theorem IndexRune_append {a : Str} {r : Char} (b : Str) (h : r ∉ a) :
    IndexRune (a ++ r :: b) r = some a.length := by
  induction a with
  | nil => simp [IndexRune]
  | cons c cs ih =>
    simp only [List.mem_cons, not_or] at h
    have hne : ¬ c = r := fun e => h.1 e.symm
    simp [IndexRune, hne, ih h.2]

theorem Split_ne_nil (s : Str) (sep : Char) : Split s sep ≠ [] := by
  cases s with
  | nil => simp [Split]
  | cons c cs =>
    simp only [Split]
    split
    · simp
    · split <;> simp

theorem Join_cons_cons (c : Char) (p : Str) (ps : List Str) (sep : Char) :
    Join ((c :: p) :: ps) sep = c :: Join (p :: ps) sep := by
  cases ps <;> simp [Join]

/-- Joining the pieces of a split gives the string back. -/
theorem Join_Split (s : Str) (sep : Char) : Join (Split s sep) sep = s := by
  induction s with
  | nil => simp [Split, Join]
  | cons c cs ih =>
    simp only [Split]
    split
    · rename_i he
      cases hsp : Split cs sep with
      | nil => exact absurd hsp (Split_ne_nil cs sep)
      | cons q qs =>
        rw [hsp] at ih
        simp [Join, ih, he]
    · cases hsp : Split cs sep with
      | nil => exact absurd hsp (Split_ne_nil cs sep)
      | cons q qs =>
        rw [hsp] at ih
        simp only [Join_cons_cons, ih]

theorem Join_ne_nil {l : List Str} (sep : Char) (hl : l ≠ []) (h : ∀ x ∈ l, x ≠ []) :
    Join l sep ≠ [] := by
  match l, hl, h with
  | [p], _, h => simpa [Join] using h p (by simp)
  | p :: q :: ps, _, h =>
    have hp : p ≠ [] := h p (by simp)
    simp [Join, hp]

theorem SplitN_three {s p0 p1 p2 : Str} (h : SplitN s '.' 3 = [p0, p1, p2]) :
    s = p0 ++ '.' :: p1 ++ '.' :: p2 ∧ '.' ∉ p0 ∧ '.' ∉ p1 := by
  simp only [SplitN] at h
  cases h1 : IndexRune s '.' with
  | none => simp [h1] at h
  | some i =>
    simp only [h1] at h
    cases h2 : IndexRune (s.drop (i + 1)) '.' with
    | none => simp [h2] at h
    | some j =>
      simp only [h2, List.cons.injEq, and_true] at h
      obtain ⟨e0, e1, e2⟩ := h
      obtain ⟨d1, n1⟩ := IndexRune_some h1
      obtain ⟨d2, n2⟩ := IndexRune_some h2
      rw [e1, e2] at d2
      rw [e0] at d1
      rw [e0] at n1
      rw [e1] at n2
      refine ⟨?_, n1, n2⟩
      rw [d2] at d1
      simpa using d1

/-- The text before the first `+` and the joined build identifiers after it make
up the whole string. -/
theorem cutBuild_spec (p : Str) :
    (cutBuild p).2 ++ (if (cutBuild p).1 = [] then [] else '+' :: Join (cutBuild p).1 '.') = p
      ∧ '+' ∉ (cutBuild p).2 := by
  unfold cutBuild
  cases h : IndexRune p '+' with
  | none => simpa using IndexRune_none h
  | some i =>
    obtain ⟨d, n⟩ := IndexRune_some h
    simp only [Split_ne_nil, if_false, Join_Split]
    exact ⟨d.symm, n⟩

/-- The text before the first `-` and the joined prerelease identifiers after it
make up the whole string. -/
theorem cutPrerelease_spec (p : Str) :
    (cutPrerelease p).2 ++
        (if (cutPrerelease p).1 = [] then [] else '-' :: Join (cutPrerelease p).1 '.') = p
      ∧ '-' ∉ (cutPrerelease p).2 := by
  unfold cutPrerelease
  cases h : IndexRune p '-' with
  | none => simpa using IndexRune_none h
  | some i =>
    obtain ⟨d, n⟩ := IndexRune_some h
    simp only [Split_ne_nil, if_false, Join_Split]
    exact ⟨d.symm, n⟩

/-! ## What a successful parse says about the input -/

theorem parseNumber_ok {part : Part} {s : Str} {n : Nat} (h : parseNumber part s = .ok n) :
    FormatUint n = s ∧ n < uint64Size := by
  unfold parseNumber at h
  split at h
  · cases h
  · split at h
    · cases h
    · rename_i hz
      exact ParseUint_format h (by simpa using hz)

theorem NewPRVersion_String {s : Str} {p : PRVersion} (h : NewPRVersion s = .ok p) :
    p.String = s ∧ s ≠ [] := by
  unfold NewPRVersion at h
  split at h
  · cases h
  · rename_i hlen
    have hne : s ≠ [] := by
      intro e
      apply hlen
      simp [e]
    refine ⟨?_, hne⟩
    split at h
    · split at h
      · cases h
      · rename_i hz
        cases hp : ParseUint s with
        | error e => simp [hp] at h
        | ok num =>
          simp only [hp, Except.ok.injEq] at h
          subst h
          simp [PRVersion.String, (ParseUint_format hp (by simpa using hz)).1]
    · split at h
      · injection h with h
        subst h
        simp [PRVersion.String]
      · cases h

theorem parsePrerelease_ok : ∀ {l : List Str} {pre : List PRVersion},
    parsePrerelease l = .ok pre → pre.map PRVersion.String = l ∧ ∀ x ∈ l, x ≠ [] := by
  intro l
  induction l with
  | nil =>
    intro pre h
    simp only [parsePrerelease, Except.ok.injEq] at h
    subst h
    simp
  | cons a l ih =>
    intro pre h
    simp only [parsePrerelease] at h
    cases ha : NewPRVersion a with
    | error e => simp [ha] at h
    | ok p =>
      cases hl : parsePrerelease l with
      | error e => simp [ha, hl] at h
      | ok ps =>
        simp only [ha, hl, Except.ok.injEq] at h
        subst h
        obtain ⟨h1, h2⟩ := ih hl
        obtain ⟨h3, h4⟩ := NewPRVersion_String ha
        refine ⟨by simp [h1, h3], ?_⟩
        intro x hx
        rcases List.mem_cons.1 hx with e | hx
        · exact e ▸ h4
        · exact h2 x hx

theorem parseBuild_ok : ∀ {l build : List Str},
    parseBuild l = .ok build → build = l ∧ ∀ x ∈ l, x ≠ [] := by
  intro l
  induction l with
  | nil =>
    intro build h
    simp only [parseBuild, Except.ok.injEq] at h
    subst h
    simp
  | cons a l ih =>
    intro build h
    simp only [parseBuild] at h
    split at h
    · cases h
    · rename_i hlen
      split at h
      · cases h
      · cases hl : parseBuild l with
        | error e => simp [hl] at h
        | ok bs =>
          simp only [hl, Except.ok.injEq] at h
          subst h
          obtain ⟨h1, h2⟩ := ih hl
          refine ⟨by rw [h1], ?_⟩
          intro x hx
          rcases List.mem_cons.1 hx with e | hx
          · subst e
            intro e
            apply hlen
            simp [e]
          · exact h2 x hx

/-- The stages a successfully parsed string went through. -/
theorem Parse_ok_inv {s : Str} {v : Version} (h : Parse s = .ok v) :
    ∃ p0 p1 p2 : Str, s = p0 ++ '.' :: p1 ++ '.' :: p2 ∧ '.' ∉ p0 ∧ '.' ∉ p1
      ∧ parseNumber .major p0 = .ok v.Major
      ∧ parseNumber .minor p1 = .ok v.Minor
      ∧ parseNumber .patch (cutPrerelease (cutBuild p2).2).2 = .ok v.Patch
      ∧ parsePrerelease (cutPrerelease (cutBuild p2).2).1 = .ok v.Pre
      ∧ parseBuild (cutBuild p2).1 = .ok v.Build := by
  unfold Parse at h
  split at h
  · cases h
  · split at h
    · rename_i p0 p1 p2 hsp
      obtain ⟨hs, n0, n1⟩ := SplitN_three hsp
      cases h0 : parseNumber .major p0 with
      | error e => simp [h0] at h
      | ok major =>
        cases h1 : parseNumber .minor p1 with
        | error e => simp [h0, h1] at h
        | ok minor =>
          cases h2 : parseNumber .patch (cutPrerelease (cutBuild p2).2).2 with
          | error e => simp [h0, h1, h2] at h
          | ok patch =>
            cases h3 : parsePrerelease (cutPrerelease (cutBuild p2).2).1 with
            | error e => simp [h0, h1, h2, h3] at h
            | ok pre =>
              cases h4 : parseBuild (cutBuild p2).1 with
              | error e => simp [h0, h1, h2, h3, h4] at h
              | ok build =>
                simp only [h0, h1, h2, h3, h4, Except.ok.injEq] at h
                subst h
                exact ⟨p0, p1, p2, hs, n0, n1, h0, h1, h2, h3, h4⟩
    · cases h

theorem Load_ok_inv {s : Str} {sv : Semver} (h : Load s = .ok sv) :
    Parse s = .ok sv.v ∧ sv.Major = sv.v.Major ∧ sv.Minor = sv.v.Minor ∧ sv.Patch = sv.v.Patch
      ∧ sv.Prerelease = Join (sv.v.Pre.map PRVersion.String) '.'
      ∧ sv.Build = Join sv.v.Build '.'
      ∧ sv.prerelease = sv.v.Pre
      ∧ loadBuild sv.v.Build = .ok sv.build := by
  unfold Load at h
  cases hp : Parse s with
  | error e => simp [hp] at h
  | ok v =>
    cases hb : loadBuild v.Build with
    | error e => simp [hp, hb] at h
    | ok build =>
      simp only [hp, hb, Except.ok.injEq] at h
      subst h
      exact ⟨rfl, rfl, rfl, rfl, rfl, rfl, rfl, hb⟩

/-- The string form of a parsed version, rebuilt from its fields, is the input. -/
theorem Parse_rebuild {s : Str} {v : Version} (h : Parse s = .ok v) :
    (FormatUint v.Major ++ '.' :: FormatUint v.Minor ++ '.' :: FormatUint v.Patch)
      ++ (if Join (v.Pre.map PRVersion.String) '.' ≠ [] then
            '-' :: Join (v.Pre.map PRVersion.String) '.' else [])
      ++ (if Join v.Build '.' ≠ [] then '+' :: Join v.Build '.' else []) = s := by
  obtain ⟨p0, p1, p2, hs, -, -, h0, h1, h2, h3, h4⟩ := Parse_ok_inv h
  obtain ⟨hpre, hprene⟩ := parsePrerelease_ok h3
  obtain ⟨hb, hbne⟩ := parseBuild_ok h4
  have e2 := (cutBuild_spec p2).1
  have e3 := (cutPrerelease_spec (cutBuild p2).2).1
  rw [(parseNumber_ok h0).1, (parseNumber_ok h1).1, (parseNumber_ok h2).1, hpre, hb, hs]
  have k1 : (if Join (cutPrerelease (cutBuild p2).2).1 '.' ≠ [] then
      '-' :: Join (cutPrerelease (cutBuild p2).2).1 '.' else [])
      = (if (cutPrerelease (cutBuild p2).2).1 = [] then []
          else '-' :: Join (cutPrerelease (cutBuild p2).2).1 '.') := by
    by_cases hc : (cutPrerelease (cutBuild p2).2).1 = []
    · simp [hc, Join]
    · simp [hc, Join_ne_nil '.' hc hprene]
  have k2 : (if Join (cutBuild p2).1 '.' ≠ [] then '+' :: Join (cutBuild p2).1 '.' else [])
      = (if (cutBuild p2).1 = [] then [] else '+' :: Join (cutBuild p2).1 '.') := by
    by_cases hc : (cutBuild p2).1 = []
    · simp [hc, Join]
    · simp [hc, Join_ne_nil '.' hc hbne]
  rw [k1, k2]
  have : p2 = (cutPrerelease (cutBuild p2).2).2 ++
      (if (cutPrerelease (cutBuild p2).2).1 = [] then []
          else '-' :: Join (cutPrerelease (cutBuild p2).2).1 '.') ++
      (if (cutBuild p2).1 = [] then [] else '+' :: Join (cutBuild p2).1 '.') := by
    rw [e3, e2]
  conv_rhs => rw [this]
  simp [List.append_assoc]

/-- C1. Round trip: for every string `s` for which `Load(s)` succeeds,
`Load(s).String() == s`. -/
theorem Load_String_roundtrip (s : Str) (sv : Semver) (h : Load s = .ok sv) :
    sv.String = s := by
  obtain ⟨hp, hM, hm, hpt, hpre, hb, -, -⟩ := Load_ok_inv h
  unfold Semver.String
  rw [hM, hm, hpt, hpre, hb]
  exact Parse_rebuild hp

/-- C1, at a concrete input: `1.2.3-alpha.1+build.7` loads and prints back as
itself. -/
theorem Load_String_roundtrip_witness :
    Load "1.2.3-alpha.1+build.7".toList
        = .ok (mkSemver 1 2 3 ["alpha".toList, "1".toList] ["build".toList, "7".toList])
      ∧ (mkSemver 1 2 3 ["alpha".toList, "1".toList] ["build".toList, "7".toList]).String
        = "1.2.3-alpha.1+build.7".toList :=
  ⟨by decide, Load_String_roundtrip _ _ (by decide)⟩

/-! ## Formatting a number and parsing it back -/

theorem digitChar_mem_numbers {d : Nat} (h : d < 10) : Nat.digitChar d ∈ numbers := by
  interval_cases d <;> decide

theorem digitVal_digitChar {d : Nat} (h : d < 10) : digitVal (Nat.digitChar d) = d := by
  interval_cases d <;> rfl

theorem FormatUint_unfold (n : Nat) (h : 10 ≤ n) :
    FormatUint n = FormatUint (n / 10) ++ [Nat.digitChar (n % 10)] := by
  have := @FormatUint_step (n / 10) (n % 10) (by omega) (by omega)
  rwa [Nat.div_add_mod'] at this

/-- The decimal form of a number: digits only, not empty, no leading zero, and
its value is the number. -/
theorem FormatUint_spec (n : Nat) :
    (∀ c ∈ FormatUint n, c ∈ numbers) ∧ FormatUint n ≠ []
      ∧ (0 < n → (FormatUint n).head? ≠ some '0')
      ∧ digitsVal (FormatUint n) 0 = n := by
  induction n using Nat.strong_induction_on with
  | _ n ih =>
    by_cases h : n < 10
    · rw [FormatUint_digit h]
      refine ⟨?_, by simp, ?_, ?_⟩
      · intro c hc
        rw [List.mem_singleton.1 hc]
        exact digitChar_mem_numbers h
      · intro hn
        interval_cases n <;> first | omega | decide
      · simp [digitsVal, digitVal_digitChar h]
    · obtain ⟨h1, h2, h3, h4⟩ := ih (n / 10) (by omega)
      rw [FormatUint_unfold n (by omega)]
      refine ⟨?_, by simp, ?_, ?_⟩
      · intro c hc
        rcases List.mem_append.1 hc with hc | hc
        · exact h1 c hc
        · rw [List.mem_singleton.1 hc]
          exact digitChar_mem_numbers (by omega)
      · intro _
        have := h3 (by omega)
        cases hf : FormatUint (n / 10) with
        | nil => exact absurd hf h2
        | cons a t =>
          rw [hf] at this
          simpa using this
      · rw [digitsVal_append, h4, digitVal_digitChar (by omega)]
        omega

theorem FormatUint_not_leading (n : Nat) : hasLeadingZeroes (FormatUint n) = false := by
  obtain ⟨-, h2, h3, -⟩ := FormatUint_spec n
  by_cases hn : n = 0
  · subst hn
    decide
  · have := h3 (by omega)
    cases hf : FormatUint n with
    | nil => rfl
    | cons a t =>
      rw [hf] at this
      cases t with
      | nil => rfl
      | cons b t =>
        simp only [hasLeadingZeroes]
        simpa using this

theorem containsOnly_FormatUint (n : Nat) : containsOnly (FormatUint n) numbers = true :=
  (containsOnly_iff _ _).2 (FormatUint_spec n).1

theorem ParseUint_FormatUint {n : Nat} (h : n < uint64Size) :
    ParseUint (FormatUint n) = .ok n := by
  obtain ⟨-, h2, -, h4⟩ := FormatUint_spec n
  simp [ParseUint, h2, containsOnly_FormatUint, h4, h]

theorem parseNumber_FormatUint (part : Part) {n : Nat} (h : n < uint64Size) :
    parseNumber part (FormatUint n) = .ok n := by
  simp [parseNumber, containsOnly_FormatUint, FormatUint_not_leading, ParseUint_FormatUint h]

theorem not_mem_of_digits {s : Str} {c : Char} (h : containsOnly s numbers = true)
    (hc : c ∉ numbers) : c ∉ s :=
  fun hm => hc ((containsOnly_iff s numbers).1 h c hm)

theorem cutBuild_of_not_mem {p : Str} (h : '+' ∉ p) : cutBuild p = ([], p) := by
  simp [cutBuild, IndexRune_of_not_mem h]

theorem cutBuild_append {a : Str} (b : Str) (h : '+' ∉ a) :
    cutBuild (a ++ '+' :: b) = (Split b '.', a) := by
  unfold cutBuild
  rw [IndexRune_append b h]
  simp

theorem cutPrerelease_of_not_mem {p : Str} (h : '-' ∉ p) : cutPrerelease p = ([], p) := by
  simp [cutPrerelease, IndexRune_of_not_mem h]

theorem cutPrerelease_append {a : Str} (b : Str) (h : '-' ∉ a) :
    cutPrerelease (a ++ '-' :: b) = (Split b '.', a) := by
  unfold cutPrerelease
  rw [IndexRune_append b h]
  simp

theorem SplitN_three_append {a b : Str} (c : Str) (ha : '.' ∉ a) (hb : '.' ∉ b) :
    SplitN (a ++ '.' :: b ++ '.' :: c) '.' 3 = [a, b, c] := by
  have e : a ++ '.' :: b ++ '.' :: c = a ++ '.' :: (b ++ '.' :: c) := by simp
  rw [e]
  simp only [SplitN]
  rw [IndexRune_append _ ha]
  simp only [List.take_left', List.drop_left', List.drop_succ_cons, List.drop_zero]
  rw [show List.drop (a.length + 1) (a ++ '.' :: (b ++ '.' :: c)) = b ++ '.' :: c by
    rw [List.drop_append_eq_append_drop]; simp]
  rw [IndexRune_append _ hb]
  simp

/-- Re-parsing the string form of a version without prerelease and build gives
its three numbers. -/
theorem Parse_FormatUint {major minor patch : Nat} (h0 : major < uint64Size)
    (h1 : minor < uint64Size) (h2 : patch < uint64Size) :
    Parse (FormatUint major ++ '.' :: FormatUint minor ++ '.' :: FormatUint patch)
      = .ok { Major := major, Minor := minor, Patch := patch, Pre := [], Build := [] } := by
  have d0 : '.' ∉ FormatUint major := not_mem_of_digits (containsOnly_FormatUint _) (by decide)
  have d1 : '.' ∉ FormatUint minor := not_mem_of_digits (containsOnly_FormatUint _) (by decide)
  have d2 : '+' ∉ FormatUint patch := not_mem_of_digits (containsOnly_FormatUint _) (by decide)
  have d3 : '-' ∉ FormatUint patch := not_mem_of_digits (containsOnly_FormatUint _) (by decide)
  unfold Parse
  rw [SplitN_three_append _ d0 d1]
  simp [cutBuild_of_not_mem d2, cutPrerelease_of_not_mem d3, parseNumber_FormatUint, h0, h1, h2,
    parsePrerelease, parseBuild]

/-! ## Strings `Load` rejects -/

/-- C2. `Load` hands its argument to `Parse` unchanged and `String` starts with
the digits of `Major`: `0.0.0` loads, `v0.0.0` is rejected with the error for an
invalid major number, and no version prints with a leading `v`. -/
theorem Load_v_rejected :
    Load "0.0.0".toList = .ok (mkSemver 0 0 0 [] [])
      ∧ Load "v0.0.0".toList = .error (.invalidChars .major "v0".toList)
      ∧ ∀ (sv : Semver) (s : Str), sv.String ≠ 'v' :: s := by
  refine ⟨by decide, by decide, ?_⟩
  intro sv s h
  obtain ⟨h1, h2, -, -⟩ := FormatUint_spec sv.Major
  unfold Semver.String at h
  cases hf : FormatUint sv.Major with
  | nil => exact h2 hf
  | cons a t =>
    have ha : a ∈ numbers := h1 a (by simp [hf])
    rw [hf] at h
    simp only [List.cons_append, List.cons.injEq] at h
    rw [h.1] at ha
    exact absurd ha (by decide)

theorem not_ok_of_mem {l : List Str} {x : Str} (hx : x ∈ l)
    (hbad : ∀ p, NewPRVersion x ≠ .ok p) : ∀ pre, parsePrerelease l ≠ .ok pre := by
  induction l with
  | nil => simp at hx
  | cons a l ih =>
    intro pre h
    simp only [parsePrerelease] at h
    cases ha : NewPRVersion a with
    | error e => simp [ha] at h
    | ok p =>
      cases hl : parsePrerelease l with
      | error e => simp [ha, hl] at h
      | ok ps =>
        rcases List.mem_cons.1 hx with e | hx
        · subst e
          exact hbad p ha
        · exact ih hx ps hl

theorem NewPRVersion_leading_zero {x : Str} (hnum : containsOnly x numbers = true)
    (hlen : 1 < x.length) (hz : x.head? = some '0') : ∀ p, NewPRVersion x ≠ .ok p := by
  intro p h
  have hl : hasLeadingZeroes x = true := by
    match x, hlen, hz with
    | a :: b :: t, _, hz =>
      simp only [List.head?_cons, Option.some.injEq] at hz
      simp [hasLeadingZeroes, hz]
  have hne : ¬ x.length = 0 := by omega
  simp [NewPRVersion, hne, hnum, hl] at h

theorem cut_unique {a a2 b b2 : Str} {c : Char} (h : a ++ c :: b = a2 ++ c :: b2)
    (ha : c ∉ a) (ha2 : c ∉ a2) : a = a2 ∧ b = b2 := by
  have h1 := IndexRune_append b ha
  have h2 := IndexRune_append b2 ha2
  rw [h, h2] at h1
  injection h1 with h1
  have := List.append_inj h h1.symm
  simpa using this

/-- C3. `Load` fails for every string `MAJOR.MINOR.PATCH-PRERELEASE`, with or
without `+BUILD` after it, in which some dot-separated prerelease identifier is
purely numeric, longer than one character and starts with `0`: it returns an
error and no version. -/
theorem Load_rejects_leading_zero (major minor patch pre rest x : Str)
    (hmajor : containsOnly major numbers = true)
    (hminor : containsOnly minor numbers = true)
    (hpatch : containsOnly patch numbers = true)
    (hpre : '+' ∉ pre)
    (hrest : rest = [] ∨ ∃ build, rest = '+' :: build)
    (hx : x ∈ Split pre '.')
    (hnum : containsOnly x numbers = true) (hlen : 1 < x.length) (hz : x.head? = some '0') :
    ∃ e, Load (major ++ '.' :: minor ++ '.' :: patch ++ '-' :: pre ++ rest) = .error e := by
  have hparse : ∀ v, Parse (major ++ '.' :: minor ++ '.' :: patch ++ '-' :: pre ++ rest)
      ≠ .ok v := by
    intro v hv
    obtain ⟨p0, p1, p2, hs, n0, n1, -, -, -, h3, -⟩ := Parse_ok_inv hv
    have e1 := cut_unique (by simpa using hs) (not_mem_of_digits hmajor (by decide)) n0
    have e2 := cut_unique e1.2 (not_mem_of_digits hminor (by decide)) n1
    have hp2 : p2 = (patch ++ '-' :: pre) ++ rest := by simpa using e2.2.symm
    have hplus : '+' ∉ patch ++ '-' :: pre := by
      simp only [List.mem_append, List.mem_cons, not_or]
      exact ⟨not_mem_of_digits hpatch (by decide), by decide, hpre⟩
    have hcb : (cutBuild p2).2 = patch ++ '-' :: pre := by
      rcases hrest with hr | ⟨b, hr⟩
      · subst hr
        rw [hp2, List.append_nil, cutBuild_of_not_mem hplus]
      · subst hr
        rw [hp2, cutBuild_append b hplus]
    have hcp : (cutPrerelease (cutBuild p2).2).1 = Split pre '.' := by
      rw [hcb, cutPrerelease_append pre (not_mem_of_digits hpatch (by decide))]
    rw [hcp] at h3
    exact not_ok_of_mem hx (NewPRVersion_leading_zero hnum hlen hz) _ h3
  cases hl : Load (major ++ '.' :: minor ++ '.' :: patch ++ '-' :: pre ++ rest) with
  | error e => exact ⟨e, rfl⟩
  | ok sv => exact absurd (Load_ok_inv hl).1 (hparse _)

/-- C3, at the input of `TestLoad_PRVersionError`: `1.2.3-000` is rejected. -/
theorem Load_rejects_leading_zero_witness :
    ∃ e, Load ("1".toList ++ '.' :: "2".toList ++ '.' :: "3".toList ++ '-' :: "000".toList ++ [])
      = .error e :=
  Load_rejects_leading_zero "1".toList "2".toList "3".toList "000".toList [] "000".toList
    (by decide) (by decide) (by decide) (by decide) (Or.inl rfl) (by decide) (by decide)
    (by decide) (by decide)

/-- C4. `Parse` accepts the build identifier `001` and keeps it unchanged, but
`Load` then runs `NewPRVersion` on it and returns its leading-zero error:
`1.0.0+001` does not load. -/
theorem Load_build_leading_zero :
    Parse "1.0.0+001".toList
        = .ok { Major := 1, Minor := 0, Patch := 0, Pre := [], Build := ["001".toList] }
      ∧ Load "1.0.0+001".toList = .error (.leadingZeroes .prerelease "001".toList) := by
  decide

/-! ## The order on versions -/

theorem toNat_inj {a b : Char} (h : a.toNat = b.toNat) : a = b := by
  rw [← Char.ofNat_toNat a, ← Char.ofNat_toNat b, h]

theorem strLess_irrefl (a : Str) : strLess a a = false := by
  induction a with
  | nil => rfl
  | cons c cs ih => simp [strLess, ih]

/-- Two different strings are ordered one way and not the other. -/
theorem strLess_total : ∀ (a b : Str), a ≠ b → strLess a b = !strLess b a := by
  intro a
  induction a with
  | nil =>
    intro b h
    cases b with
    | nil => exact absurd rfl h
    | cons d ds => simp [strLess]
  | cons c cs ih =>
    intro b h
    cases b with
    | nil => simp [strLess]
    | cons d ds =>
      simp only [strLess]
      by_cases h1 : c.toNat < d.toNat
      · have h2 : ¬ d.toNat < c.toNat := by omega
        simp [h1, h2]
      · by_cases h2 : d.toNat < c.toNat
        · simp [h1, h2]
        · have hcd : c = d := toNat_inj (by omega)
          subst hcd
          simp only [h1, if_false]
          exact ih ds (fun e => h (by rw [e]))

theorem PRVersion_Compare_range (p q : PRVersion) :
    p.Compare q = -1 ∨ p.Compare q = 0 ∨ p.Compare q = 1 := by
  unfold PRVersion.Compare
  split_ifs <;> simp

theorem PRVersion_Compare_antisymm (p q : PRVersion) : p.Compare q = -(q.Compare p) := by
  unfold PRVersion.Compare
  cases hp : p.IsNum <;> cases hq : q.IsNum <;> simp
  · by_cases he : p.VersionStr = q.VersionStr
    · simp [he]
    · have he2 : ¬ q.VersionStr = p.VersionStr := fun e => he e.symm
      have := strLess_total _ _ he
      cases hl : strLess q.VersionStr p.VersionStr <;> simp [he, he2, hl, this]
  · by_cases he : p.VersionNum = q.VersionNum
    · simp [he]
    · have he2 : ¬ q.VersionNum = p.VersionNum := fun e => he e.symm
      by_cases hl : q.VersionNum < p.VersionNum
      · have : ¬ p.VersionNum < q.VersionNum := by omega
        simp [he, he2, hl, this]
      · have : p.VersionNum < q.VersionNum := by omega
        simp [he, he2, hl, this]

theorem PRVersion_Compare_self (p : PRVersion) : p.Compare p = 0 := by
  unfold PRVersion.Compare
  cases hp : p.IsNum <;> simp

theorem comparePre_range : ∀ (l m : List PRVersion),
    comparePre l m = -1 ∨ comparePre l m = 0 ∨ comparePre l m = 1 := by
  intro l
  induction l with
  | nil => intro m; cases m <;> simp [comparePre]
  | cons a l ih =>
    intro m
    cases m with
    | nil => simp [comparePre]
    | cons b m =>
      simp only [comparePre]
      split_ifs
      · exact ih m
      · simp
      · simp

theorem comparePre_antisymm : ∀ (l m : List PRVersion),
    comparePre l m = -(comparePre m l) := by
  intro l
  induction l with
  | nil => intro m; cases m <;> simp [comparePre]
  | cons a l ih =>
    intro m
    cases m with
    | nil => simp [comparePre]
    | cons b m =>
      simp only [comparePre]
      rw [PRVersion_Compare_antisymm b a]
      rcases PRVersion_Compare_range a b with h | h | h <;> simp [h, ih m]

theorem comparePre_self (l : List PRVersion) : comparePre l l = 0 := by
  induction l with
  | nil => rfl
  | cons a l ih => simp [comparePre, PRVersion_Compare_self, ih]

theorem Version_Compare_range (v o : Version) :
    v.Compare o = -1 ∨ v.Compare o = 0 ∨ v.Compare o = 1 := by
  unfold Version.Compare
  split_ifs <;> first | simp | exact comparePre_range _ _

theorem Version_Compare_antisymm (v o : Version) : v.Compare o = -(o.Compare v) := by
  unfold Version.Compare
  by_cases h1 : v.Major = o.Major
  · by_cases h2 : v.Minor = o.Minor
    · by_cases h3 : v.Patch = o.Patch
      · simp only [h1, h2, h3, ne_eq, not_true_eq_false, if_false]
        cases hv : v.Pre with
        | nil => cases ho : o.Pre <;> simp
        | cons a l =>
          cases ho : o.Pre with
          | nil => simp
          | cons b m =>
            simp only [List.length_cons, Nat.add_one_ne_zero, false_and, and_false, if_false,
              gt_iff_lt, Nat.zero_lt_succ]
            exact comparePre_antisymm _ _
      · have h3b : ¬ o.Patch = v.Patch := fun e => h3 e.symm
        simp only [h1, h2, h3, h3b, ne_eq, not_true_eq_false, not_false_eq_true, if_true,
          if_false]
        by_cases hl : o.Patch < v.Patch
        · have : ¬ v.Patch < o.Patch := by omega
          simp [hl, this]
        · have : v.Patch < o.Patch := by omega
          simp [hl, this]
    · have h2b : ¬ o.Minor = v.Minor := fun e => h2 e.symm
      simp only [h1, h2, h2b, ne_eq, not_true_eq_false, not_false_eq_true, if_true, if_false]
      by_cases hl : o.Minor < v.Minor
      · have : ¬ v.Minor < o.Minor := by omega
        simp [hl, this]
      · have : v.Minor < o.Minor := by omega
        simp [hl, this]
  · have h1b : ¬ o.Major = v.Major := fun e => h1 e.symm
    simp only [h1, h1b, ne_eq, not_false_eq_true, if_true]
    by_cases hl : o.Major < v.Major
    · have : ¬ v.Major < o.Major := by omega
      simp [hl, this]
    · have : v.Major < o.Major := by omega
      simp [hl, this]

/-- Two versions with the same numbers and the same parsed prerelease compare
equal. -/
theorem Version_Compare_same {v o : Version} (h0 : v.Major = o.Major) (h1 : v.Minor = o.Minor)
    (h2 : v.Patch = o.Patch) (h3 : v.Pre = o.Pre) : v.Compare o = 0 := by
  unfold Version.Compare
  simp only [h0, h1, h2, h3, ne_eq, not_true_eq_false, if_false]
  cases o.Pre with
  | nil => simp
  | cons a l => simp [comparePre_self]

/-- C7. `Compare` is antisymmetric: for all versions `a` and `b`, those produced
by `Load` among them, `a.Compare(b) == -(b.Compare(a))`. -/
theorem Compare_antisymm (a b : Semver) : a.Compare b = -(b.Compare a) :=
  Version_Compare_antisymm a.v b.v

/-! ## The parsed prerelease and the prerelease string -/

theorem NewPRVersion_ok_cases {x : Str} {p : PRVersion} (h : NewPRVersion x = .ok p) :
    x ≠ [] ∧ ((containsOnly x numbers = true ∧ p = ⟨[], digitsVal x 0, true⟩
        ∧ digitsVal x 0 < uint64Size ∧ hasLeadingZeroes x = false)
      ∨ (containsOnly x numbers = false ∧ p = ⟨x, 0, false⟩)) := by
  have hne := (NewPRVersion_String h).2
  refine ⟨hne, ?_⟩
  have hlen : ¬ x.length = 0 := by simpa using hne
  unfold NewPRVersion at h
  simp only [hlen, if_false] at h
  by_cases hnum : containsOnly x numbers = true
  · left
    simp only [hnum, if_true] at h
    cases hz : hasLeadingZeroes x with
    | true => simp [hz] at h
    | false =>
      simp only [hz, Bool.false_eq_true, if_false, ParseUint, hne, hnum, Bool.not_true] at h
      by_cases hlt : digitsVal x 0 < uint64Size
      · simp only [hlt, if_true, Except.ok.injEq] at h
        exact ⟨hnum, h.symm, hlt, rfl⟩
      · simp [hlt] at h
  · right
    simp only [hnum, Bool.false_eq_true, if_false] at h
    refine ⟨by simpa using hnum, ?_⟩
    split at h
    · injection h with h
      exact h.symm
    · cases h

theorem prOf_of_ok {x : Str} {p : PRVersion} (h : NewPRVersion x = .ok p) : prOf x = p := by
  simp [prOf, h]

theorem parsePrerelease_map : ∀ {l : List Str} {pre : List PRVersion},
    parsePrerelease l = .ok pre →
      pre = l.map prOf ∧ ∀ x ∈ l, NewPRVersion x = .ok (prOf x) := by
  intro l
  induction l with
  | nil =>
    intro pre h
    simp only [parsePrerelease, Except.ok.injEq] at h
    subst h
    simp
  | cons a l ih =>
    intro pre h
    simp only [parsePrerelease] at h
    cases ha : NewPRVersion a with
    | error e => simp [ha] at h
    | ok p =>
      cases hl : parsePrerelease l with
      | error e => simp [ha, hl] at h
      | ok ps =>
        simp only [ha, hl, Except.ok.injEq] at h
        subst h
        obtain ⟨h1, h2⟩ := ih hl
        refine ⟨by simp [h1, prOf_of_ok ha], ?_⟩
        intro x hx
        rcases List.mem_cons.1 hx with e | hx
        · rw [e, prOf_of_ok ha, ha]
        · exact h2 x hx

theorem cutPrerelease_cases (p : Str) :
    (cutPrerelease p).1 = [] ∨ ∃ x, (cutPrerelease p).1 = Split x '.' := by
  unfold cutPrerelease
  cases IndexRune p '-' with
  | none => exact Or.inl rfl
  | some i => exact Or.inr ⟨_, rfl⟩

theorem identifiers_eq_nil {pre : Str} : identifiers pre = [] ↔ pre = [] := by
  unfold identifiers
  by_cases h : pre = []
  · simp [h]
  · simp [h, Split_ne_nil]

/-- For a loaded version the parsed identifiers are those of the `Prerelease`
string, each one accepted by `NewPRVersion`. -/
theorem Load_prerelease {s : Str} {sv : Semver} (h : Load s = .ok sv) :
    sv.v.Pre = (identifiers sv.Prerelease).map prOf
      ∧ ∀ x ∈ identifiers sv.Prerelease, NewPRVersion x = .ok (prOf x) := by
  obtain ⟨hp, -, -, -, hpre, -, -, -⟩ := Load_ok_inv h
  obtain ⟨p0, p1, p2, -, -, -, -, -, -, h3, -⟩ := Parse_ok_inv hp
  obtain ⟨hstr, hne⟩ := parsePrerelease_ok h3
  obtain ⟨hmap, hok⟩ := parsePrerelease_map h3
  have hid : identifiers sv.Prerelease = (cutPrerelease (cutBuild p2).2).1 := by
    rw [hpre, hstr]
    rcases cutPrerelease_cases (cutBuild p2).2 with hc | ⟨x, hc⟩
    · rw [hc]
      rfl
    · have hx : x ≠ [] := by
        have := Join_ne_nil '.' (by rw [hc]; exact Split_ne_nil x '.') hne
        rwa [hc, Join_Split] at this
      rw [hc, Join_Split]
      simp [identifiers, hx]
  rw [hid]
  exact ⟨hmap, hok⟩

theorem Load_fields {s : Str} {sv : Semver} (h : Load s = .ok sv) :
    sv.v.Major = sv.Major ∧ sv.v.Minor = sv.Minor ∧ sv.v.Patch = sv.Patch
      ∧ sv.prerelease = sv.v.Pre
      ∧ sv.Major < uint64Size ∧ sv.Minor < uint64Size ∧ sv.Patch < uint64Size := by
  obtain ⟨hp, hM, hm, hpt, -, -, hpr, -⟩ := Load_ok_inv h
  obtain ⟨p0, p1, p2, -, -, -, h0, h1, h2, -, -⟩ := Parse_ok_inv hp
  refine ⟨hM.symm, hm.symm, hpt.symm, hpr, ?_, ?_, ?_⟩
  · rw [hM]; exact (parseNumber_ok h0).2
  · rw [hm]; exact (parseNumber_ok h1).2
  · rw [hpt]; exact (parseNumber_ok h2).2

/-- Loaded versions with the same visible numbers and prerelease string compare
equal. -/
theorem Compare_same_fields {sa sb : Str} {a b : Semver} (ha : Load sa = .ok a)
    (hb : Load sb = .ok b) (h0 : a.Major = b.Major) (h1 : a.Minor = b.Minor)
    (h2 : a.Patch = b.Patch) (h3 : a.Prerelease = b.Prerelease) : a.Compare b = 0 := by
  obtain ⟨a0, a1, a2, -⟩ := Load_fields ha
  obtain ⟨b0, b1, b2, -⟩ := Load_fields hb
  apply Version_Compare_same
  · rw [a0, b0, h0]
  · rw [a1, b1, h1]
  · rw [a2, b2, h2]
  · rw [(Load_prerelease ha).1, (Load_prerelease hb).1, h3]

/-- C5. Build metadata never affects `Compare`: two versions produced by `Load`
that have the same `Major`, `Minor`, `Patch` and `Prerelease` compare as equal,
whatever their `Build` values. -/
theorem Compare_ignores_build (sa sb : Str) (a b : Semver) (ha : Load sa = .ok a)
    (hb : Load sb = .ok b) (h0 : a.Major = b.Major) (h1 : a.Minor = b.Minor)
    (h2 : a.Patch = b.Patch) (h3 : a.Prerelease = b.Prerelease) : a.Compare b = 0 :=
  Compare_same_fields ha hb h0 h1 h2 h3

/-- C5, at the inputs of `TestSemver_Compare`: `0.4.0+build2` and `0.4.0+build4`
compare as equal although their `Build` fields differ. -/
theorem Compare_ignores_build_witness :
    (mkSemver 0 4 0 [] ["build2".toList]).Build ≠ (mkSemver 0 4 0 [] ["build4".toList]).Build
      ∧ (mkSemver 0 4 0 [] ["build2".toList]).Compare (mkSemver 0 4 0 [] ["build4".toList]) = 0 :=
  ⟨by decide, Compare_ignores_build "0.4.0+build2".toList "0.4.0+build4".toList _ _
    (by decide) (by decide) rfl rfl rfl rfl⟩

/-! ## `Compare` against the precedence rule of the specification -/

theorem compareIdentSpec_range (x y : Str) :
    compareIdentSpec x y = -1 ∨ compareIdentSpec x y = 0 ∨ compareIdentSpec x y = 1 := by
  unfold compareIdentSpec compareNat
  split_ifs <;> simp

/-- On two accepted identifiers the library comparison is the rule of the
specification. -/
theorem PRVersion_Compare_spec {x y : Str} (hx : NewPRVersion x = .ok (prOf x))
    (hy : NewPRVersion y = .ok (prOf y)) :
    (prOf x).Compare (prOf y) = compareIdentSpec x y := by
  obtain ⟨nx, cx⟩ := NewPRVersion_ok_cases hx
  obtain ⟨ny, cy⟩ := NewPRVersion_ok_cases hy
  have ix : isNumericIdent x = containsOnly x numbers := by simp [isNumericIdent, nx]
  have iy : isNumericIdent y = containsOnly y numbers := by simp [isNumericIdent, ny]
  unfold PRVersion.Compare compareIdentSpec compareNat
  rw [ix, iy]
  rcases cx with ⟨cx, ex, -, -⟩ | ⟨cx, ex⟩ <;> rcases cy with ⟨cy, ey, -, -⟩ | ⟨cy, ey⟩ <;>
    rw [ex, ey, cx, cy]
  · by_cases he : digitsVal x 0 = digitsVal y 0
    · simp [he]
    · by_cases hl : digitsVal x 0 < digitsVal y 0
      · have : ¬ digitsVal y 0 < digitsVal x 0 := by omega
        simp [he, hl, this]
      · have : digitsVal y 0 < digitsVal x 0 := by omega
        simp [he, hl, this]
  · simp
  · simp
  · by_cases he : x = y
    · simp [he]
    · have := strLess_total x y he
      cases hl : strLess y x <;> simp [he, hl, this]

theorem comparePre_spec : ∀ (l m : List Str),
    (∀ x ∈ l, NewPRVersion x = .ok (prOf x)) → (∀ y ∈ m, NewPRVersion y = .ok (prOf y)) →
    comparePre (l.map prOf) (m.map prOf) = compareIdentsSpec l m := by
  intro l
  induction l with
  | nil => intro m _ _; cases m <;> simp [comparePre, compareIdentsSpec]
  | cons a l ih =>
    intro m hl hm
    cases m with
    | nil => simp [comparePre, compareIdentsSpec]
    | cons b m =>
      have hab := PRVersion_Compare_spec (hl a (by simp)) (hm b (by simp))
      have hrec := ih m (fun x hx => hl x (by simp [hx])) (fun y hy => hm y (by simp [hy]))
      simp only [List.map_cons, comparePre, compareIdentsSpec, hab, hrec]
      rcases compareIdentSpec_range a b with h | h | h <;> simp [h]

theorem compare_numbers {a b : Nat} (h : a ≠ b) :
    (if a > b then (1 : Int) else -1) = compareNat a b := by
  unfold compareNat
  by_cases hl : a < b
  · have : ¬ a > b := by omega
    simp [hl, this]
  · have : a > b := by omega
    simp [hl, h, this]

/-- C6. `Compare` equals the precedence reference definition for all versions
`a`, `b` produced by `Load`: it orders by `Major`, then `Minor`, then `Patch`
numerically; when these are equal a version with empty prerelease is greater than
one with non-empty prerelease; when both have a prerelease the identifier lists
are compared pairwise left to right and a strict prefix is the lesser; the result
is always one of -1, 0, 1. -/
theorem Compare_eq_precedenceSpec (sa sb : Str) (a b : Semver) (ha : Load sa = .ok a)
    (hb : Load sb = .ok b) :
    a.Compare b = precedenceSpec a b
      ∧ (a.Compare b = -1 ∨ a.Compare b = 0 ∨ a.Compare b = 1) := by
  refine ⟨?_, Version_Compare_range a.v b.v⟩
  obtain ⟨a0, a1, a2, -⟩ := Load_fields ha
  obtain ⟨b0, b1, b2, -⟩ := Load_fields hb
  obtain ⟨pa, oka⟩ := Load_prerelease ha
  obtain ⟨pb, okb⟩ := Load_prerelease hb
  unfold Semver.Compare Version.Compare precedenceSpec
  rw [a0, a1, a2, b0, b1, b2, pa, pb]
  by_cases h0 : a.Major = b.Major
  · by_cases h1 : a.Minor = b.Minor
    · by_cases h2 : a.Patch = b.Patch
      · simp only [h0, h1, h2, ne_eq, not_true_eq_false, if_false, List.length_map,
          List.length_eq_zero, identifiers_eq_nil, gt_iff_lt, List.length_pos]
        by_cases ea : a.Prerelease = []
        · by_cases eb : b.Prerelease = []
          · simp [ea, eb]
          · simp [ea, eb, identifiers_eq_nil]
        · by_cases eb : b.Prerelease = []
          · simp [ea, eb, identifiers_eq_nil]
          · simp only [ea, eb, false_and, and_false, if_false]
            exact comparePre_spec _ _ oka okb
      · simp only [h0, h1, h2, ne_eq, not_true_eq_false, not_false_eq_true, if_true, if_false]
        exact compare_numbers h2
    · simp only [h0, h1, ne_eq, not_true_eq_false, not_false_eq_true, if_true, if_false]
      exact compare_numbers h1
  · simp only [h0, ne_eq, not_false_eq_true, if_true]
    exact compare_numbers h0

/-- C6, at two loaded versions: `1.0.0-alpha.2` against `1.0.0-alpha.10`, where
the numeric identifiers decide and the result is -1. -/
theorem Compare_eq_precedenceSpec_witness :
    (mkSemver 1 0 0 ["alpha".toList, "2".toList] []).Compare
        (mkSemver 1 0 0 ["alpha".toList, "10".toList] [])
      = precedenceSpec (mkSemver 1 0 0 ["alpha".toList, "2".toList] [])
          (mkSemver 1 0 0 ["alpha".toList, "10".toList] [])
    ∧ ((mkSemver 1 0 0 ["alpha".toList, "2".toList] []).Compare
          (mkSemver 1 0 0 ["alpha".toList, "10".toList] []) = -1
      ∨ (mkSemver 1 0 0 ["alpha".toList, "2".toList] []).Compare
          (mkSemver 1 0 0 ["alpha".toList, "10".toList] []) = 0
      ∨ (mkSemver 1 0 0 ["alpha".toList, "2".toList] []).Compare
          (mkSemver 1 0 0 ["alpha".toList, "10".toList] []) = 1) :=
  Compare_eq_precedenceSpec "1.0.0-alpha.2".toList "1.0.0-alpha.10".toList _ _
    (by decide) (by decide)

/-! ## Increments -/

theorem succ_mod_uint64 {n : Nat} (h : n < uint64Size) :
    (n + 1) % uint64Size = if n + 1 < uint64Size then n + 1 else 0 := by
  unfold uint64Size at *
  split <;> omega

theorem reparse_plain (major minor patch : Nat) (pre build : List PRVersion) (v : Version)
    (h0 : major < uint64Size) (h1 : minor < uint64Size) (h2 : patch < uint64Size) :
    Semver.reparse { Major := major, Minor := minor, Patch := patch, Prerelease := [],
                     Build := [], prerelease := pre, build := build, v := v }
      = some { Major := major, Minor := minor, Patch := patch, Prerelease := [],
               Build := [], prerelease := pre, build := build,
               v := { Major := major, Minor := minor, Patch := patch, Pre := [], Build := [] } } := by
  unfold Semver.reparse Semver.String
  simp only [ne_eq, not_true_eq_false, if_false, List.append_nil]
  rw [Parse_FormatUint h0 h1 h2]

theorem mod_uint64_lt (n : Nat) : n % uint64Size < uint64Size :=
  Nat.mod_lt _ (by decide)

theorem zero_lt_uint64 : 0 < uint64Size := by decide

/-- The version `IncrementMajor` leaves behind. -/
theorem IncrementMajor_eq (s : Semver) :
    s.IncrementMajor = some { s with
      Major := (s.Major + 1) % uint64Size, Minor := 0, Patch := 0, Prerelease := [], Build := [],
      v := { Major := (s.Major + 1) % uint64Size, Minor := 0, Patch := 0, Pre := [],
             Build := [] } } := by
  unfold Semver.IncrementMajor
  exact reparse_plain _ _ _ _ _ _ (mod_uint64_lt _) zero_lt_uint64 zero_lt_uint64

/-- The version `IncrementMinor` leaves behind. -/
theorem IncrementMinor_eq (s : Semver) (h0 : s.Major < uint64Size) :
    s.IncrementMinor = some { s with
      Minor := (s.Minor + 1) % uint64Size, Patch := 0, Prerelease := [], Build := [],
      v := { Major := s.Major, Minor := (s.Minor + 1) % uint64Size, Patch := 0, Pre := [],
             Build := [] } } := by
  unfold Semver.IncrementMinor
  exact reparse_plain _ _ _ _ _ _ h0 (mod_uint64_lt _) zero_lt_uint64

/-- The version `IncrementPatch` leaves behind. -/
theorem IncrementPatch_eq (s : Semver) (h0 : s.Major < uint64Size) (h1 : s.Minor < uint64Size) :
    s.IncrementPatch = some { s with
      Patch := (s.Patch + 1) % uint64Size, Prerelease := [], Build := [],
      v := { Major := s.Major, Minor := s.Minor, Patch := (s.Patch + 1) % uint64Size, Pre := [],
             Build := [] } } := by
  unfold Semver.IncrementPatch
  exact reparse_plain _ _ _ _ _ _ h0 h1 (mod_uint64_lt _)

/-- C8, as stated, fails at the largest `uint64`: `18446744073709551615.2.3`
loads, and `Increment(LevelMajor)` leaves `0.0.0`, whose `Major` is not the old
one plus one. -/
theorem Increment_major_wraps :
    Load "18446744073709551615.2.3".toList = .ok (mkSemver 18446744073709551615 2 3 [] [])
      ∧ (mkSemver 18446744073709551615 2 3 [] []).Increment LevelMajor
          = some (mkSemver 0 0 0 [] [])
      ∧ (mkSemver 0 0 0 [] []).Major ≠ (mkSemver 18446744073709551615 2 3 [] []).Major + 1 := by
  decide

/-- C8, amended. For every version produced by `Load`, `Increment` at level
`Major`, `Minor` or `Patch` returns (does not panic); it adds one to that
component when the sum still fits in 64 bits and sets it to 0 otherwise, sets
every lower numeric component to 0, leaves every higher numeric component
unchanged, and sets `Prerelease` and `Build` to the empty string. -/
theorem Increment_numeric (s : Str) (sv : Semver) (h : Load s = .ok sv) :
    (∃ r, sv.Increment LevelMajor = some r
        ∧ r.Major = (if sv.Major + 1 < uint64Size then sv.Major + 1 else 0)
        ∧ r.Minor = 0 ∧ r.Patch = 0 ∧ r.Prerelease = [] ∧ r.Build = [])
      ∧ (∃ r, sv.Increment LevelMinor = some r
        ∧ r.Major = sv.Major
        ∧ r.Minor = (if sv.Minor + 1 < uint64Size then sv.Minor + 1 else 0)
        ∧ r.Patch = 0 ∧ r.Prerelease = [] ∧ r.Build = [])
      ∧ (∃ r, sv.Increment LevelPatch = some r
        ∧ r.Major = sv.Major ∧ r.Minor = sv.Minor
        ∧ r.Patch = (if sv.Patch + 1 < uint64Size then sv.Patch + 1 else 0)
        ∧ r.Prerelease = [] ∧ r.Build = []) := by
  obtain ⟨-, -, -, -, b0, b1, b2⟩ := Load_fields h
  refine ⟨⟨_, IncrementMajor_eq sv, succ_mod_uint64 b0, rfl, rfl, rfl, rfl⟩,
    ⟨_, IncrementMinor_eq sv b0, rfl, succ_mod_uint64 b1, rfl, rfl, rfl⟩,
    ⟨_, IncrementPatch_eq sv b0 b1, rfl, rfl, succ_mod_uint64 b2, rfl, rfl⟩⟩

/-- C8, amended, at `1.2.3-alpha+b7`: the three increments give `2.0.0`, `1.3.0`
and `1.2.4`. -/
theorem Increment_numeric_witness :
    (∃ r, (mkSemver 1 2 3 ["alpha".toList] ["b7".toList]).Increment LevelMajor = some r
        ∧ r.Major = (if (mkSemver 1 2 3 ["alpha".toList] ["b7".toList]).Major + 1 < uint64Size
            then (mkSemver 1 2 3 ["alpha".toList] ["b7".toList]).Major + 1 else 0)
        ∧ r.Minor = 0 ∧ r.Patch = 0 ∧ r.Prerelease = [] ∧ r.Build = [])
      ∧ (∃ r, (mkSemver 1 2 3 ["alpha".toList] ["b7".toList]).Increment LevelMinor = some r
        ∧ r.Major = (mkSemver 1 2 3 ["alpha".toList] ["b7".toList]).Major
        ∧ r.Minor = (if (mkSemver 1 2 3 ["alpha".toList] ["b7".toList]).Minor + 1 < uint64Size
            then (mkSemver 1 2 3 ["alpha".toList] ["b7".toList]).Minor + 1 else 0)
        ∧ r.Patch = 0 ∧ r.Prerelease = [] ∧ r.Build = [])
      ∧ (∃ r, (mkSemver 1 2 3 ["alpha".toList] ["b7".toList]).Increment LevelPatch = some r
        ∧ r.Major = (mkSemver 1 2 3 ["alpha".toList] ["b7".toList]).Major
        ∧ r.Minor = (mkSemver 1 2 3 ["alpha".toList] ["b7".toList]).Minor
        ∧ r.Patch = (if (mkSemver 1 2 3 ["alpha".toList] ["b7".toList]).Patch + 1 < uint64Size
            then (mkSemver 1 2 3 ["alpha".toList] ["b7".toList]).Patch + 1 else 0)
        ∧ r.Prerelease = [] ∧ r.Build = []) :=
  Increment_numeric "1.2.3-alpha+b7".toList _ (by decide)

/-! ## Incrementing the prerelease -/

theorem bumpNumeric_none : ∀ (a : List PRVersion), (∀ p ∈ a, p.IsNum = false) →
    bumpNumeric a = (a, false) := by
  intro a
  induction a with
  | nil => intro _; rfl
  | cons p ps ih =>
    intro h
    have hp : p.IsNum = false := h p (by simp)
    have hps := ih (fun q hq => h q (by simp [hq]))
    simp [bumpNumeric, PRVersion.IsNumeric, hp, hps]

theorem bumpNumeric_found : ∀ (a : List PRVersion) (px : PRVersion) (b : List PRVersion),
    (∀ p ∈ a, p.IsNum = false) → px.IsNum = true →
    bumpNumeric (a ++ px :: b)
      = (a ++ { px with VersionNum := (px.VersionNum + 1) % uint64Size } :: b, true) := by
  intro a
  induction a with
  | nil =>
    intro px b _ hx
    simp [bumpNumeric, PRVersion.IsNumeric, hx]
  | cons p ps ih =>
    intro px b h hx
    have hp : p.IsNum = false := h p (by simp)
    have hps := ih px b (fun q hq => h q (by simp [hq])) hx
    simp [bumpNumeric, PRVersion.IsNumeric, hp, hps]

theorem map_String_prOf : ∀ (l : List Str), (∀ x ∈ l, NewPRVersion x = .ok (prOf x)) →
    (l.map prOf).map PRVersion.String = l := by
  intro l
  induction l with
  | nil => intro _; rfl
  | cons a l ih =>
    intro h
    have ha := (NewPRVersion_String (h a (by simp))).1
    simp only [List.map_cons, ha, ih (fun x hx => h x (by simp [hx]))]

theorem prOf_IsNum {x : Str} (h : NewPRVersion x = .ok (prOf x)) :
    (prOf x).IsNum = isNumericIdent x := by
  obtain ⟨nx, cx⟩ := NewPRVersion_ok_cases h
  have ix : isNumericIdent x = containsOnly x numbers := by simp [isNumericIdent, nx]
  rcases cx with ⟨cx, ex, -, -⟩ | ⟨cx, ex⟩ <;> rw [ix, ex, cx]

theorem Join_append_singleton : ∀ (l : List Str) (x : Str) (sep : Char), l ≠ [] →
    Join (l ++ [x]) sep = Join l sep ++ sep :: x := by
  intro l
  induction l with
  | nil => intro x sep h; exact absurd rfl h
  | cons a l ih =>
    intro x sep _
    cases l with
    | nil => simp [Join]
    | cons b l =>
      have := ih x sep (by simp)
      simp only [List.cons_append] at this
      simp [Join, this]

/-- C9, as stated, fails at the largest `uint64`: `1.0.0-18446744073709551615`
loads, and `IncrementPrerelease` leaves the prerelease `0`, not the identifier
increased by one. -/
theorem IncrementPrerelease_wraps :
    Load "1.0.0-18446744073709551615".toList
        = .ok (mkSemver 1 0 0 ["18446744073709551615".toList] [])
      ∧ (mkSemver 1 0 0 ["18446744073709551615".toList] []).IncrementPrerelease.Prerelease
          = "0".toList
      ∧ (mkSemver 1 0 0 ["18446744073709551615".toList] []).IncrementPrerelease.Prerelease
          ≠ FormatUint (18446744073709551615 + 1) := by
  decide

/-- C9, amended. For every version produced by `Load`, `IncrementPrerelease`
leaves `Major`, `Minor` and `Patch` unchanged; if `Prerelease` is empty it
becomes `pre.1`; if no identifier is numeric, a new last identifier `1` is
appended; otherwise the rightmost purely numeric identifier is increased by one
when the sum still fits in 64 bits and becomes `0` when it does not, and every
other identifier is unchanged. -/
theorem IncrementPrerelease_spec (s : Str) (sv : Semver) (h : Load s = .ok sv) :
    sv.IncrementPrerelease.Major = sv.Major
      ∧ sv.IncrementPrerelease.Minor = sv.Minor
      ∧ sv.IncrementPrerelease.Patch = sv.Patch
      ∧ (sv.Prerelease = [] → sv.IncrementPrerelease.Prerelease = "pre.1".toList)
      ∧ (sv.Prerelease ≠ [] → (∀ x ∈ identifiers sv.Prerelease, isNumericIdent x = false) →
          sv.IncrementPrerelease.Prerelease = sv.Prerelease ++ ".1".toList)
      ∧ (∀ (l1 : List Str) (x : Str) (l2 : List Str),
          identifiers sv.Prerelease = l1 ++ x :: l2 → isNumericIdent x = true →
          (∀ y ∈ l2, isNumericIdent y = false) →
          sv.IncrementPrerelease.Prerelease
            = Join (l1 ++ FormatUint (if digitsVal x 0 + 1 < uint64Size
                then digitsVal x 0 + 1 else 0) :: l2) '.') := by
  obtain ⟨hpre, hok⟩ := Load_prerelease h
  obtain ⟨-, -, -, hfield, -, -, -⟩ := Load_fields h
  refine ⟨rfl, rfl, rfl, ?_, ?_, ?_⟩
  · intro he
    simp only [Semver.IncrementPrerelease, nextPrerelease, he, if_true]
    decide
  · intro hne hnone
    have hall : ∀ p ∈ sv.prerelease.reverse, p.IsNum = false := by
      intro p hp
      rw [hfield, hpre] at hp
      simp only [List.mem_reverse, List.mem_map] at hp
      obtain ⟨x, hx, rfl⟩ := hp
      rw [prOf_IsNum (hok x hx)]
      exact hnone x hx
    have hids : identifiers sv.Prerelease ≠ [] := fun e => hne (identifiers_eq_nil.1 e)
    have hjoin : Join (identifiers sv.Prerelease) '.' = sv.Prerelease := by
      simp [identifiers, hne, Join_Split]
    simp only [Semver.IncrementPrerelease, nextPrerelease, hne, if_false,
      bumpNumeric_none _ hall, Bool.false_eq_true]
    rw [hfield, hpre, List.map_append, map_String_prOf _ hok]
    have e1 : List.map PRVersion.String
        [({ VersionStr := [], VersionNum := 1, IsNum := true } : PRVersion)] = ["1".toList] := by
      decide
    rw [e1, Join_append_singleton _ _ _ hids, hjoin]
    rfl
  · intro l1 x l2 hsplit hx hl2
    have hne : sv.Prerelease ≠ [] := by
      intro e
      have := identifiers_eq_nil.2 e
      rw [hsplit] at this
      simp at this
    rw [hsplit] at hpre hok
    have hokx := hok x (by simp)
    have hrev : sv.prerelease.reverse
        = (l2.map prOf).reverse ++ prOf x :: (l1.map prOf).reverse := by
      rw [hfield, hpre]
      simp
    have hall : ∀ p ∈ (l2.map prOf).reverse, p.IsNum = false := by
      intro p hp
      simp only [List.mem_reverse, List.mem_map] at hp
      obtain ⟨y, hy, rfl⟩ := hp
      rw [prOf_IsNum (hok y (by simp [hy]))]
      exact hl2 y hy
    have hxnum : (prOf x).IsNum = true := by rw [prOf_IsNum hokx]; exact hx
    obtain ⟨-, cx⟩ := NewPRVersion_ok_cases hokx
    have hxval : (prOf x).VersionNum = digitsVal x 0 ∧ digitsVal x 0 < uint64Size := by
      rcases cx with ⟨-, ex, hlt, -⟩ | ⟨-, ex⟩
      · rw [ex]
        exact ⟨rfl, hlt⟩
      · rw [ex] at hxnum
        cases hxnum
    simp only [Semver.IncrementPrerelease, nextPrerelease, hne, if_false, hrev,
      bumpNumeric_found _ _ _ hall hxnum, if_true]
    congr 1
    simp only [List.reverse_append, List.reverse_cons, List.reverse_reverse, List.append_assoc,
      List.singleton_append, List.map_append, List.map_cons]
    rw [map_String_prOf l1 (fun y hy => hok y (by simp [hy])),
      map_String_prOf l2 (fun y hy => hok y (by simp [hy]))]
    simp only [PRVersion.String, hxnum, if_true, hxval.1, succ_mod_uint64 hxval.2]

/-- C9, amended, at `1.2.3-alpha.1.2.test`: the rightmost numeric identifier `2`
becomes `3`. -/
theorem IncrementPrerelease_spec_witness :
    (mkSemver 1 2 3 ["alpha".toList, "1".toList, "2".toList, "test".toList] []
        ).IncrementPrerelease.Prerelease = "alpha.1.3.test".toList :=
  (IncrementPrerelease_spec "1.2.3-alpha.1.2.test".toList
    (mkSemver 1 2 3 ["alpha".toList, "1".toList, "2".toList, "test".toList] [])
    (by decide)).2.2.2.2.2 ["alpha".toList, "1".toList] "2".toList ["test".toList]
    (by decide) (by decide) (by decide)

/-! ## Drift -/

theorem Compare_self (a : Semver) : a.Compare a = 0 :=
  Version_Compare_same rfl rfl rfl rfl

theorem FindDrift_less {cur base : Semver} (h : cur.Compare base = -1) :
    cur.FindDrift base = (LevelNone, false, some .ErrVersionLessThanBase) := by
  simp [Semver.FindDrift, h]

theorem FindDrift_equal {cur base : Semver} (h : cur.Compare base = 0) :
    cur.FindDrift base = (LevelNone, false, some .ErrNoDrift) := by
  simp [Semver.FindDrift, h]

theorem FindDrift_greater {cur base : Semver} (h : cur.Compare base = 1) :
    (cur.FindDrift base).2.2 = none := by
  simp [Semver.FindDrift, h]

/-- C10. `FindDrift` fails exactly when the receiver is not greater than the
base: for all versions `cur`, `base` produced by `Load`, `cur.FindDrift(base)`
returns `(LevelNone, false, ErrVersionLessThanBase)` when `cur.Compare(base)` is
-1, returns `(LevelNone, false, ErrNoDrift)` when it is 0 (in particular for
`FindDrift(cur, cur)` and for two versions that differ only in build metadata),
and returns a nil error otherwise. -/
theorem FindDrift_errors (sc sb : Str) (cur base : Semver) (hc : Load sc = .ok cur)
    (hb : Load sb = .ok base) :
    (cur.Compare base = -1 →
        cur.FindDrift base = (LevelNone, false, some .ErrVersionLessThanBase))
      ∧ (cur.Compare base = 0 → cur.FindDrift base = (LevelNone, false, some .ErrNoDrift))
      ∧ (cur.Compare base ≠ -1 → cur.Compare base ≠ 0 → (cur.FindDrift base).2.2 = none)
      ∧ ((cur.FindDrift base).2.2 ≠ none ↔ cur.Compare base ≠ 1)
      ∧ cur.FindDrift cur = (LevelNone, false, some .ErrNoDrift)
      ∧ (cur.Major = base.Major → cur.Minor = base.Minor → cur.Patch = base.Patch →
          cur.Prerelease = base.Prerelease →
          cur.FindDrift base = (LevelNone, false, some .ErrNoDrift)) := by
  refine ⟨FindDrift_less, FindDrift_equal, ?_, ?_, FindDrift_equal (Compare_self cur), ?_⟩
  · intro h1 h0
    rcases Version_Compare_range cur.v base.v with h | h | h
    · exact absurd h h1
    · exact absurd h h0
    · exact FindDrift_greater h
  · rcases Version_Compare_range cur.v base.v with h | h | h
    · have h2 : cur.Compare base = -1 := h
      rw [FindDrift_less h2, h2]
      simp
    · have h2 : cur.Compare base = 0 := h
      rw [FindDrift_equal h2, h2]
      simp
    · have h2 : cur.Compare base = 1 := h
      rw [FindDrift_greater h2, h2]
      simp
  · intro h0 h1 h2 h3
    exact FindDrift_equal (Compare_same_fields hc hb h0 h1 h2 h3)

/-- C10, at `0.4.0+build2` against `0.4.0+build4`: the strings differ, the
comparison is 0 and `FindDrift` returns `ErrNoDrift`. -/
theorem FindDrift_errors_witness :
    (mkSemver 0 4 0 [] ["build2".toList]).String ≠ (mkSemver 0 4 0 [] ["build4".toList]).String
      ∧ (mkSemver 0 4 0 [] ["build2".toList]).FindDrift (mkSemver 0 4 0 [] ["build4".toList])
        = (LevelNone, false, some .ErrNoDrift) :=
  ⟨by decide, (FindDrift_errors "0.4.0+build2".toList "0.4.0+build4".toList _ _
    (by decide) (by decide)).2.2.2.2.2 rfl rfl rfl rfl⟩

/-! ## Reading the heap after a write -/

/-- A slice lies within its array. -/
theorem Heap.addr_lt {h : Heap} {s : Slice} (hpos : 0 < s.cap)
    (hv : h.Valid s) : s.addr < h.arrays.length := by
  by_contra hge
  have : h.array s.addr = [] := by
    unfold Heap.array
    rw [List.getD_eq_default]
    omega
  have hv2 := hv.2
  rw [this] at hv2
  simp at hv2
  omega

theorem Heap.array_set {h : Heap} {addr : Nat} (a : List PRVersion)
    (hlt : addr < h.arrays.length) :
    Heap.array { arrays := h.arrays.set addr a } addr = a := by
  unfold Heap.array
  simp [List.getD_eq_getElem?_getD, List.getElem?_set, hlt]

theorem Heap.alloc_read (h : Heap) (xs : List PRVersion) (cap : Nat) :
    (h.alloc xs cap).2.read (h.alloc xs cap).1 = xs := by
  simp [Heap.alloc, Heap.read, Heap.array, List.getD_eq_getElem?_getD]

theorem Heap.store_read {h : Heap} {s : Slice} {xs : List PRVersion}
    (hlt : s.addr < h.arrays.length) (hlen : xs.length = s.len) :
    (h.store s xs).read s = xs := by
  unfold Heap.store Heap.read
  rw [Heap.array_set _ hlt, ← hlen]
  simp

theorem take_set_self (l : List PRVersion) (a : PRVersion) : ∀ n : Nat,
    (l.set n a).take n = l.take n := by
  induction l with
  | nil => intro n; simp
  | cons b l ih =>
    intro n
    cases n with
    | zero => simp
    | succ n => simp [ih n]

theorem Heap.append_read (grow : Nat → Nat) {h : Heap} {s : Slice} (x : PRVersion)
    (hv : h.Valid s) :
    (h.append grow s x).2.read (h.append grow s x).1 = h.read s ++ [x] := by
  unfold Heap.append
  split
  · rename_i hlt
    have hlt2 : s.addr < h.arrays.length := Heap.addr_lt (by omega) hv
    have hl : s.len < (h.array s.addr).length := Nat.lt_of_lt_of_le hlt hv.2
    simp only [Heap.read]
    rw [Heap.array_set _ hlt2]
    rw [List.take_succ, take_set_self]
    simp [List.getElem?_set, hl]
  · exact Heap.alloc_read h _ _

theorem Heap.alloc_valid (h : Heap) (xs : List PRVersion) (cap : Nat) :
    (h.alloc xs cap).2.Valid (h.alloc xs cap).1 := by
  simp [Heap.Valid, Heap.alloc, Heap.array, List.getD_eq_getElem?_getD]

theorem Heap.append_valid (grow : Nat → Nat) {h : Heap} {s : Slice} (x : PRVersion)
    (hv : h.Valid s) : (h.append grow s x).2.Valid (h.append grow s x).1 := by
  unfold Heap.append
  split
  · rename_i hlt
    have hlt2 : s.addr < h.arrays.length := Heap.addr_lt (by omega) hv
    refine ⟨Nat.succ_le_of_lt hlt, ?_⟩
    show s.cap ≤ (Heap.array _ s.addr).length
    rw [Heap.array_set _ hlt2, List.length_set]
    exact hv.2
  · exact Heap.alloc_valid h _ _

theorem Heap.appendAll_read (grow : Nat → Nat) : ∀ (xs : List PRVersion) (h : Heap) (s : Slice),
    h.Valid s →
    (h.appendAll grow s xs).2.read (h.appendAll grow s xs).1 = h.read s ++ xs
      ∧ (h.appendAll grow s xs).2.Valid (h.appendAll grow s xs).1 := by
  intro xs
  induction xs with
  | nil => intro h s hv; simpa [Heap.appendAll] using hv
  | cons x xs ih =>
    intro h s hv
    obtain ⟨h1, h2⟩ := ih (h.append grow s x).2 (h.append grow s x).1
      (Heap.append_valid grow x hv)
    simp only [Heap.appendAll]
    refine ⟨?_, h2⟩
    rw [h1, Heap.append_read grow x hv]
    simp

theorem Heap.nil_valid (h : Heap) : h.Valid Slice.nil := by
  simp [Heap.Valid, Slice.nil]

theorem Heap.nil_read (h : Heap) : h.read Slice.nil = [] := by
  simp [Heap.read, Slice.nil]

/-- What `ParseAt` leaves in memory is what `Parse` returns. -/
theorem ParseAt_read {grow : Nat → Nat} {s : Str} {h h1 : Heap} {v : VersionAt}
    (hp : ParseAt grow s h = .ok (v, h1)) :
    Parse s = .ok (v.read h1) ∧ h1.Valid v.Pre := by
  unfold ParseAt at hp
  cases hq : Parse s with
  | error e => simp [hq] at hp
  | ok w =>
    simp only [hq, Except.ok.injEq, Prod.mk.injEq] at hp
    obtain ⟨hv, hh⟩ := hp
    obtain ⟨r1, r2⟩ := Heap.appendAll_read grow w.Pre h Slice.nil (Heap.nil_valid h)
    rw [Heap.nil_read, List.nil_append, hh] at r1
    rw [hh] at r2
    subst hv
    exact ⟨by simp [VersionAt.read, r1], r2⟩

/-- What `LoadAt` leaves in memory is what `Load` returns; the slices
`prerelease` and `v.Pre` are one and the same, and valid. -/
theorem LoadAt_read {grow : Nat → Nat} {s : Str} {h h1 : Heap} {o : SemverAt}
    (hl : LoadAt grow s h = .ok (o, h1)) :
    Load s = .ok (o.read h1) ∧ o.v.Pre = o.prerelease ∧ h1.Valid o.prerelease := by
  unfold LoadAt at hl
  cases hp : ParseAt grow s h with
  | error e => simp [hp] at hl
  | ok p =>
    obtain ⟨v, h2⟩ := p
    obtain ⟨hq, hv⟩ := ParseAt_read hp
    cases hb : loadBuild v.Build with
    | error e => simp [hp, hb] at hl
    | ok build =>
      simp only [hp, hb, Except.ok.injEq, Prod.mk.injEq] at hl
      obtain ⟨ho, hh⟩ := hl
      subst hh
      subst ho
      refine ⟨?_, rfl, hv⟩
      have hb2 : loadBuild (v.read h2).Build = .ok build := hb
      simp only [Load, hq, hb2]
      rfl

theorem bumpNumeric_length : ∀ (l : List PRVersion), (bumpNumeric l).1.length = l.length := by
  intro l
  induction l with
  | nil => rfl
  | cons p ps ih =>
    simp only [bumpNumeric]
    split <;> simp [ih]

theorem Heap.read_length {h : Heap} {s : Slice} (hv : h.Valid s) :
    (h.read s).length = s.len := by
  unfold Heap.read
  rw [List.length_take]
  exact Nat.min_eq_left (Nat.le_trans hv.1 hv.2)

/-- The identifiers `IncrementPrerelease` leaves in memory are those of
`nextPrerelease` on the fields read before the call. -/
theorem bumpPrerelease_read (grow : Nat → Nat) {s : SemverAt} {h : Heap}
    (hv : h.Valid s.prerelease) :
    (s.bumpPrerelease grow h).2.read (s.bumpPrerelease grow h).1 = nextPrerelease (s.read h) := by
  unfold SemverAt.bumpPrerelease nextPrerelease
  have e1 : (s.read h).Prerelease = s.Prerelease := rfl
  have e2 : (s.read h).prerelease = h.read s.prerelease := rfl
  rw [e1, e2]
  by_cases hp : s.Prerelease = []
  · simp only [hp, if_true]
    exact Heap.alloc_read _ _ _
  · simp only [hp, if_false]
    by_cases hf : (bumpNumeric (h.read s.prerelease).reverse).2 = true
    · simp only [hf, if_true]
      have hlen := Heap.read_length hv
      have hne : h.read s.prerelease ≠ [] := by
        intro e
        rw [e] at hf
        simp [bumpNumeric] at hf
      have hpos : 0 < s.prerelease.len := by
        rw [← hlen]
        exact List.length_pos.2 hne
      apply Heap.store_read (Heap.addr_lt (Nat.lt_of_lt_of_le hpos hv.1) hv)
      rw [List.length_reverse, bumpNumeric_length, List.length_reverse, hlen]
    · simp only [hf, Bool.false_eq_true, if_false]
      exact Heap.append_read grow _ hv

/-- The visible fields `IncrementPrerelease` leaves in memory are those of the
method on the fields read before the call. -/
theorem IncrementPrerelease_read (grow : Nat → Nat) {s : SemverAt} {h : Heap}
    (hv : h.Valid s.prerelease) :
    (s.IncrementPrerelease grow h).1.Prerelease = (s.read h).IncrementPrerelease.Prerelease
      ∧ (s.IncrementPrerelease grow h).2.read (s.IncrementPrerelease grow h).1.prerelease
          = (s.read h).IncrementPrerelease.prerelease := by
  unfold SemverAt.IncrementPrerelease Semver.IncrementPrerelease
  simp only [bumpPrerelease_read grow hv]
  exact ⟨trivial, trivial⟩

/-! ## The level of a drift -/

theorem FindDrift_of_greater {cur base : Semver} (h : cur.Compare base = 1) :
    cur.FindDrift base =
      ((if cur.Major ≠ base.Major then LevelMajor
        else if cur.Minor ≠ base.Minor then LevelMinor
        else if cur.Patch ≠ base.Patch then LevelPatch
        else if cur.Prerelease ≠ base.Prerelease then LevelPrerelease
        else LevelNone),
       decide (cur.Prerelease ≠ []), none) := by
  simp [Semver.FindDrift, h]

/-- When `FindDrift` returns a nil error, the comparison was 1. -/
theorem Compare_of_FindDrift_ok {cur base : Semver} (h : (cur.FindDrift base).2.2 = none) :
    cur.Compare base = 1 := by
  rcases Version_Compare_range cur.v base.v with hc | hc | hc
  · have h2 : cur.Compare base = -1 := hc
    simp [Semver.FindDrift, h2] at h
  · have h2 : cur.Compare base = 0 := hc
    simp [Semver.FindDrift, h2] at h
  · exact hc

/-- C11. For all versions `cur`, `base` produced by `Load` with
`cur.Compare(base) == 1`, `cur.FindDrift(base)` returns a nil error, returns as
level the first component, scanning `Major`, then `Minor`, then `Patch`, then the
`Prerelease` string compared by plain string inequality, at which `cur` and
`base` literally differ (one of them does), and returns `hasPrerelease == true`
iff `cur.Prerelease` is non-empty. -/
theorem FindDrift_level (sc sb : Str) (cur base : Semver) (hc : Load sc = .ok cur)
    (hb : Load sb = .ok base) (hgt : cur.Compare base = 1) :
    (cur.FindDrift base).2.2 = none
      ∧ ((cur.FindDrift base).2.1 = true ↔ cur.Prerelease ≠ [])
      ∧ (cur.Major ≠ base.Major → (cur.FindDrift base).1 = LevelMajor)
      ∧ (cur.Major = base.Major → cur.Minor ≠ base.Minor →
          (cur.FindDrift base).1 = LevelMinor)
      ∧ (cur.Major = base.Major → cur.Minor = base.Minor → cur.Patch ≠ base.Patch →
          (cur.FindDrift base).1 = LevelPatch)
      ∧ (cur.Major = base.Major → cur.Minor = base.Minor → cur.Patch = base.Patch →
          cur.Prerelease ≠ base.Prerelease ∧ (cur.FindDrift base).1 = LevelPrerelease) := by
  rw [FindDrift_of_greater hgt]
  refine ⟨rfl, by simp, ?_, ?_, ?_, ?_⟩
  · intro h0
    simp [h0]
  · intro h0 h1
    simp [h0, h1]
  · intro h0 h1 h2
    simp [h0, h1, h2]
  · intro h0 h1 h2
    have h3 : cur.Prerelease ≠ base.Prerelease := by
      intro h3
      have := Compare_same_fields hc hb h0 h1 h2 h3
      rw [this] at hgt
      exact absurd hgt (by decide)
    exact ⟨h3, by simp [h0, h1, h2, h3]⟩

/-- C11, at `0.1.0-alpha.2` against `0.1.0-alpha.1`: the three numbers agree, the
prerelease strings differ, the level is `LevelPrerelease` and `hasPrerelease` is
true. -/
theorem FindDrift_level_witness :
    ((mkSemver 0 1 0 ["alpha".toList, "2".toList] []).FindDrift
        (mkSemver 0 1 0 ["alpha".toList, "1".toList] [])).2.2 = none
      ∧ ((mkSemver 0 1 0 ["alpha".toList, "2".toList] []).FindDrift
        (mkSemver 0 1 0 ["alpha".toList, "1".toList] [])).2.1 = true
      ∧ ((mkSemver 0 1 0 ["alpha".toList, "2".toList] []).FindDrift
        (mkSemver 0 1 0 ["alpha".toList, "1".toList] [])).1 = LevelPrerelease :=
  have w := FindDrift_level "0.1.0-alpha.2".toList "0.1.0-alpha.1".toList
    (mkSemver 0 1 0 ["alpha".toList, "2".toList] [])
    (mkSemver 0 1 0 ["alpha".toList, "1".toList] []) (by decide) (by decide) (by decide)
  ⟨w.1, w.2.1.2 (by decide), (w.2.2.2.2.2 rfl rfl rfl).2⟩

/-! ## Levels `Increment` does not know -/

/-- C18. `Increment` fails fast on an unrecognised level: for every `Level` value
other than `LevelNone`, `LevelPrerelease`, `LevelPatch`, `LevelMinor` and
`LevelMajor`, `Increment` panics instead of returning (on the fields alone and
in memory), while `Increment(LevelNone)` returns with the version, and the
heap, unchanged. -/
theorem Increment_unknown_level (level : Level) (hnone : level ≠ LevelNone)
    (hpre : level ≠ LevelPrerelease) (hpatch : level ≠ LevelPatch)
    (hminor : level ≠ LevelMinor) (hmajor : level ≠ LevelMajor) :
    (∀ s : Semver, s.Increment level = none ∧ s.Increment LevelNone = some s)
      ∧ (∀ (grow : Nat → Nat) (s : SemverAt) (h : Heap),
          s.Increment grow level h = none ∧ s.Increment grow LevelNone h = some (s, h)) := by
  refine ⟨fun s => ⟨?_, ?_⟩, fun grow s h => ⟨?_, ?_⟩⟩
  · simp [Semver.Increment, hnone, hpre, hpatch, hminor, hmajor]
  · simp [Semver.Increment, LevelNone, LevelMajor, LevelMinor, LevelPatch, LevelPrerelease]
  · simp [SemverAt.Increment, hnone, hpre, hpatch, hminor, hmajor]
  · simp [SemverAt.Increment, LevelNone, LevelMajor, LevelMinor, LevelPatch, LevelPrerelease]

/-- C18, at the level of `TestSemver_IncrementUnsupportedLevel`: `Level(100)` on
`0.1.2` panics, `LevelNone` leaves `0.1.2`. -/
theorem Increment_unknown_level_witness :
    (mkSemver 0 1 2 [] []).Increment 100 = none
      ∧ (mkSemver 0 1 2 [] []).Increment LevelNone = some (mkSemver 0 1 2 [] []) :=
  (Increment_unknown_level 100 (by decide) (by decide) (by decide) (by decide)
    (by decide)).1 (mkSemver 0 1 2 [] [])

/-! ## `UpdateRelease` -/

theorem reparseAt_plain (grow : Nat → Nat) (major minor patch : Nat) (pre : Slice)
    (build : List PRVersion) (v : VersionAt) (h : Heap)
    (h0 : major < uint64Size) (h1 : minor < uint64Size) (h2 : patch < uint64Size) :
    SemverAt.reparse grow { Major := major, Minor := minor, Patch := patch, Prerelease := [],
                            Build := [], prerelease := pre, build := build, v := v } h
      = some ({ Major := major, Minor := minor, Patch := patch, Prerelease := [],
                Build := [], prerelease := pre, build := build,
                v := { Major := major, Minor := minor, Patch := patch, Pre := Slice.nil,
                       Build := [] } }, h) := by
  unfold SemverAt.reparse SemverAt.String ParseAt
  simp only [ne_eq, not_true_eq_false, if_false, List.append_nil]
  rw [Parse_FormatUint h0 h1 h2]
  rfl

/-- The copy `IncrementNew(LevelMajor)` returns; the heap is left as it was. -/
theorem SemverAt.IncrementNew_major (grow : Nat → Nat) (s : SemverAt) (h : Heap) :
    s.IncrementNew grow LevelMajor h
      = some ({ Major := (s.Major + 1) % uint64Size, Minor := 0, Patch := 0, Prerelease := [],
                Build := [], prerelease := s.prerelease, build := s.build,
                v := { Major := (s.Major + 1) % uint64Size, Minor := 0, Patch := 0,
                       Pre := Slice.nil, Build := [] } }, h) := by
  show s.Copy.IncrementMajor grow h = _
  exact reparseAt_plain grow _ _ _ _ _ _ h (mod_uint64_lt _) zero_lt_uint64
    zero_lt_uint64

/-- The copy `IncrementNew(LevelMinor)` returns; the heap is left as it was. -/
theorem SemverAt.IncrementNew_minor (grow : Nat → Nat) (s : SemverAt) (h : Heap)
    (b0 : s.Major < uint64Size) :
    s.IncrementNew grow LevelMinor h
      = some ({ Major := s.Major, Minor := (s.Minor + 1) % uint64Size, Patch := 0,
                Prerelease := [], Build := [], prerelease := s.prerelease, build := s.build,
                v := { Major := s.Major, Minor := (s.Minor + 1) % uint64Size, Patch := 0,
                       Pre := Slice.nil, Build := [] } }, h) := by
  show s.Copy.IncrementMinor grow h = _
  exact reparseAt_plain grow _ _ _ _ _ _ h b0 (mod_uint64_lt _) zero_lt_uint64

/-- The copy `IncrementNew(LevelPatch)` returns; the heap is left as it was. -/
theorem SemverAt.IncrementNew_patch (grow : Nat → Nat) (s : SemverAt) (h : Heap)
    (b0 : s.Major < uint64Size) (b1 : s.Minor < uint64Size) :
    s.IncrementNew grow LevelPatch h
      = some ({ Major := s.Major, Minor := s.Minor, Patch := (s.Patch + 1) % uint64Size,
                Prerelease := [], Build := [], prerelease := s.prerelease, build := s.build,
                v := { Major := s.Major, Minor := s.Minor,
                       Patch := (s.Patch + 1) % uint64Size, Pre := Slice.nil,
                       Build := [] } }, h) := by
  show s.Copy.IncrementPatch grow h = _
  exact reparseAt_plain grow _ _ _ _ _ _ h b0 b1 (mod_uint64_lt _)

theorem IsComplete_of_some {ctx : UpdateCtx} {oldApp newApp chart : SemverAt}
    (hold : ctx.OldAppVersion = some oldApp) (hnew : ctx.NewAppVersion = some newApp)
    (hchart : ctx.OldChartVersion = some chart) : ctx.IsComplete = true := by
  simp [UpdateCtx.IsComplete, hold, hnew, hchart]

/-- On a complete context `UpdateRelease` is the dispatch on the strategy. -/
theorem UpdateRelease_complete (grow : Nat → Nat) {ctx : UpdateCtx}
    {oldApp newApp chart : SemverAt} (h : Heap)
    (hold : ctx.OldAppVersion = some oldApp) (hnew : ctx.NewAppVersion = some newApp)
    (hchart : ctx.OldChartVersion = some chart) :
    UpdateRelease grow ctx h =
      if ctx.Strategy = UpdateMajor then updateFixed grow LevelMajor oldApp newApp chart h
      else if ctx.Strategy = UpdateMinor then updateFixed grow LevelMinor oldApp newApp chart h
      else if ctx.Strategy = UpdatePatch then updateFixed grow LevelPatch oldApp newApp chart h
      else if ctx.Strategy = UpdateDefault then updateDefault grow oldApp newApp chart h
      else some (.error (.unsupported
        ("unsupported release update strategy: ".toList ++ ctx.Strategy)), h) := by
  unfold UpdateRelease
  simp only [IsComplete_of_some hold hnew hchart, hold, hnew, hchart, Bool.not_true,
    Bool.false_eq_true, if_false, updateMajor, updateMinor, updatePatch]

/-- C12. `UpdateRelease` fails fast on an incomplete context: `IsComplete` is true
iff `OldAppVersion`, `NewAppVersion` and `OldChartVersion` are all non-nil, and
for every `UpdateCtx` that is not complete `UpdateRelease` returns
`ErrIncompleteUpdateCtx`, whatever the `Strategy`. -/
theorem UpdateRelease_incomplete (grow : Nat → Nat) (ctx : UpdateCtx) (h : Heap) :
    (ctx.IsComplete = true ↔
        ctx.OldAppVersion ≠ none ∧ ctx.NewAppVersion ≠ none ∧ ctx.OldChartVersion ≠ none)
      ∧ (ctx.IsComplete = false →
          UpdateRelease grow ctx h = some (.error .ErrIncompleteUpdateCtx, h)) := by
  refine ⟨?_, ?_⟩
  · unfold UpdateCtx.IsComplete
    cases ctx.OldAppVersion <;> cases ctx.NewAppVersion <;> cases ctx.OldChartVersion <;> simp
  · intro hc
    simp [UpdateRelease, hc]

/-- C12, at the context of `TestUpdateRelease_ErrorNotComplete` (all three
versions nil), with the strategy `major`. -/
theorem UpdateRelease_incomplete_witness :
    UpdateRelease growDouble
        { OldAppVersion := none, NewAppVersion := none, OldChartVersion := none,
          Strategy := UpdateMajor } Heap.empty
      = some (.error .ErrIncompleteUpdateCtx, Heap.empty) :=
  (UpdateRelease_incomplete growDouble _ Heap.empty).2 (by decide)

theorem UpdateMinor_ne_major : UpdateMinor ≠ UpdateMajor := by decide

theorem UpdatePatch_ne_major : UpdatePatch ≠ UpdateMajor := by decide

theorem UpdatePatch_ne_minor : UpdatePatch ≠ UpdateMinor := by decide

theorem UpdateDefault_ne : UpdateDefault ≠ UpdateMajor ∧ UpdateDefault ≠ UpdateMinor
    ∧ UpdateDefault ≠ UpdatePatch := by decide

/-- C13. For every complete `UpdateCtx` with `Strategy` major, minor or patch: if
`NewAppVersion.FindDrift(OldAppVersion)` fails, `UpdateRelease` returns that same
error; otherwise it returns `OldChartVersion.IncrementNew` at the fixed level
`Major`, `Minor` or `Patch` respectively, whatever the level of the application
drift, with the fields that increment gives. The chart numbers are `uint64`. -/
theorem UpdateRelease_fixed_level (grow : Nat → Nat) (ctx : UpdateCtx) (h : Heap)
    (oldApp newApp chart : SemverAt)
    (hold : ctx.OldAppVersion = some oldApp) (hnew : ctx.NewAppVersion = some newApp)
    (hchart : ctx.OldChartVersion = some chart)
    (b0 : chart.Major < uint64Size) (b1 : chart.Minor < uint64Size) :
    (ctx.Strategy = UpdateMajor ∨ ctx.Strategy = UpdateMinor ∨ ctx.Strategy = UpdatePatch →
        ∀ e, (newApp.FindDrift oldApp h).2.2 = some e →
          UpdateRelease grow ctx h = some (.error (.drift e), h))
      ∧ ((newApp.FindDrift oldApp h).2.2 = none →
          (ctx.Strategy = UpdateMajor → ∃ r,
              UpdateRelease grow ctx h = some (.ok r, h)
              ∧ chart.IncrementNew grow LevelMajor h = some (r, h)
              ∧ r.Major = (chart.Major + 1) % uint64Size ∧ r.Minor = 0 ∧ r.Patch = 0
              ∧ r.Prerelease = [] ∧ r.Build = [])
          ∧ (ctx.Strategy = UpdateMinor → ∃ r,
              UpdateRelease grow ctx h = some (.ok r, h)
              ∧ chart.IncrementNew grow LevelMinor h = some (r, h)
              ∧ r.Major = chart.Major ∧ r.Minor = (chart.Minor + 1) % uint64Size
              ∧ r.Patch = 0 ∧ r.Prerelease = [] ∧ r.Build = [])
          ∧ (ctx.Strategy = UpdatePatch → ∃ r,
              UpdateRelease grow ctx h = some (.ok r, h)
              ∧ chart.IncrementNew grow LevelPatch h = some (r, h)
              ∧ r.Major = chart.Major ∧ r.Minor = chart.Minor
              ∧ r.Patch = (chart.Patch + 1) % uint64Size
              ∧ r.Prerelease = [] ∧ r.Build = [])) := by
  have hU := UpdateRelease_complete grow h hold hnew hchart
  refine ⟨?_, fun hd => ⟨?_, ?_, ?_⟩⟩
  · intro hs e he
    rw [hU]
    rcases hs with hs | hs | hs
    · simp [hs, updateFixed, he]
    · simp [hs, UpdateMinor_ne_major, updateFixed, he]
    · simp [hs, UpdatePatch_ne_major, UpdatePatch_ne_minor, updateFixed, he]
  · intro hs
    refine ⟨_, ?_, SemverAt.IncrementNew_major grow chart h, rfl, rfl, rfl, rfl, rfl⟩
    rw [hU]
    simp [hs, updateFixed, hd, returnIncrementNew, SemverAt.IncrementNew_major]
  · intro hs
    refine ⟨_, ?_, SemverAt.IncrementNew_minor grow chart h b0, rfl, rfl, rfl, rfl, rfl⟩
    rw [hU]
    simp [hs, UpdateMinor_ne_major, updateFixed, hd, returnIncrementNew,
      SemverAt.IncrementNew_minor grow chart h b0]
  · intro hs
    refine ⟨_, ?_, SemverAt.IncrementNew_patch grow chart h b0 b1, rfl, rfl, rfl, rfl, rfl⟩
    rw [hU]
    simp [hs, UpdatePatch_ne_major, UpdatePatch_ne_minor, updateFixed, hd, returnIncrementNew,
      SemverAt.IncrementNew_patch grow chart h b0 b1]

/-- C13, at the contexts of `TestUpdateRelease_Major`, `_Minor` and `_Patch`:
chart `1.2.3` with the application going from `0.1.0` to `0.2.0` gives `2.0.0`,
`1.3.0` and `1.2.4`. -/
theorem UpdateRelease_fixed_level_witness :
    (∃ r, UpdateRelease growDouble
          (loadedCtx "0.1.0".toList "0.2.0".toList "1.2.3".toList UpdateMajor).1
          (loadedCtx "0.1.0".toList "0.2.0".toList "1.2.3".toList UpdateMajor).2
        = some (.ok r, (loadedCtx "0.1.0".toList "0.2.0".toList "1.2.3".toList UpdateMajor).2)
        ∧ r.String = "2.0.0".toList)
      ∧ (∃ r, UpdateRelease growDouble
          (loadedCtx "0.1.0".toList "0.2.0".toList "1.2.3".toList UpdateMinor).1
          (loadedCtx "0.1.0".toList "0.2.0".toList "1.2.3".toList UpdateMinor).2
        = some (.ok r, (loadedCtx "0.1.0".toList "0.2.0".toList "1.2.3".toList UpdateMinor).2)
        ∧ r.String = "1.3.0".toList)
      ∧ (∃ r, UpdateRelease growDouble
          (loadedCtx "0.1.0".toList "0.2.0".toList "1.2.3".toList UpdatePatch).1
          (loadedCtx "0.1.0".toList "0.2.0".toList "1.2.3".toList UpdatePatch).2
        = some (.ok r, (loadedCtx "0.1.0".toList "0.2.0".toList "1.2.3".toList UpdatePatch).2)
        ∧ r.String = "1.2.4".toList) := by
  refine ⟨?_, ?_, ?_⟩
  · obtain ⟨r, h1, h2, -⟩ := ((UpdateRelease_fixed_level growDouble
      (loadedCtx "0.1.0".toList "0.2.0".toList "1.2.3".toList UpdateMajor).1
      (loadedCtx "0.1.0".toList "0.2.0".toList "1.2.3".toList UpdateMajor).2
      _ _ _ rfl rfl rfl (by decide) (by decide)).2 (by decide)).1 rfl
    refine ⟨r, h1, ?_⟩
    have h3 := (SemverAt.IncrementNew_major growDouble _ _).symm.trans h2
    injection h3 with h3
    injection h3 with h3
    rw [← h3]
    decide
  · obtain ⟨r, h1, h2, -⟩ := ((UpdateRelease_fixed_level growDouble
      (loadedCtx "0.1.0".toList "0.2.0".toList "1.2.3".toList UpdateMinor).1
      (loadedCtx "0.1.0".toList "0.2.0".toList "1.2.3".toList UpdateMinor).2
      _ _ _ rfl rfl rfl (by decide) (by decide)).2 (by decide)).2.1 rfl
    refine ⟨r, h1, ?_⟩
    have h3 := (SemverAt.IncrementNew_minor growDouble _ _ (by decide)).symm.trans h2
    injection h3 with h3
    injection h3 with h3
    rw [← h3]
    decide
  · obtain ⟨r, h1, h2, -⟩ := ((UpdateRelease_fixed_level growDouble
      (loadedCtx "0.1.0".toList "0.2.0".toList "1.2.3".toList UpdatePatch).1
      (loadedCtx "0.1.0".toList "0.2.0".toList "1.2.3".toList UpdatePatch).2
      _ _ _ rfl rfl rfl (by decide) (by decide)).2 (by decide)).2.2 rfl
    refine ⟨r, h1, ?_⟩
    have h3 := (SemverAt.IncrementNew_patch growDouble _ _ (by decide) (by decide)).symm.trans h2
    injection h3 with h3
    injection h3 with h3
    rw [← h3]
    decide

theorem FindDrift_hasPrerelease {newApp oldApp : SemverAt} {h : Heap}
    (hd : (newApp.FindDrift oldApp h).2.2 = none) :
    (newApp.FindDrift oldApp h).2.1 = decide (newApp.Prerelease ≠ []) := by
  unfold SemverAt.FindDrift at hd ⊢
  rw [FindDrift_of_greater (Compare_of_FindDrift_ok hd)]
  rfl

theorem updateDefault_strip (grow : Nat → Nat) {oldApp newApp chart : SemverAt} {h : Heap}
    (hd : (newApp.FindDrift oldApp h).2.2 = none) (hp : newApp.Prerelease = [])
    (hc : chart.Prerelease ≠ []) :
    updateDefault grow oldApp newApp chart h
      = some (.ok { chart.Copy with Prerelease := [] }, h) := by
  unfold updateDefault
  simp [hd, FindDrift_hasPrerelease hd, hp, hc]

theorem updateDefault_patch (grow : Nat → Nat) {oldApp newApp chart : SemverAt} {h : Heap}
    (hd : (newApp.FindDrift oldApp h).2.2 = none) (hp : newApp.Prerelease = [])
    (hc : chart.Prerelease = []) :
    updateDefault grow oldApp newApp chart h = returnIncrementNew grow chart LevelPatch h := by
  unfold updateDefault
  simp [hd, FindDrift_hasPrerelease hd, hp, hc]

theorem updateDefault_patch_pre (grow : Nat → Nat) {oldApp newApp chart r0 : SemverAt}
    {h h1 : Heap}
    (hd : (newApp.FindDrift oldApp h).2.2 = none) (hp : newApp.Prerelease ≠ [])
    (hc : chart.Prerelease = []) (hi : chart.IncrementNew grow LevelPatch h = some (r0, h1)) :
    updateDefault grow oldApp newApp chart h
      = some (.ok (r0.IncrementPrerelease grow h1).1, (r0.IncrementPrerelease grow h1).2) := by
  unfold updateDefault
  simp [hd, FindDrift_hasPrerelease hd, hp, hc, hi]

theorem updateDefault_pre (grow : Nat → Nat) {oldApp newApp chart : SemverAt} {h : Heap}
    (hd : (newApp.FindDrift oldApp h).2.2 = none) (hp : newApp.Prerelease ≠ [])
    (hc : chart.Prerelease ≠ []) :
    updateDefault grow oldApp newApp chart h
      = some (.ok (chart.Copy.IncrementPrerelease grow h).1,
              (chart.Copy.IncrementPrerelease grow h).2) := by
  unfold updateDefault
  simp [hd, FindDrift_hasPrerelease hd, hp, hc]

theorem UpdateRelease_default (grow : Nat → Nat) {ctx : UpdateCtx}
    {oldApp newApp chart : SemverAt} (h : Heap)
    (hold : ctx.OldAppVersion = some oldApp) (hnew : ctx.NewAppVersion = some newApp)
    (hchart : ctx.OldChartVersion = some chart) (hs : ctx.Strategy = UpdateDefault) :
    UpdateRelease grow ctx h = updateDefault grow oldApp newApp chart h := by
  obtain ⟨d0, d1, d2⟩ := UpdateDefault_ne
  rw [UpdateRelease_complete grow h hold hnew hchart]
  simp only [hs, d0, d1, d2, if_false, if_true]

/-- C14. Default strategy, stable application release: for every complete
`UpdateCtx` with `Strategy` default where `FindDrift(newApp, oldApp)` succeeds and
`NewAppVersion` has an empty prerelease, `UpdateRelease` returns, if
`OldChartVersion` has a non-empty prerelease, the chart version with the same
`Major`, `Minor`, `Patch` and an empty prerelease; otherwise
`OldChartVersion.IncrementNew(LevelPatch)`. The chart numbers are `uint64`. -/
theorem UpdateRelease_default_stable (grow : Nat → Nat) (ctx : UpdateCtx) (h : Heap)
    (oldApp newApp chart : SemverAt)
    (hold : ctx.OldAppVersion = some oldApp) (hnew : ctx.NewAppVersion = some newApp)
    (hchart : ctx.OldChartVersion = some chart) (hs : ctx.Strategy = UpdateDefault)
    (hd : (newApp.FindDrift oldApp h).2.2 = none) (hp : newApp.Prerelease = [])
    (b0 : chart.Major < uint64Size) (b1 : chart.Minor < uint64Size) :
    (chart.Prerelease ≠ [] → ∃ r,
        UpdateRelease grow ctx h = some (.ok r, h)
        ∧ r.Major = chart.Major ∧ r.Minor = chart.Minor ∧ r.Patch = chart.Patch
        ∧ r.Prerelease = [] ∧ r.Build = chart.Build)
      ∧ (chart.Prerelease = [] → ∃ r,
        UpdateRelease grow ctx h = some (.ok r, h)
        ∧ chart.IncrementNew grow LevelPatch h = some (r, h)
        ∧ r.Major = chart.Major ∧ r.Minor = chart.Minor
        ∧ r.Patch = (chart.Patch + 1) % uint64Size
        ∧ r.Prerelease = [] ∧ r.Build = []) := by
  have hU := UpdateRelease_default grow h hold hnew hchart hs
  refine ⟨fun hc => ?_, fun hc => ?_⟩
  · refine ⟨{ chart.Copy with Prerelease := [] }, ?_, rfl, rfl, rfl, rfl, rfl⟩
    exact hU.trans (updateDefault_strip grow hd hp hc)
  · refine ⟨_, ?_, SemverAt.IncrementNew_patch grow chart h b0 b1, rfl, rfl, rfl, rfl, rfl⟩
    rw [hU, updateDefault_patch grow hd hp hc]
    simp [returnIncrementNew, SemverAt.IncrementNew_patch grow chart h b0 b1]

/-- C14, at the context of scenario 5: chart `0.0.1-alpha.4` with the application
going from `0.0.0` to `0.0.3` under the default strategy gives `0.0.1`. -/
theorem UpdateRelease_default_stable_witness :
    ∃ r, UpdateRelease growDouble
          (loadedCtx "0.0.0".toList "0.0.3".toList "0.0.1-alpha.4".toList UpdateDefault).1
          (loadedCtx "0.0.0".toList "0.0.3".toList "0.0.1-alpha.4".toList UpdateDefault).2
        = some (.ok r,
            (loadedCtx "0.0.0".toList "0.0.3".toList "0.0.1-alpha.4".toList UpdateDefault).2)
      ∧ r.Major = 0 ∧ r.Minor = 0 ∧ r.Patch = 1 ∧ r.Prerelease = [] ∧ r.Build = [] :=
  (UpdateRelease_default_stable growDouble
    (loadedCtx "0.0.0".toList "0.0.3".toList "0.0.1-alpha.4".toList UpdateDefault).1
    (loadedCtx "0.0.0".toList "0.0.3".toList "0.0.1-alpha.4".toList UpdateDefault).2
    _ _ _ rfl rfl rfl rfl (by decide) (by decide) (by decide) (by decide)).1 (by decide)

theorem IncrementPrerelease_pre (grow : Nat → Nat) (s : SemverAt) (h : Heap)
    (hp : s.Prerelease = []) :
    (s.IncrementPrerelease grow h).1.Prerelease = "pre.1".toList := by
  unfold SemverAt.IncrementPrerelease SemverAt.bumpPrerelease
  simp only [hp, if_true, Heap.alloc_read]
  decide

/-- The new `Prerelease` of a version produced by `Load` that has one: `.1` is
appended when no identifier is numeric, and otherwise the rightmost numeric
identifier is increased by one, modulo `2 ^ 64`. -/
theorem IncrementPrerelease_loaded (s : Str) (sv : Semver) (h : Load s = .ok sv) :
    (sv.Prerelease ≠ [] → (∀ x ∈ identifiers sv.Prerelease, isNumericIdent x = false) →
        sv.IncrementPrerelease.Prerelease = sv.Prerelease ++ ".1".toList)
      ∧ (∀ (l1 : List Str) (x : Str) (l2 : List Str),
          identifiers sv.Prerelease = l1 ++ x :: l2 → isNumericIdent x = true →
          (∀ y ∈ l2, isNumericIdent y = false) →
          sv.IncrementPrerelease.Prerelease
            = Join (l1 ++ FormatUint (if digitsVal x 0 + 1 < uint64Size
                then digitsVal x 0 + 1 else 0) :: l2) '.') := by
  obtain ⟨hpre, hok⟩ := Load_prerelease h
  obtain ⟨-, -, -, hfield, -, -, -⟩ := Load_fields h
  refine ⟨?_, ?_⟩
  · intro hne hnone
    have hall : ∀ p ∈ sv.prerelease.reverse, p.IsNum = false := by
      intro p hp
      rw [hfield, hpre] at hp
      simp only [List.mem_reverse, List.mem_map] at hp
      obtain ⟨x, hx, rfl⟩ := hp
      rw [prOf_IsNum (hok x hx)]
      exact hnone x hx
    have hids : identifiers sv.Prerelease ≠ [] := fun e => hne (identifiers_eq_nil.1 e)
    have hjoin : Join (identifiers sv.Prerelease) '.' = sv.Prerelease := by
      simp [identifiers, hne, Join_Split]
    simp only [Semver.IncrementPrerelease, nextPrerelease, hne, if_false,
      bumpNumeric_none _ hall, Bool.false_eq_true]
    rw [hfield, hpre, List.map_append, map_String_prOf _ hok]
    have e1 : List.map PRVersion.String
        [({ VersionStr := [], VersionNum := 1, IsNum := true } : PRVersion)] = ["1".toList] := by
      decide
    rw [e1, Join_append_singleton _ _ _ hids, hjoin]
    rfl
  · intro l1 x l2 hsplit hx hl2
    have hne : sv.Prerelease ≠ [] := by
      intro e
      have := identifiers_eq_nil.2 e
      rw [hsplit] at this
      simp at this
    rw [hsplit] at hpre hok
    have hokx := hok x (by simp)
    have hrev : sv.prerelease.reverse
        = (l2.map prOf).reverse ++ prOf x :: (l1.map prOf).reverse := by
      rw [hfield, hpre]
      simp
    have hall : ∀ p ∈ (l2.map prOf).reverse, p.IsNum = false := by
      intro p hp
      simp only [List.mem_reverse, List.mem_map] at hp
      obtain ⟨y, hy, rfl⟩ := hp
      rw [prOf_IsNum (hok y (by simp [hy]))]
      exact hl2 y hy
    have hxnum : (prOf x).IsNum = true := by rw [prOf_IsNum hokx]; exact hx
    obtain ⟨-, cx⟩ := NewPRVersion_ok_cases hokx
    have hxval : (prOf x).VersionNum = digitsVal x 0 ∧ digitsVal x 0 < uint64Size := by
      rcases cx with ⟨-, ex, hlt, -⟩ | ⟨-, ex⟩
      · rw [ex]
        exact ⟨rfl, hlt⟩
      · rw [ex] at hxnum
        cases hxnum
    simp only [Semver.IncrementPrerelease, nextPrerelease, hne, if_false, hrev,
      bumpNumeric_found _ _ _ hall hxnum, if_true]
    congr 1
    simp only [List.reverse_append, List.reverse_cons, List.reverse_reverse, List.append_assoc,
      List.singleton_append, List.map_append, List.map_cons]
    rw [map_String_prOf l1 (fun y hy => hok y (by simp [hy])),
      map_String_prOf l2 (fun y hy => hok y (by simp [hy]))]
    simp only [PRVersion.String, hxnum, if_true, hxval.1, succ_mod_uint64 hxval.2]

/-- C15, as stated, fails at a chart written as a struct literal,
`Semver{Major: 1, Minor: 2, Patch: 3, Prerelease: "alpha.1"}`, with the
application going from `0.1.0` to `0.2.0-pre.1` under the default strategy: the
chart prints `1.2.3-alpha.1`, it holds no parsed identifier, and `UpdateRelease`
returns `1.2.3-1`, not `1.2.3-alpha.2`. -/
theorem UpdateRelease_default_prerelease_literal :
    updateWithChart "0.1.0".toList "0.2.0-pre.1".toList literalChart UpdateDefault =
      some ("1.2.3-alpha.1".toList, "1.2.3-1".toList) := by
  decide

/-- C15, amended. Default strategy, prerelease application release: for every
complete `UpdateCtx` with `Strategy` default where `FindDrift(newApp, oldApp)`
succeeds and `NewAppVersion` has a non-empty prerelease, `UpdateRelease` returns,
if `OldChartVersion` has an empty `Prerelease`, `OldChartVersion` incremented at
`Patch` and then at `Prerelease`, which gives the prerelease `pre.1`; otherwise a
version with the `Major`, `Minor`, `Patch` and `Build` of `OldChartVersion`, and,
when `OldChartVersion` is as `Load` produced it, with the `Prerelease` of
`OldChartVersion` incremented: `.1` is appended when no identifier of it is
numeric, and otherwise its rightmost numeric identifier is increased by one,
becoming `0` at the largest `uint64`, every other identifier unchanged. The chart
numbers are `uint64`. -/
theorem UpdateRelease_default_prerelease (grow : Nat → Nat) (ctx : UpdateCtx) (h : Heap)
    (oldApp newApp chart : SemverAt)
    (hold : ctx.OldAppVersion = some oldApp) (hnew : ctx.NewAppVersion = some newApp)
    (hchart : ctx.OldChartVersion = some chart) (hs : ctx.Strategy = UpdateDefault)
    (hd : (newApp.FindDrift oldApp h).2.2 = none) (hp : newApp.Prerelease ≠ [])
    (b0 : chart.Major < uint64Size) (b1 : chart.Minor < uint64Size) :
    (chart.Prerelease = [] → ∃ r h1 r0,
        UpdateRelease grow ctx h = some (.ok r, h1)
        ∧ chart.IncrementNew grow LevelPatch h = some (r0, h)
        ∧ r0.IncrementPrerelease grow h = (r, h1)
        ∧ r.Major = chart.Major ∧ r.Minor = chart.Minor
        ∧ r.Patch = (chart.Patch + 1) % uint64Size
        ∧ r.Prerelease = "pre.1".toList ∧ r.Build = [])
      ∧ (chart.Prerelease ≠ [] → ∃ r h1,
        UpdateRelease grow ctx h = some (.ok r, h1)
        ∧ chart.Copy.IncrementPrerelease grow h = (r, h1)
        ∧ r.Major = chart.Major ∧ r.Minor = chart.Minor ∧ r.Patch = chart.Patch
        ∧ r.Build = chart.Build
        ∧ (∀ s : Str, Load s = .ok (chart.read h) → h.Valid chart.prerelease →
            ((∀ x ∈ identifiers chart.Prerelease, isNumericIdent x = false) →
              r.Prerelease = chart.Prerelease ++ ".1".toList)
            ∧ (∀ (l1 : List Str) (x : Str) (l2 : List Str),
                identifiers chart.Prerelease = l1 ++ x :: l2 → isNumericIdent x = true →
                (∀ y ∈ l2, isNumericIdent y = false) →
                r.Prerelease
                  = Join (l1 ++ FormatUint (if digitsVal x 0 + 1 < uint64Size
                      then digitsVal x 0 + 1 else 0) :: l2) '.'))) := by
  have hU := UpdateRelease_default grow h hold hnew hchart hs
  refine ⟨fun hc => ?_, fun hc => ?_⟩
  · have hi := SemverAt.IncrementNew_patch grow chart h b0 b1
    refine ⟨_, _, _, ?_, hi, rfl, rfl, rfl, rfl, IncrementPrerelease_pre grow _ h rfl, rfl⟩
    exact hU.trans (updateDefault_patch_pre grow hd hp hc hi)
  · refine ⟨_, _, ?_, rfl, rfl, rfl, rfl, rfl, ?_⟩
    · exact hU.trans (updateDefault_pre grow hd hp hc)
    · intro s hl hv
      have hr : (chart.Copy.IncrementPrerelease grow h).1.Prerelease
          = (chart.read h).IncrementPrerelease.Prerelease :=
        (@IncrementPrerelease_read grow chart.Copy h hv).1
      obtain ⟨k1, k2⟩ := IncrementPrerelease_loaded s (chart.read h) hl
      refine ⟨fun hnone => ?_, fun l1 x l2 hsplit hx hl2 => ?_⟩
      · exact hr.trans (k1 hc hnone)
      · exact hr.trans (k2 l1 x l2 hsplit hx hl2)

/-- C15, amended, at the context of `TestUpdateRelease_Default`: chart
`1.2.3-alpha.1`, as `Load` produced it, with the application going from `0.1.0`
to `0.2.0-pre.1` gives `1.2.3-alpha.2`. -/
theorem UpdateRelease_default_prerelease_witness :
    ∃ r h1, UpdateRelease growDouble
          (loadedCtx "0.1.0".toList "0.2.0-pre.1".toList "1.2.3-alpha.1".toList UpdateDefault).1
          (loadedCtx "0.1.0".toList "0.2.0-pre.1".toList "1.2.3-alpha.1".toList UpdateDefault).2
        = some (.ok r, h1)
      ∧ r.Major = 1 ∧ r.Minor = 2 ∧ r.Patch = 3 ∧ r.Prerelease = "alpha.2".toList := by
  obtain ⟨r, h1, e, -, e0, e1, e2, -, e3⟩ := (UpdateRelease_default_prerelease growDouble
    (loadedCtx "0.1.0".toList "0.2.0-pre.1".toList "1.2.3-alpha.1".toList UpdateDefault).1
    (loadedCtx "0.1.0".toList "0.2.0-pre.1".toList "1.2.3-alpha.1".toList UpdateDefault).2
    _ _ _ rfl rfl rfl rfl (by decide) (by decide) (by decide) (by decide)).2 (by decide)
  exact ⟨r, h1, e, e0, e1, e2,
    ((e3 "1.2.3-alpha.1".toList (by decide) (by decide)).2
      ["alpha".toList] "1".toList [] (by decide) (by decide) (by decide)).trans (by decide)⟩

/-! ## Two calls on the same versions -/

/-- C16. `UpdateRelease` called twice on the same context, chart `1.2.3-alpha.1`
with the application going from `0.1.0` to `0.2.0-pre.1` under the default
strategy: the first call returns `1.2.3-alpha.2` and the second `1.2.3-alpha.3`,
and the identifiers held by `OldChartVersion.prerelease` are `alpha`, `1` before
the first call and `alpha`, `2` after it. -/
theorem UpdateRelease_twice :
    updateReleaseTwice "0.1.0".toList "0.2.0-pre.1".toList "1.2.3-alpha.1".toList UpdateDefault
      = some ("1.2.3-alpha.2".toList, "1.2.3-alpha.3".toList,
          [{ VersionStr := "alpha".toList, VersionNum := 0, IsNum := false },
           { VersionStr := [], VersionNum := 1, IsNum := true }],
          [{ VersionStr := "alpha".toList, VersionNum := 0, IsNum := false },
           { VersionStr := [], VersionNum := 2, IsNum := true }]) := by
  decide

/-- C17. `IncrementNew(LevelPrerelease)` called twice on the version loaded from
`1.2.3-alpha.1`: the first call returns `1.2.3-alpha.2` and the second
`1.2.3-alpha.3`, and the identifiers held by the receiver's `prerelease` are
`alpha`, `1` before the first call and `alpha`, `2` after it. -/
theorem IncrementNew_twice :
    incrementNewTwice "1.2.3-alpha.1".toList LevelPrerelease
      = some ("1.2.3-alpha.2".toList, "1.2.3-alpha.3".toList,
          [{ VersionStr := "alpha".toList, VersionNum := 0, IsNum := false },
           { VersionStr := [], VersionNum := 1, IsNum := true }],
          [{ VersionStr := "alpha".toList, VersionNum := 0, IsNum := false },
           { VersionStr := [], VersionNum := 2, IsNum := true }]) := by
  decide

/-! ## Strategy names -/

/-- C19. Strategy names are parsed case-insensitively: `UpdateStrategyFromString(s)`
succeeds iff the lower-cased `s` is one of `major`, `minor`, `patch`, `default`
and then returns that lower-case strategy; `PublishStrategyFromString(s)`
succeeds iff the lower-cased `s` is `commit` or `pull request` and then returns
it; for every other `s` both return the empty strategy and an error whose
message names the input `s` (`not a valid strategy: s` and
`unsupported publish strategy: s`). -/
theorem StrategyFromString_spec (lower : Char → Char) (s : Str) :
    ((UpdateStrategyFromString lower s).2 = none ↔
        ToLower lower s ∈ [UpdateMajor, UpdateMinor, UpdatePatch, UpdateDefault])
      ∧ (ToLower lower s ∈ [UpdateMajor, UpdateMinor, UpdatePatch, UpdateDefault] →
          UpdateStrategyFromString lower s = (ToLower lower s, none))
      ∧ (ToLower lower s ∉ [UpdateMajor, UpdateMinor, UpdatePatch, UpdateDefault] →
          UpdateStrategyFromString lower s
            = ([], some ("not a valid strategy: ".toList ++ s)))
      ∧ ((PublishStrategyFromString lower s).2 = none ↔
          ToLower lower s ∈ [PublishCommit, PublishPullRequest])
      ∧ (ToLower lower s ∈ [PublishCommit, PublishPullRequest] →
          PublishStrategyFromString lower s = (ToLower lower s, none))
      ∧ (ToLower lower s ∉ [PublishCommit, PublishPullRequest] →
          PublishStrategyFromString lower s
            = ([], some ("unsupported publish strategy: ".toList ++ s))) := by
  have u1 : UpdateMajor = "major".toList := rfl
  have u2 : UpdateMinor = "minor".toList := rfl
  have u3 : UpdatePatch = "patch".toList := rfl
  have u4 : UpdateDefault = "default".toList := rfl
  have p1 : PublishCommit = "commit".toList := rfl
  have p2 : PublishPullRequest = "pull request".toList := rfl
  simp only [UpdateStrategyFromString, PublishStrategyFromString, ← u1, ← u2, ← u3, ← u4,
    ← p1, ← p2, List.mem_cons, List.mem_singleton, List.not_mem_nil, or_false, not_or]
  refine ⟨?_, ?_, ?_, ?_, ?_, ?_⟩
  · split_ifs <;> simp_all
  · rintro (h | h | h | h)
    · simp [h]
    · simp [h, UpdateMinor_ne_major]
    · simp [h, UpdatePatch_ne_major, UpdatePatch_ne_minor]
    · simp [h, UpdateDefault_ne]
  · rintro ⟨h1, h2, h3, h4⟩
    simp [h1, h2, h3, h4]
  · split_ifs <;> simp_all
  · rintro (h | h)
    · simp [h]
    · have : PublishPullRequest ≠ PublishCommit := by decide
      simp [h, this]
  · rintro ⟨h1, h2⟩
    simp [h1, h2]

/-- C19, with the ASCII case table, at inputs of `TestUpdateStrategyFromString`
and `TestPublishStrategyFromString`: `MAJOR` is `major`, `Pull Request` is
`pull request`, and `not-a-strategy` is rejected with the message
`not a valid strategy: not-a-strategy`. -/
theorem StrategyFromString_spec_witness :
    UpdateStrategyFromString Char.toLower "MAJOR".toList = ("major".toList, none)
      ∧ PublishStrategyFromString Char.toLower "Pull Request".toList
          = ("pull request".toList, none)
      ∧ UpdateStrategyFromString Char.toLower "not-a-strategy".toList
          = ([], some "not a valid strategy: not-a-strategy".toList) :=
  ⟨(StrategyFromString_spec Char.toLower "MAJOR".toList).2.1 (by decide),
   (StrategyFromString_spec Char.toLower "Pull Request".toList).2.2.2.2.1 (by decide),
   (StrategyFromString_spec Char.toLower "not-a-strategy".toList).2.2.1 (by decide)⟩

/-! ## The error collector -/

/-- C20. `Collector.Add` flattens: adding a collector `A` to a collector `B`
leaves `B` holding its errors followed by those of `A`, in that order, so that
`Count` grows by exactly the count of `A`; adding an error that is not a
collector appends that single error at the end, so that `Count` grows by
exactly 1. -/
theorem Collector_Add_flattens (B A : Collector) (message : Str) :
    (B.Add A.asError).errors = B.errors ++ A.errors
      ∧ (B.Add A.asError).Count = B.Count + A.Count
      ∧ (B.Add (.plain message)).errors = B.errors ++ [.plain message]
      ∧ (B.Add (.plain message)).Count = B.Count + 1 := by
  simp [Collector.Add, Collector.asError, Collector.Count]

/-! ## The rendering of a collector -/

theorem JoinStr_cons (sep m : Str) (ms : List Str) :
    JoinStr (m :: ms) sep = m ++ (ms.map (fun x => sep ++ x)).flatten := by
  induction ms generalizing m with
  | nil => simp [JoinStr]
  | cons q ps ih => simp [JoinStr, ih q, List.append_assoc]

theorem ErrorAll_plain (messages : List Str) :
    GoError.ErrorAll (messages.map GoError.plain) = messages := by
  induction messages with
  | nil => simp [GoError.ErrorAll]
  | cons m ms ih => simp [GoError.ErrorAll, GoError.Error, ih]

theorem Add_plain_all (messages : List Str) (c : Collector) :
    (messages.foldl (fun c m => c.Add (.plain m)) c).errors =
      c.errors ++ messages.map GoError.plain := by
  induction messages generalizing c with
  | nil => simp
  | cons m ms ih =>
    rw [List.foldl_cons, ih]
    simp [Collector.Add, List.append_assoc]

theorem Error_plain (messages : List Str) :
    Collector.Error { errors := messages.map GoError.plain } = renderSpec messages := by
  cases messages with
  | nil => rfl
  | cons m ms =>
    have h : "\nErrors:\n • ".toList = "\nErrors:".toList ++ "\n • ".toList := by decide
    have e : GoError.ErrorAll (GoError.plain m :: List.map GoError.plain ms) = m :: ms :=
      ErrorAll_plain (m :: ms)
    simp only [Collector.Error, Collector.HasErrors, List.length_map, List.length_cons,
      Nat.succ_pos, gt_iff_lt, decide_True, if_true, renderErrors, List.map_cons, e,
      JoinStr_cons, renderSpec, h, List.flatten_cons, List.append_assoc,
      Nat.zero_lt_succ]

/-- C21. `Collector.Error` renders the empty string for an empty collector, and
for a collector that was given the messages `m1 .. mn` in this order it renders
the header, every message on a line of its own after the bullet, and an empty
line: the empty collector gives `""`, the collector of the messages gives
`renderSpec`, and one message `m` followed by `ms` gives
`"\nErrors:\n • m"`, then `"\n • x"` for every `x` of `ms`, then `"\n\n"`. -/
theorem Collector_Error_spec (messages : List Str) (m : Str) :
    NewCollector.Error = [] ∧
    (messages.foldl (fun c x => c.Add (.plain x)) NewCollector).Error = renderSpec messages ∧
    ((m :: messages).foldl (fun c x => c.Add (.plain x)) NewCollector).Error =
      "\nErrors:\n • ".toList ++ m ++
        (messages.map (fun x => "\n • ".toList ++ x)).flatten ++ "\n\n".toList := by
  have key : ∀ ms : List Str,
      (ms.foldl (fun c x => c.Add (.plain x)) NewCollector) =
        { errors := ms.map GoError.plain } := by
    intro ms
    have h := Add_plain_all ms NewCollector
    cases hc : ms.foldl (fun c x => c.Add (.plain x)) NewCollector with
    | mk errors =>
      rw [hc] at h
      simp only [NewCollector, List.nil_append] at h
      simp [h]
  refine ⟨rfl, ?_, ?_⟩
  · rw [key, Error_plain]
  · rw [key, Error_plain]
    have h : "\nErrors:\n • ".toList = "\nErrors:".toList ++ "\n • ".toList := by decide
    simp only [renderSpec, h, List.map_cons, List.flatten_cons, List.append_assoc]

/-! ## The dry-run gate -/

/-- C22. `CheckDryRun` is the dry-run gate. When `DryRun` is false it returns the
error it was given and leaves the context, so also its collector, as it is. When
`DryRun` is true it returns nil and the collector holds its previous errors
followed by the error, added as `Collector.Add` adds it: the error itself when it
is an ordinary error, the errors it holds when it is a collector; nothing else
of the context changes. In both cases the flag `DryRun` is unchanged. -/
theorem CheckDryRun_spec (ctx : Context) (err : GoError) :
    (ctx.DryRun = false → ctx.CheckDryRun err = (some err, ctx)) ∧
    (ctx.DryRun = true →
      ctx.CheckDryRun err = (none, { ctx with errors := ctx.errors.Add err }) ∧
      (ctx.CheckDryRun err).2.errors.errors = ctx.errors.errors ++ errorsOf (some err) ∧
      (∀ message, err = .plain message →
        (ctx.CheckDryRun err).2.errors.errors = ctx.errors.errors ++ [err])) ∧
    (ctx.CheckDryRun err).2.DryRun = ctx.DryRun := by
  refine ⟨?_, ?_, ?_⟩
  · intro h
    simp [Context.CheckDryRun, h]
  · intro h
    refine ⟨by simp [Context.CheckDryRun, h], ?_, ?_⟩
    · cases err <;> simp [Context.CheckDryRun, h, Collector.Add, errorsOf]
    · intro message hm
      subst hm
      simp [Context.CheckDryRun, h, Collector.Add]
  · cases h : ctx.DryRun <;> simp [Context.CheckDryRun, h]

/-- C22, at the contexts of `TestContext_CheckDryRun` and
`TestContext_CheckDryRun_NotDryRun` with the error `test error`: under `DryRun`
nil is returned and the collector holds the error; otherwise the error is
returned and the context is as it was. -/
theorem CheckDryRun_spec_witness :
    ((sampleContext true).CheckDryRun (.plain "test error".toList)).1 = none ∧
    ((sampleContext true).CheckDryRun (.plain "test error".toList)).2.errors.errors =
      [.plain "test error".toList] ∧
    (sampleContext false).CheckDryRun (.plain "test error".toList) =
      (some (.plain "test error".toList), sampleContext false) :=
  ⟨congrArg Prod.fst
      ((CheckDryRun_spec (sampleContext true) (.plain "test error".toList)).2.1 rfl).1,
    ((CheckDryRun_spec (sampleContext true) (.plain "test error".toList)).2.1 rfl).2.2
      "test error".toList rfl,
    (CheckDryRun_spec (sampleContext false) (.plain "test error".toList)).1 rfl⟩

/-! ## The pipeline -/

theorem runStages_fail (stage : V1Stage) (post : List V1Stage) (c c1 : Context)
    (err : GoError) (hrun : stage.Run c = (some err, c1)) :
    ∀ (pre : List V1Stage) (i : Nat) (ctx : Context), afterStages pre ctx = some c →
      runStages (pre ++ stage :: post) i ctx = (some err, c1, List.range' i (pre.length + 1)) := by
  intro pre
  induction pre with
  | nil =>
    intro i ctx h
    simp only [afterStages, Option.some.injEq] at h
    subst h
    simp [runStages, hrun, List.range']
  | cons s rest ih =>
    intro i ctx h
    rcases hs : s.Run ctx with ⟨e, c2⟩
    cases e with
    | some e1 => simp [afterStages, hs] at h
    | none =>
      simp only [afterStages, hs] at h
      have h2 := ih (i + 1) c2 h
      simp [runStages, hs, h2, List.range']

theorem runStages_pass :
    ∀ (p : List V1Stage) (i : Nat) (ctx c : Context), afterStages p ctx = some c →
      runStages p i ctx = (none, c, List.range' i p.length) := by
  intro p
  induction p with
  | nil =>
    intro i ctx c h
    simp only [afterStages, Option.some.injEq] at h
    subst h
    simp [runStages, List.range']
  | cons s rest ih =>
    intro i ctx c h
    rcases hs : s.Run ctx with ⟨e, c2⟩
    cases e with
    | some e1 => simp [afterStages, hs] at h
    | none =>
      simp only [afterStages, hs] at h
      have h2 := ih (i + 1) c2 c h
      simp [runStages, hs, h2, List.range']

theorem runStages_ran :
    ∀ (p : List V1Stage) (i : Nat) (ctx : Context) (k : Nat), k ∈ (runStages p i ctx).2.2 →
      i ≤ k ∧ k < i + p.length ∧ (afterStages (p.take (k - i)) ctx).isSome = true := by
  intro p
  induction p with
  | nil =>
    intro i ctx k h
    simp [runStages] at h
  | cons s rest ih =>
    intro i ctx k h
    rcases hs : s.Run ctx with ⟨e, c2⟩
    cases e with
    | some e1 =>
      simp only [runStages, hs, List.mem_singleton] at h
      subst h
      simp [afterStages]
    | none =>
      simp only [runStages, hs, List.mem_cons] at h
      rcases h with h | h
      · subst h
        simp [afterStages]
      · obtain ⟨h1, h2, h3⟩ := ih (i + 1) c2 k h
        have e : k - i = (k - (i + 1)) + 1 := by omega
        refine ⟨by omega, by simp only [List.length_cons]; omega, ?_⟩
        rw [e]
        simpa [afterStages, hs] using h3

/-- C23. `Pipeline.Run` runs its stages in the order of the list and stops at the
first failure. When the stages before position `i` all return nil and the stage
at position `i` returns the error `err`, `Run` returns exactly `err`, leaves the
context that stage left, and has run the stages `0 .. i` and no other, whatever
the flag `DryRun`. When every stage returns nil, the loop runs every stage once,
in order. In every run, a stage that is run has a position in the list, and all
the stages before it returned nil. -/
theorem Pipeline_Run_stops (dump : Context → List Str) (color : Str → Str → Str)
    (p : Pipeline) (ctx : Context) :
    (∀ (pre : List V1Stage) (stage : V1Stage) (post : List V1Stage) (c c1 : Context)
        (err : GoError),
      p = pre ++ stage :: post → afterStages pre ctx = some c →
      stage.Run c = (some err, c1) →
      Pipeline.Run dump color p ctx = some (some err, c1, List.range (pre.length + 1))) ∧
    (∀ c : Context, afterStages p ctx = some c →
      runStages p 0 ctx = (none, c, List.range p.length)) ∧
    (∀ k ∈ (runStages p 0 ctx).2.2,
      k < p.length ∧ (afterStages (p.take k) ctx).isSome = true) := by
  refine ⟨?_, ?_, ?_⟩
  · intro pre stage post c c1 err hp hpre hrun
    subst hp
    have h := runStages_fail stage post c c1 err hrun pre 0 ctx hpre
    simp only [Pipeline.Run, h, List.range_eq_range']
  · intro c h
    rw [runStages_pass p 0 ctx c h, List.range_eq_range']
  · intro k hk
    obtain ⟨_, h2, h3⟩ := runStages_ran p 0 ctx k hk
    exact ⟨by omega, by simpa using h3⟩

/-- C23, at a pipeline of three stages whose second stage fails, run with
`DryRun` set: the error of the second stage is returned and the stages 0 and 1
were run, the third was not. -/
theorem Pipeline_Run_stops_witness :
    Pipeline.Run sampleDump sampleColor
        [passStage, failStage "no chart".toList, checkStage "unused".toList]
        (sampleContext true) =
      some (some (.plain "no chart".toList), sampleContext true, [0, 1]) :=
  (Pipeline_Run_stops sampleDump sampleColor
      [passStage, failStage "no chart".toList, checkStage "unused".toList]
      (sampleContext true)).1
    [passStage] (failStage "no chart".toList) [checkStage "unused".toList]
    (sampleContext true) (sampleContext true) (.plain "no chart".toList) rfl rfl rfl

/-- C24, amended. A dry run that recorded errors still returns nil.
For every pipeline whose stages all return nil and leave a context with `DryRun`
set, a writer and a token of at least four bytes, `Pipeline.Run` returns nil and
has run every stage, whether or not the collector is empty. A collector that
holds errors is only printed: after the dump, the writer receives the line
`dry-run completed with errors` and then `Collector.Error()`, and the errors stay
in the context, where `Context.Errors()` returns them. -/
theorem Pipeline_Run_dry_nil (dump : Context → List Str) (color : Str → Str → Str)
    (p : Pipeline) (ctx c : Context) (out : List Str)
    (hp : afterStages p ctx = some c) (hdry : c.DryRun = true) (hout : c.Out = some out)
    (htoken : 4 ≤ byteLen c.Token) :
    ∃ c1 : Context,
      Pipeline.Run dump color p ctx = some (none, c1, List.range p.length) ∧
      c1.errors = c.errors ∧ c1.Errors = c.Errors ∧
      (c.errors.HasErrors = true →
        c1.Errors = some c.errors.asError ∧
        c1.Out = some (out ++ dump c ++
          [color "\ndry-run completed with errors".toList "red".toList, c.errors.Error])) ∧
      (c.errors.HasErrors = false →
        c1.Errors = none ∧
        c1.Out = some (out ++ dump c ++
          [color "dry-run completed without errors\n".toList "green".toList])) := by
  have h := runStages_pass p 0 ctx c hp
  have ht : ¬ byteLen c.Token < 4 := by omega
  cases he : c.errors.HasErrors with
  | true =>
    refine ⟨{ c with Out := some (out ++ dump c ++
      [color "\ndry-run completed with errors".toList "red".toList, c.errors.Error]) },
      ?_, rfl, rfl, ?_, ?_⟩
    · simp [Pipeline.Run, h, hdry, Context.Dump, hout, ht, Context.PrintErrors, he,
        List.range_eq_range']
    · intro _
      exact ⟨by simp [Context.Errors, he], rfl⟩
    · intro hf
      cases hf
  | false =>
    refine ⟨{ c with Out := some (out ++ dump c ++
      [color "dry-run completed without errors\n".toList "green".toList]) },
      ?_, rfl, rfl, ?_, ?_⟩
    · simp [Pipeline.Run, h, hdry, Context.Dump, hout, ht, Context.PrintErrors, he,
        List.range_eq_range']
    · intro hf
      cases hf
    · intro _
      exact ⟨by simp [Context.Errors, he], rfl⟩

/-- C24, amended, at the pipeline of one stage that records the error `no chart`:
the run returns nil, has run the stage, and the error is in the context. -/
theorem Pipeline_Run_dry_nil_witness :
    ∃ c1 : Context,
      Pipeline.Run sampleDump sampleColor [checkStage "no chart".toList] (sampleContext true) =
        some (none, c1, List.range 1) ∧
      c1.errors = { errors := [.plain "no chart".toList] } ∧
      c1.Errors = (Context.Errors
        { sampleContext true with errors := { errors := [.plain "no chart".toList] } }) :=
  (Pipeline_Run_dry_nil sampleDump sampleColor [checkStage "no chart".toList]
      (sampleContext true)
      { sampleContext true with errors := { errors := [.plain "no chart".toList] } } []
      rfl rfl rfl (by decide)).imp
    (fun _ h => ⟨h.1, h.2.1, h.2.2.1⟩)

/-- C24, as stated, fails at the pipeline of one stage that records the error
`no chart` through `CheckDryRun`, run on a context with `DryRun` set: the
collector holds the error when the stage finishes, and `Pipeline.Run` returns
nil; the error is printed and stays in the context. -/
theorem Pipeline_Run_dry_errors_nil :
    afterStages [checkStage "no chart".toList] (sampleContext true) =
      some { sampleContext true with errors := { errors := [.plain "no chart".toList] } } ∧
    Pipeline.Run sampleDump sampleColor [checkStage "no chart".toList] (sampleContext true) =
      some (none,
        { sampleContext true with
          errors := { errors := [.plain "no chart".toList] },
          Out := some ["=== Context ===".toList, "\ndry-run completed with errors".toList,
                       "\nErrors:\n • no chart\n\n".toList] },
        [0]) :=
  ⟨rfl, rfl⟩

/-! ## The publish stage -/

theorem CheckDryRun_dry (ctx : Context) (err : GoError) (h : ctx.DryRun = true) :
    ∃ c1, ctx.CheckDryRun err = (none, c1) ∧ c1.DryRun = true ∧ c1.Client = ctx.Client :=
  ⟨{ ctx with errors := ctx.errors.Add err }, by simp [Context.CheckDryRun, h], h, rfl⟩

theorem executeTemplate_dry (t : Templates) (ctx : Context) (text : Str)
    (h : ctx.DryRun = true) :
    ∃ s c1, executeTemplate t ctx text = ((s, none), c1) ∧ c1.DryRun = true ∧
      c1.Client = ctx.Client := by
  rcases he : t.execute text ctx with ⟨buf, e⟩
  cases e with
  | none => exact ⟨buf, ctx, by simp [executeTemplate, he], h, rfl⟩
  | some err =>
    obtain ⟨c1, hc, hd, hcl⟩ := CheckDryRun_dry ctx err h
    exact ⟨buf ++ "dry-run".toList, c1, by simp [executeTemplate, he, hc], hd, hcl⟩

theorem RenderTemplate_dry (t : Templates) (ctx : Context) (name tmpl : Str)
    (h : ctx.DryRun = true) :
    ∃ s c1, RenderTemplate t ctx name tmpl = ((s, none), c1) ∧ c1.DryRun = true ∧
      c1.Client = ctx.Client := by
  cases hp : t.parse name tmpl with
  | none =>
    obtain ⟨s, c1, hc, hd, hcl⟩ := executeTemplate_dry t ctx tmpl h
    exact ⟨s, c1, by simp [RenderTemplate, hp, hc], hd, hcl⟩
  | some err =>
    obtain ⟨c0, hc0, hd0, hcl0⟩ := CheckDryRun_dry ctx err h
    obtain ⟨s, c1, hc, hd, hcl⟩ := executeTemplate_dry t c0 "dry-run".toList hd0
    refine ⟨s, c1, ?_, hd, hcl.trans hcl0⟩
    simp only [RenderTemplate, hp, hc0]
    exact hc

theorem matchesReturn_dry (matchString : Str → Str → Bool) (tag : Str) (ms : List Str) :
    matchesReturn matchString true tag ms = false := by
  induction ms with
  | nil => rfl
  | cons m ms ih => simp [matchesReturn, ih]

theorem ignoresReturn_dry (matchString : Str → Str → Bool) (tag : Str) (ms : List Str) :
    ignoresReturn matchString true tag ms = false := by
  induction ms with
  | nil => rfl
  | cons m ms ih => simp [ignoresReturn, ih]

theorem afterRender_dry (t : Templates) (matchString : Str → Str → Bool)
    (defaultTitle defaultBody : Str) (ctx : Context) (h : ctx.DryRun = true) :
    publish.Stage.afterRender t matchString defaultTitle defaultBody ctx =
      some (none, ctx, []) := by
  simp [publish.Stage.afterRender, h, matchesReturn_dry, ignoresReturn_dry]

/-- C25. A dry run publishes nothing: for every context with `DryRun` set, whatever
the templates, the publish strategy, the tag, the match and ignore constraints and
the client, which may be nil, `Run` of the publish stage returns without a panic,
returns nil, and has made no call of `CreateRef`, `UpdateFile` or
`CreatePullRequest` on the client; the context it leaves still has `DryRun` set
and the same client. -/
theorem publish_dry_run (t : Templates) (matchString : Str → Str → Bool)
    (defaultTitle defaultBody : Str) (ctx : Context) (h : ctx.DryRun = true) :
    ∃ c1 : Context,
      publish.Stage.Run t matchString defaultTitle defaultBody ctx = some (none, c1, []) ∧
      c1.DryRun = true ∧ c1.Client = ctx.Client := by
  obtain ⟨s1, c1, h1, d1, l1⟩ := RenderTemplate_dry t ctx "git-ref".toList ctx.Git.Ref h
  obtain ⟨s2, c2, h2, d2, l2⟩ := RenderTemplate_dry t
    { c1 with Git := { c1.Git with Ref := s1 } } "git-base".toList c1.Git.Base d1
  obtain ⟨s3, c3, h3, d3, l3⟩ := RenderTemplate_dry t
    { c2 with Git := { c2.Git with Base := s2 } } "update-commit".toList
    c2.Release.UpdateCommitMsg d2
  obtain ⟨s4, c4, h4, d4, l4⟩ := RenderTemplate_dry t
    { c3 with Release := { c3.Release with UpdateCommitMsg := s3 } } "pr-title".toList
    c3.Release.PRTitle d3
  obtain ⟨s5, c5, h5, d5, l5⟩ := RenderTemplate_dry t
    { c4 with Release := { c4.Release with PRTitle := s4 } } "pr-body".toList
    c4.Release.PRBody d4
  refine ⟨{ c5 with Release := { c5.Release with PRBody := s5 } }, ?_, d5, ?_⟩
  · have ha := afterRender_dry t matchString defaultTitle defaultBody
      { c5 with Release := { c5.Release with PRBody := s5 } } d5
    simp only [publish.Stage.Run, h1, h2, h3, h4, h5, ha]
  · exact l5.trans (l4.trans (l3.trans (l2.trans l1)))

/-- C25, at a context with `DryRun` set, no client, a tag that matches no `Matches`
constraint and matches an `Ignores` constraint, the pull-request strategy, and
templates that do not parse. -/
theorem publish_dry_run_witness :
    (sampleContext true).DryRun = true ∧ (sampleContext true).Client.isNone = true ∧
    ∃ c1 : Context,
      publish.Stage.Run brokenTemplates sampleMatch [] [] (sampleContext true) =
        some (none, c1, []) ∧
      c1.DryRun = true ∧ c1.Client = (sampleContext true).Client :=
  ⟨rfl, rfl, publish_dry_run brokenTemplates sampleMatch [] [] (sampleContext true) rfl⟩

/-! ## The validation of a configuration -/

theorem Add_errors (c : Collector) (e : GoError) :
    (c.Add e).errors = c.errors ++ errorsOf (some e) := by
  cases e <;> simp [Collector.Add, errorsOf]

theorem AddIf_errors (c : Collector) (e : Option GoError) :
    (c.AddIf e).errors = c.errors ++ errorsOf e := by
  cases e with
  | none => simp [Collector.AddIf, errorsOf]
  | some e => simp [Collector.AddIf, Add_errors]

theorem result_errors (c : Collector) : errorsOf c.result = c.errors := by
  cases c with
  | mk errors =>
    cases errors with
    | nil => simp [Collector.result, Collector.HasErrors, errorsOf]
    | cons e es => simp [Collector.result, Collector.HasErrors, errorsOf, Collector.asError]

theorem result_eq (c : Collector) :
    c.result = if c.errors.isEmpty then none else some (.collector c.errors) := by
  cases c with
  | mk errors =>
    cases errors with
    | nil => simp [Collector.result, Collector.HasErrors]
    | cons e es => simp [Collector.result, Collector.HasErrors, Collector.asError]

theorem result_none (c : Collector) : c.result = none ↔ c.errors = [] := by
  cases c with
  | mk errors =>
    cases errors with
    | nil => simp [Collector.result, Collector.HasErrors]
    | cons e es => simp [Collector.result, Collector.HasErrors]

theorem addUpdates_errors (us : List SearchReplace) (c : Collector) :
    (addUpdates c us).errors = c.errors ++ (us.map (fun u => errorsOf u.validate)).flatten := by
  induction us generalizing c with
  | nil => simp [addUpdates]
  | cons u us ih => simp [addUpdates, ih, AddIf_errors, List.append_assoc]

theorem addExtras_errors (es : List ExtrasConfig) (c : Collector) :
    (addExtras c es).errors =
      c.errors ++ (es.map (fun extra => errorsOf extra.validate)).flatten := by
  induction es generalizing c with
  | nil => simp [addExtras]
  | cons e es ih => simp [addExtras, ih, AddIf_errors, List.append_assoc]

theorem Validate_errors (lower : Char → Char) (c : Config) :
    errorsOf (c.Validate lower).1 = sectionErrors lower c := by
  simp only [Config.Validate, result_errors, addExtras_errors, AddIf_errors, sectionErrors]
  congr 4
  by_cases hv : c.Version = ConfigVersion
  · cases hc : c.Chart <;> simp [hv, NewCollector, AddIf_errors, Add_errors, errorsOf, ErrNoChart]
  · cases hc : c.Chart <;> simp [hv, NewCollector, AddIf_errors, Add_errors, errorsOf, ErrNoChart]

theorem Validate_eq (lower : Char → Char) (c : Config) :
    (c.Validate lower).1 =
      if (sectionErrors lower c).isEmpty then none
      else some (.collector (sectionErrors lower c)) := by
  have h := Validate_errors lower c
  have h2 : (c.Validate lower).1 = Collector.result { errors := sectionErrors lower c } := by
    rw [← h]
    simp only [Config.Validate, result_errors]
  rw [h2, result_eq]

theorem validate_none_iff (e : Option GoError) (c : Collector) (h : e = c.result) :
    e = none ↔ errorsOf e = [] := by
  subst h
  rw [result_errors, result_none]

theorem Add_plain_keeps (c : Collector) (message : Str)
    (h : ∀ e ∈ c.errors, ∃ m, e = GoError.plain m) :
    ∀ e ∈ (c.Add (.plain message)).errors, ∃ m, e = GoError.plain m := by
  intro e he
  simp only [Collector.Add, List.mem_append, List.mem_singleton] at he
  rcases he with he | he
  · exact h e he
  · exact ⟨message, he⟩

theorem AddIf_plain_keeps (c : Collector) (x : Option GoError)
    (h : ∀ e ∈ c.errors, ∃ m, e = GoError.plain m)
    (hx : ∀ e ∈ errorsOf x, ∃ m, e = GoError.plain m) :
    ∀ e ∈ (c.AddIf x).errors, ∃ m, e = GoError.plain m := by
  intro e he
  rw [AddIf_errors, List.mem_append] at he
  rcases he with he | he
  · exact h e he
  · exact hx e he

theorem New_plain : ∀ e ∈ NewCollector.errors, ∃ m, e = GoError.plain m := by
  intro e he
  simp [NewCollector] at he

theorem chart_plain (c : ChartConfig) : ∀ e ∈ errorsOf c.validate, ∃ m, e = .plain m := by
  simp only [ChartConfig.validate, result_errors]
  split_ifs <;>
    first
    | exact New_plain
    | exact Add_plain_keeps _ _ New_plain
    | exact Add_plain_keeps _ _ (Add_plain_keeps _ _ New_plain)

theorem publish_plain (c : PublishConfig) :
    ∀ e ∈ errorsOf c.validate.1, ∃ m, e = .plain m := by
  simp only [PublishConfig.validate, result_errors]
  split_ifs <;> split <;> split <;>
    first
    | exact New_plain
    | exact Add_plain_keeps _ _ New_plain

theorem author_plain (c : CommitAuthorConfig) :
    ∀ e ∈ errorsOf c.validate, ∃ m, e = .plain m := by
  simp only [CommitAuthorConfig.validate, result_errors]
  split_ifs <;>
    first
    | exact New_plain
    | exact Add_plain_keeps _ _ New_plain
    | exact Add_plain_keeps _ _ (Add_plain_keeps _ _ New_plain)

theorem commit_plain (c : CommitConfig) :
    ∀ e ∈ errorsOf c.validate.1, ∃ m, e = .plain m := by
  have hnone : ∀ e ∈ errorsOf (none : Option GoError), ∃ m, e = GoError.plain m := by
    intro e he
    simp [errorsOf] at he
  simp only [CommitConfig.validate, result_errors]
  exact AddIf_plain_keeps _ _ (AddIf_plain_keeps _ _ New_plain (author_plain _)) hnone

theorem release_plain (lower : Char → Char) (c : ReleaseConfig) :
    ∀ e ∈ errorsOf (c.validate lower), ∃ m, e = .plain m := by
  simp only [ReleaseConfig.validate, result_errors]
  split_ifs
  · split
    · exact Add_plain_keeps _ _ New_plain
    · exact New_plain
  · exact New_plain

theorem search_plain (c : SearchReplace) :
    ∀ e ∈ errorsOf c.validate, ∃ m, e = .plain m := by
  simp only [SearchReplace.validate, result_errors]
  split_ifs <;>
    first
    | exact New_plain
    | exact Add_plain_keeps _ _ New_plain
    | exact Add_plain_keeps _ _ (Add_plain_keeps _ _ New_plain)
    | exact Add_plain_keeps _ _ (Add_plain_keeps _ _ (Add_plain_keeps _ _ New_plain))

theorem extras_plain (c : ExtrasConfig) :
    ∀ e ∈ errorsOf c.validate, ∃ m, e = .plain m := by
  intro e he
  simp only [ExtrasConfig.validate, result_errors, addUpdates_errors, List.mem_append,
    List.mem_flatten, List.mem_map] at he
  rcases he with he | ⟨l, ⟨u, _, rfl⟩, he⟩
  · split_ifs at he
    · exact Add_plain_keeps _ _ New_plain e he
    · exact Add_plain_keeps _ _ New_plain e he
    · exact New_plain e he
  · exact search_plain u e he

theorem sectionErrors_plain (lower : Char → Char) (c : Config) :
    ∀ e ∈ sectionErrors lower c, ∃ m, e = .plain m := by
  intro e he
  simp only [sectionErrors, List.mem_append, List.mem_flatten, List.mem_map] at he
  rcases he with ((((he | he) | he) | he) | he) | ⟨l, ⟨x, _, rfl⟩, he⟩
  · split_ifs at he
    · simp at he
    · simp at he
      exact ⟨_, he⟩
  · cases hc : c.Chart with
    | none =>
      simp [hc, ErrNoChart] at he
      exact ⟨_, he⟩
    | some chart =>
      simp only [hc] at he
      exact chart_plain chart e he
  · exact publish_plain _ e he
  · exact commit_plain _ e he
  · exact release_plain lower _ e he
  · exact extras_plain x e he

/-- C26. `Config.Validate` reports every problem at once. It returns nil when the
sections have no error and otherwise a collector that holds exactly the errors of
the version check, of the chart, of the publish, commit and release sections and
of each extras entry, in this order; no error it holds is itself a collector;
`Count` is the number of these errors; and it returns nil if and only if the
version is `v1`, the chart section is present and its validator returns nil, the
validators of the publish, commit and release sections (of their defaults when
absent) return nil, and the validator of every extras entry returns nil. -/
theorem Config_Validate_flat (lower : Char → Char) (c : Config) :
    (c.Validate lower).1 =
      (if (sectionErrors lower c).isEmpty then none
       else some (Collector.asError { errors := sectionErrors lower c })) ∧
    (∀ e ∈ sectionErrors lower c, ∃ message, e = .plain message) ∧
    Collector.Count { errors := errorsOf (c.Validate lower).1 } =
      (sectionErrors lower c).length ∧
    ((c.Validate lower).1 = none ↔
      c.Version = ConfigVersion ∧
      (∃ chart, c.Chart = some chart ∧ chart.validate = none) ∧
      (c.Publish.getD { Commit := none, PR := none }).validate.1 = none ∧
      (c.Commit.getD { Author := none, Templates := none }).validate.1 = none ∧
      (c.Release.getD { Matches := [], Ignores := [], Strategy := [] }).validate lower = none ∧
      ∀ extra ∈ c.Extras, extra.validate = none) := by
  refine ⟨Validate_eq lower c, sectionErrors_plain lower c, ?_, ?_⟩
  · rw [Validate_errors]
    rfl
  · rw [Validate_eq]
    have hpub := validate_none_iff
      (c.Publish.getD { Commit := none, PR := none }).validate.1 _ rfl
    have hcom := validate_none_iff
      (c.Commit.getD { Author := none, Templates := none }).validate.1 _ rfl
    have hrel := validate_none_iff
      ((c.Release.getD { Matches := [], Ignores := [], Strategy := [] }).validate lower) _ rfl
    have hchart : ∀ chart : ChartConfig, chart.validate = none ↔ errorsOf chart.validate = [] :=
      fun chart => validate_none_iff chart.validate _ rfl
    have hextra : ∀ extra : ExtrasConfig,
        extra.validate = none ↔ errorsOf extra.validate = [] :=
      fun extra => validate_none_iff extra.validate _ rfl
    rw [hpub, hcom, hrel]
    simp only [hextra]
    constructor
    · intro h
      have h0 : sectionErrors lower c = [] := by
        by_contra hne
        cases hs : sectionErrors lower c with
        | nil => exact hne hs
        | cons x xs => simp [hs] at h
      simp only [sectionErrors, List.append_eq_nil, List.flatten_eq_nil_iff, List.mem_map,
        forall_exists_index, and_imp, forall_apply_eq_imp_iff₂] at h0
      obtain ⟨⟨⟨⟨⟨h1, h2⟩, h3⟩, h4⟩, h5⟩, h6⟩ := h0
      refine ⟨?_, ?_, h3, h4, h5, h6⟩
      · by_contra hv
        simp [hv] at h1
      · cases hc : c.Chart with
        | none => simp [hc] at h2
        | some chart =>
          simp only [hc] at h2
          exact ⟨chart, rfl, (hchart chart).2 h2⟩
    · rintro ⟨h1, ⟨chart, hc, h2⟩, h3, h4, h5, h6⟩
      have h0 : sectionErrors lower c = [] := by
        simp only [sectionErrors, List.append_eq_nil, List.flatten_eq_nil_iff, List.mem_map,
          forall_exists_index, and_imp, forall_apply_eq_imp_iff₂]
        refine ⟨⟨⟨⟨⟨by simp [h1], ?_⟩, h3⟩, h4⟩, h5⟩, h6⟩
        simp only [hc]
        exact (hchart chart).1 h2
      simp [h0]

/-- C26, at the configuration of `TestConfig_Validate_Error`: the collector holds
the seven messages of the test, in order. -/
theorem Config_Validate_flat_witness :
    (Config.Validate Char.toLower testConfig).1 = some (.collector [
      .plain "error: using v1 config parser for non v1 config".toList,
      .plain "required option 'chart.name' missing from config".toList,
      .plain "required option 'chart.repo' missing from config".toList,
      .plain "invalid publish config: cannot define both 'commit' and 'pr' blocks".toList,
      .plain "commit author specifies name, but no email".toList,
      .plain ("invalid release strategy 'invalid', should be one of: " ++
        "[major minor patch default]").toList,
      .plain "extras config specifies path but no options for search/replace updates".toList])
    ∧ Collector.Count { errors := errorsOf (Config.Validate Char.toLower testConfig).1 } = 7 :=
  ⟨(Config_Validate_flat Char.toLower testConfig).1.trans rfl,
    (Config_Validate_flat Char.toLower testConfig).2.2.1.trans rfl⟩

/-! ## The repository string -/

/-- C27. `ParseRepository` splits the repository string on `/`. With exactly two
parts it returns the owner part 0, the name part 1 and the type `github`, with no
error. With exactly three parts it returns the owner part 1, the name part 2 and
the type `RepoTypeFromString` gives for part 0, which is `github`, when the
lower-cased part 0 is `github` or `github.com`, and fails otherwise, with the
error of `RepoTypeFromString` and an empty repository. With any other number of
parts it fails, with an empty repository. -/
theorem ParseRepository_spec (lower : Char → Char) (repo : Str) :
    (∀ a b, Split repo '/' = [a, b] →
      ParseRepository lower repo = ({ Typ := RepoGithub, Owner := a, Name := b }, none)) ∧
    (∀ t a b, Split repo '/' = [t, a, b] →
      (ToLower lower t = "github".toList ∨ ToLower lower t = "github.com".toList →
        ParseRepository lower repo =
          ({ Typ := (RepoTypeFromString lower t).1, Owner := a, Name := b }, none) ∧
        (RepoTypeFromString lower t).1 = RepoGithub) ∧
      (¬ (ToLower lower t = "github".toList ∨ ToLower lower t = "github.com".toList) →
        ParseRepository lower repo =
          ({ Typ := [], Owner := [], Name := [] },
            some (.plain ("unsupported repository type: ".toList ++ t ++
              " (supported: [github])".toList))))) ∧
    ((Split repo '/').length ≠ 2 → (Split repo '/').length ≠ 3 →
      ParseRepository lower repo =
        ({ Typ := [], Owner := [], Name := [] },
          some (.plain ("unexpected repository string format - should be in the " ++
            "form of REPO/OWNER/NAME").toList))) := by
  refine ⟨?_, ?_, ?_⟩
  · intro a b h
    simp [ParseRepository, h]
  · intro t a b h
    constructor
    · intro ht
      have hr : RepoTypeFromString lower t = (RepoGithub, none) := by
        unfold RepoTypeFromString
        exact if_pos ht
      simp only [ParseRepository, h, hr, and_self]
    · intro ht
      have hr : RepoTypeFromString lower t =
          ([], some (.plain ("unsupported repository type: ".toList ++ t ++
            " (supported: [github])".toList))) := by
        have e : " (supported: ".toList ++ formatList ListRepoTypes ++ ")".toList =
            " (supported: [github])".toList := by decide
        unfold RepoTypeFromString
        rw [if_neg ht, ← e]
        simp only [List.append_assoc]
      simp only [ParseRepository, h, hr]
  · intro h2 h3
    unfold ParseRepository
    split
    · rename_i h
      simp [h] at h2
    · rename_i h
      simp [h] at h3
    · rfl

/-- C27, at the strings of `TestParseRepository` and of its error tests:
`github.com/foo/bar` and `foo/bar` give the owner `foo`, the name `bar` and the
type `github`; `gitlab/foo/bar` and `foo` fail. -/
theorem ParseRepository_spec_witness :
    ParseRepository Char.toLower "github.com/foo/bar".toList =
      ({ Typ := RepoGithub, Owner := "foo".toList, Name := "bar".toList }, none) ∧
    ParseRepository Char.toLower "foo/bar".toList =
      ({ Typ := RepoGithub, Owner := "foo".toList, Name := "bar".toList }, none) ∧
    ParseRepository Char.toLower "gitlab/foo/bar".toList =
      ({ Typ := [], Owner := [], Name := [] },
        some (.plain "unsupported repository type: gitlab (supported: [github])".toList)) ∧
    ParseRepository Char.toLower "foo".toList =
      ({ Typ := [], Owner := [], Name := [] },
        some (.plain ("unexpected repository string format - should be in the " ++
          "form of REPO/OWNER/NAME").toList)) :=
  ⟨(((ParseRepository_spec Char.toLower "github.com/foo/bar".toList).2.1
      "github.com".toList "foo".toList "bar".toList (by decide)).1 (by decide)).1,
   (ParseRepository_spec Char.toLower "foo/bar".toList).1 "foo".toList "bar".toList
      (by decide),
   ((ParseRepository_spec Char.toLower "gitlab/foo/bar".toList).2.1
      "gitlab".toList "foo".toList "bar".toList (by decide)).2 (by decide),
   (ParseRepository_spec Char.toLower "foo".toList).2.2 (by decide) (by decide)⟩

/-! ## Claims the code does not keep -/

/-- C28. `Compare` after an increment at the level `Prerelease` does not follow
the visible fields. `IncrementNew(LevelPrerelease)` on `1.0.0` returns
`1.0.0-pre.1`, whose `Compare` with `0.5.0` is -1, while the version loaded from
`1.0.0-pre.1` compares as 1: the copy holds a zero `v`, which `IncrementPrerelease`
does not rebuild. `Increment(LevelPrerelease)` on `1.0.0` leaves `1.0.0-pre.1`,
whose `Compare` with `1.0.0` is 0, while the version loaded from `1.0.0-pre.1`
compares as -1: `v` is still `1.0.0`. At the level `Major` the two agree. -/
theorem Compare_after_prerelease_increment :
    compareAfterIncrementNew "1.0.0".toList LevelPrerelease "0.5.0".toList =
      some ("1.0.0-pre.1".toList, -1, 1) ∧
    compareAfterIncrement "1.0.0".toList LevelPrerelease "1.0.0".toList =
      some ("1.0.0-pre.1".toList, 0, -1) ∧
    compareAfterIncrementNew "1.0.0".toList LevelMajor "0.5.0".toList =
      some ("2.0.0".toList, 1, 1) := by
  decide

/-- C29. An update that succeeds and does not move the chart forward, at the
context of `TestUpdateRelease_Default`: chart `1.2.3-alpha.1` with the application
going from `0.1.0` to `0.2.0-pre.1` under the default strategy. `UpdateRelease`
returns `1.2.3-alpha.2`, and the version loaded from that string compares as 0
with `OldChartVersion`, not as 1: the increment on the copy wrote into the array
that `OldChartVersion.v.Pre` reads. A chart `1.2.3` with the application going
from `0.1.0` to `0.2.0` gives `1.2.4`, which compares as 1. -/
theorem UpdateRelease_not_forward :
    updateThenCompare "0.1.0".toList "0.2.0-pre.1".toList "1.2.3-alpha.1".toList
      UpdateDefault = some ("1.2.3-alpha.2".toList, 0) ∧
    updateThenCompare "0.1.0".toList "0.2.0".toList "1.2.3".toList UpdateDefault =
      some ("1.2.4".toList, 1) := by
  decide

/-- C30. A chart section that passes validation and whose repository does not
parse: for the name `x` and the repository `github.com`, `validate` returns nil,
since the repository starts with `github.com`, and `ParseRepository` fails, since
the string has one part. The repository `github.community/foo/bar` passes
validation as well and fails in `RepoTypeFromString`. -/
theorem validate_accepts_unparsable :
    ChartConfig.validate { Name := "x".toList, Repo := "github.com".toList, Path := [] } = none ∧
    ParseRepository Char.toLower "github.com".toList =
      ({ Typ := [], Owner := [], Name := [] },
        some (.plain ("unexpected repository string format - should be in the " ++
          "form of REPO/OWNER/NAME").toList)) ∧
    ChartConfig.validate
      { Name := "x".toList, Repo := "github.community/foo/bar".toList, Path := [] } = none ∧
    ParseRepository Char.toLower "github.community/foo/bar".toList =
      ({ Typ := [], Owner := [], Name := [] },
        some (.plain ("unsupported repository type: github.community " ++
          "(supported: [github])").toList)) :=
  ⟨rfl, rfl, rfl, rfl⟩

end ChartReleaser
